import Mathlib

/-!
Shallow embedding of the gnumach physical-memory subsystem:
the per-segment binary-buddy page allocator with per-CPU page caches
(vm/vm_page.c) and the early BIOS memory-map / bootstrap allocator
(i386/i386at/biosmem.c).

Machine integers are modelled as Nat, with explicit reduction modulo
2^32 / 2^64 at the operations where the C performs wrapping unsigned
arithmetic.  Intrusive doubly-linked lists are modelled as Lean lists of
page indices (list_insert_head = cons, list_first_entry = head,
list_remove = erase).  Arrays indexed by small integers are modelled as
functions from Nat.
-/

/-! ## Basic constants (mach/vm_param.h values: 4 KiB pages) -/

def PAGE_SIZE : Nat := 4096

def vm_page_atop (x : Nat) : Nat := x / PAGE_SIZE

def vm_page_ptoa (x : Nat) : Nat := x * PAGE_SIZE

/-- Number of free block lists per segment (VM_PAGE_NR_FREE_LISTS). -/
def K : Nat := 11

/-- Page types (vm/vm_page.h).  Only the distinctions used by vm_page.c
matter: FREE marks pages in the buddy/cache, PMAP triggers the panic in
vm_page_alloc_pa. -/
inductive PType where
  | FREE
  | RESERVED
  | TABLE
  | PMAP
  | KERNEL
deriving DecidableEq, Repr

/-! ## Page descriptors, free lists, segments (struct vm_page, struct
vm_page_free_list, struct vm_page_seg) -/

/-- struct vm_page: the fields vm_page.c reads or writes.
order = none models VM_PAGE_ORDER_UNLISTED. -/
structure VmPage where
  phys_addr : Nat
  order : Option Nat
  ptype : PType
  seg_index : Nat
deriving DecidableEq, Repr

/-- struct vm_page_free_list: a size counter plus the block list
(the C keeps an intrusive doubly-linked list; we keep the page indices,
head first). -/
structure VmPageFreeList where
  size : Nat
  blocks : List Nat
deriving DecidableEq, Repr

/-- struct vm_page_cpu_pool (the per-CPU cache), minus the lock. -/
structure VmPageCpuPool where
  size : Nat
  transfer_size : Nat
  nr_pages : Nat
  pages : List Nat
deriving DecidableEq, Repr

/-- struct vm_page_seg, minus the lock and the per-CPU pools (the pool of
the one modelled CPU is carried alongside in VmSegCpu).  pages is the
descriptor array as a function of the page index; only indices below
vm_page_atop (endAddr - start) are meaningful (pages_end). -/
structure VmPageSeg where
  start : Nat
  endAddr : Nat
  pages : Nat → VmPage
  free_lists : Nat → VmPageFreeList
  nr_free_pages : Nat

/-- Number of descriptors of a segment: seg->pages_end - seg->pages. -/
def segPagesCount (seg : VmPageSeg) : Nat := vm_page_atop (seg.endAddr - seg.start)

def setList (seg : VmPageSeg) (i : Nat) (fl : VmPageFreeList) : VmPageSeg :=
  { seg with free_lists := Function.update seg.free_lists i fl }

def setPageOrder (seg : VmPageSeg) (idx : Nat) (o : Option Nat) : VmPageSeg :=
  { seg with pages := Function.update seg.pages idx { seg.pages idx with order := o } }

/-- vm_page_free_list_insert: size++, list_insert_head. -/
def vm_page_free_list_insert (fl : VmPageFreeList) (idx : Nat) : VmPageFreeList :=
  ⟨fl.size + 1, idx :: fl.blocks⟩

/-- vm_page_free_list_remove: size--, list_remove. -/
def vm_page_free_list_remove (fl : VmPageFreeList) (idx : Nat) : VmPageFreeList :=
  ⟨fl.size - 1, fl.blocks.erase idx⟩

/-! ## Buddy allocation (vm_page_seg_alloc_from_buddy) -/

/-- The scan at the top of vm_page_seg_alloc_from_buddy: the first
i in [ord, K) whose free list has nonzero size. -/
def vm_page_find_list (seg : VmPageSeg) (ord : Nat) : Option Nat :=
  (List.range' ord (K - ord)).find? (fun i => decide ((seg.free_lists i).size ≠ 0))

/-- The while (i > order) splitting loop of vm_page_seg_alloc_from_buddy.
The last argument is the loop variable i. -/
def vm_page_split_loop (seg : VmPageSeg) (pageIdx ord : Nat) : Nat → VmPageSeg
  | 0 => seg
  | i + 1 =>
    if ord ≤ i then
      let buddyIdx := pageIdx + 2 ^ i
      let seg1 := setList seg i (vm_page_free_list_insert (seg.free_lists i) buddyIdx)
      vm_page_split_loop (setPageOrder seg1 buddyIdx (some i)) pageIdx ord i
    else
      seg

/-- vm_page_seg_alloc_from_buddy.  Returns the index of the allocated
block head together with the updated segment, or none (NULL).
The inner [] case is unreachable whenever size counters match list
lengths (the C would read garbage through list_first_entry there). -/
def vm_page_seg_alloc_from_buddy (seg : VmPageSeg) (ord : Nat) : Option (Nat × VmPageSeg) :=
  match vm_page_find_list seg ord with
  | none => none
  | some i =>
    match (seg.free_lists i).blocks with
    | [] => none
    | pageIdx :: _ =>
      let seg1 := setList seg i (vm_page_free_list_remove (seg.free_lists i) pageIdx)
      let seg2 := setPageOrder seg1 pageIdx none
      let seg3 := vm_page_split_loop seg2 pageIdx ord i
      some (pageIdx, { seg3 with nr_free_pages := seg3.nr_free_pages - 2 ^ ord })

/-! ## Buddy free (vm_page_seg_free_to_buddy) -/

/-- The coalescing while loop of vm_page_seg_free_to_buddy.  The fuel
argument only bounds the recursion; since ord strictly increases and the
loop requires ord < K - 1, any fuel ≥ K makes it equal to the C loop.
pa &= -vm_page_ptoa(1 << order) is align-down, written pa - pa % blocksize. -/
def vm_page_free_loop (seg : VmPageSeg) (pa ord : Nat) : Nat → VmPageSeg × Nat × Nat
  | 0 => (seg, pa, ord)
  | fuel + 1 =>
    if ord < K - 1 then
      let buddy_pa := pa ^^^ vm_page_ptoa (2 ^ ord)
      if buddy_pa < seg.start ∨ seg.endAddr ≤ buddy_pa then
        (seg, pa, ord)
      else
        let buddyIdx := vm_page_atop (buddy_pa - seg.start)
        if (seg.pages buddyIdx).order ≠ some ord then
          (seg, pa, ord)
        else
          let seg1 := setList seg ord (vm_page_free_list_remove (seg.free_lists ord) buddyIdx)
          let seg2 := setPageOrder seg1 buddyIdx none
          let bs := vm_page_ptoa (2 ^ (ord + 1))
          vm_page_free_loop seg2 (pa - pa % bs) (ord + 1) fuel
    else
      (seg, pa, ord)

/-- vm_page_seg_free_to_buddy: coalesce then insert into the final free
list, set the head's order and add 2^(original order) to nr_free_pages. -/
def vm_page_seg_free_to_buddy (seg : VmPageSeg) (pageIdx ord : Nat) : VmPageSeg :=
  let nr := 2 ^ ord
  let pa := (seg.pages pageIdx).phys_addr
  let r := vm_page_free_loop seg pa ord K
  let seg1 := r.1
  let pa2 := r.2.1
  let ord2 := r.2.2
  let finalIdx := vm_page_atop (pa2 - seg1.start)
  let seg2 := setList seg1 ord2 (vm_page_free_list_insert (seg1.free_lists ord2) finalIdx)
  let seg3 := setPageOrder seg2 finalIdx (some ord2)
  { seg3 with nr_free_pages := seg3.nr_free_pages + nr }

/-! ## Per-CPU pools (cache) -/

/-- vm_page_cpu_pool_push. -/
def vm_page_cpu_pool_push (pool : VmPageCpuPool) (idx : Nat) : VmPageCpuPool :=
  ⟨pool.size, pool.transfer_size, pool.nr_pages + 1, idx :: pool.pages⟩

/-- vm_page_cpu_pool_pop.  none models the asserted-unreachable empty
case. -/
def vm_page_cpu_pool_pop (pool : VmPageCpuPool) : Option (Nat × VmPageCpuPool) :=
  match pool.pages with
  | [] => none
  | idx :: rest => some (idx, ⟨pool.size, pool.transfer_size, pool.nr_pages - 1, rest⟩)

/-- The for loop of vm_page_cpu_pool_fill; the Nat argument is the
remaining iteration count (started at transfer_size).  Returns the
number of pages transferred (the C loop's final i) with the updated pool
and segment. -/
def vm_page_cpu_pool_fill_loop (pool : VmPageCpuPool) (seg : VmPageSeg) :
    Nat → Nat × VmPageCpuPool × VmPageSeg
  | 0 => (0, pool, seg)
  | n + 1 =>
    match vm_page_seg_alloc_from_buddy seg 0 with
    | none => (0, pool, seg)
    | some (idx, seg1) =>
      let r := vm_page_cpu_pool_fill_loop (vm_page_cpu_pool_push pool idx) seg1 n
      (r.1 + 1, r.2)

/-- vm_page_cpu_pool_fill. -/
def vm_page_cpu_pool_fill (pool : VmPageCpuPool) (seg : VmPageSeg) :
    Nat × VmPageCpuPool × VmPageSeg :=
  vm_page_cpu_pool_fill_loop pool seg pool.transfer_size

/-- The for loop of vm_page_cpu_pool_drain (i = transfer_size; i > 0; i--). -/
def vm_page_cpu_pool_drain_loop (pool : VmPageCpuPool) (seg : VmPageSeg) :
    Nat → VmPageCpuPool × VmPageSeg
  | 0 => (pool, seg)
  | n + 1 =>
    match vm_page_cpu_pool_pop pool with
    | none => (pool, seg)
    | some (idx, pool1) =>
      vm_page_cpu_pool_drain_loop pool1 (vm_page_seg_free_to_buddy seg idx 0) n

/-- vm_page_cpu_pool_drain. -/
def vm_page_cpu_pool_drain (pool : VmPageCpuPool) (seg : VmPageSeg) :
    VmPageCpuPool × VmPageSeg :=
  vm_page_cpu_pool_drain_loop pool seg pool.transfer_size

/-! ## Segment-level allocate / free (vm_page_seg_alloc, vm_page_seg_free) -/

/-- A segment together with the calling CPU's pool (the model has one
CPU, so this is seg->cpu_pools[cpu_number()]). -/
structure VmSegCpu where
  seg : VmPageSeg
  cpu_pool : VmPageCpuPool

/-- vm_page_set_type: sets the type of the 2^order pages of a block.
The C does this with a loop over the descriptors; written pointwise. -/
def vm_page_set_type (seg : VmPageSeg) (pageIdx ord : Nat) (ty : PType) : VmPageSeg :=
  { seg with
    pages := fun m =>
      if pageIdx ≤ m ∧ m < pageIdx + 2 ^ ord then
        { seg.pages m with ptype := ty }
      else
        seg.pages m }

/-- vm_page_seg_alloc.  Order 0 uses the CPU pool (refilling it from the
buddy when empty); higher orders go straight to the buddy.  The popped /
allocated block is retyped with vm_page_set_type. -/
def vm_page_seg_alloc (s : VmSegCpu) (ord : Nat) (ty : PType) : Option (Nat × VmSegCpu) :=
  if ord = 0 then
    if s.cpu_pool.nr_pages = 0 then
      let r := vm_page_cpu_pool_fill s.cpu_pool s.seg
      if r.1 = 0 then
        none
      else
        match vm_page_cpu_pool_pop r.2.1 with
        | none => none
        | some (idx, pool2) => some (idx, ⟨vm_page_set_type r.2.2 idx 0 ty, pool2⟩)
    else
      match vm_page_cpu_pool_pop s.cpu_pool with
      | none => none
      | some (idx, pool2) => some (idx, ⟨vm_page_set_type s.seg idx 0 ty, pool2⟩)
  else
    match vm_page_seg_alloc_from_buddy s.seg ord with
    | none => none
    | some (idx, seg1) => some (idx, ⟨vm_page_set_type seg1 idx ord ty, s.cpu_pool⟩)

/-- vm_page_seg_free.  Order 0 pushes onto the CPU pool, draining half of
it to the buddy first when full; higher orders free straight to the
buddy. -/
def vm_page_seg_free (s : VmSegCpu) (pageIdx ord : Nat) : VmSegCpu :=
  let seg0 := vm_page_set_type s.seg pageIdx ord PType.FREE
  if ord = 0 then
    let r :=
      if s.cpu_pool.nr_pages = s.cpu_pool.size then
        vm_page_cpu_pool_drain s.cpu_pool seg0
      else
        (s.cpu_pool, seg0)
    ⟨r.2, vm_page_cpu_pool_push r.1 pageIdx⟩
  else
    ⟨vm_page_seg_free_to_buddy seg0 pageIdx ord, s.cpu_pool⟩

/-! ## Segment initialization (vm_page_seg_init and helpers) -/

/-- vm_page_seg_compute_pool_size: frames / 1024 (VM_PAGE_CPU_POOL_*
divisor), clamped to [1, 128]. -/
def vm_page_seg_compute_pool_size (startAddr endAddr : Nat) : Nat :=
  let size := vm_page_atop (endAddr - startAddr) / 1024
  if size = 0 then 1 else if size > 128 then 128 else size

/-- vm_page_cpu_pool_init: transfer_size = ceil(size / 2). -/
def vm_page_cpu_pool_init (size : Nat) : VmPageCpuPool :=
  ⟨size, (size + 2 - 1) / 2, 0, []⟩

/-- vm_page_seg_init: empty free lists, nr_free_pages = 0, every
descriptor initialized by vm_page_init_pa (RESERVED, order UNLISTED,
phys_addr start + index * PAGE_SIZE). -/
def vm_page_seg_init (startAddr endAddr segIndex : Nat) : VmSegCpu :=
  { seg :=
      { start := startAddr
        endAddr := endAddr
        pages := fun idx => ⟨startAddr + idx * PAGE_SIZE, none, PType.RESERVED, segIndex⟩
        free_lists := fun _ => ⟨0, []⟩
        nr_free_pages := 0 }
    cpu_pool := vm_page_cpu_pool_init (vm_page_seg_compute_pool_size startAddr endAddr) }

/-! ## Segment table, selector dispatch (vm_page_alloc_pa, vm_page_free_pa) -/

/-- Allocation selectors (VM_PAGE_SEL_*). -/
inductive VmSel where
  | DMA
  | DMA32
  | DIRECTMAP
  | HIGHMEM
deriving DecidableEq, Repr

/-- Segment indices VM_PAGE_SEG_*.  vm_param.h is not under src/;
modelled from the spec: four distinct priority-ordered segments. -/
def VM_PAGE_SEG_DMA : Nat := 0
def VM_PAGE_SEG_DMA32 : Nat := 1
def VM_PAGE_SEG_DIRECTMAP : Nat := 2
def VM_PAGE_SEG_HIGHMEM : Nat := 3

def selSegIndex : VmSel → Nat
  | .DMA => VM_PAGE_SEG_DMA
  | .DMA32 => VM_PAGE_SEG_DMA32
  | .DIRECTMAP => VM_PAGE_SEG_DIRECTMAP
  | .HIGHMEM => VM_PAGE_SEG_HIGHMEM

/-- The loaded segment table (vm_page_segs with vm_page_segs_size). -/
structure VmState where
  segs : Nat → VmSegCpu
  segs_size : Nat

/-- vm_page_select_alloc_seg: MIN(vm_page_segs_size - 1, seg_index). -/
def vm_page_select_alloc_seg (st : VmState) (sel : VmSel) : Nat :=
  min (st.segs_size - 1) (selSegIndex sel)

/-- The downward for loop of vm_page_alloc_pa (i = start; i <
segs_size; i--, with unsigned wrap ending the loop below 0).  Returns
(segment index, page index, new state) on success. -/
def vm_page_alloc_pa_loop (st : VmState) (ord : Nat) (ty : PType) :
    Nat → Option (Nat × Nat × VmState)
  | 0 =>
    if 0 < st.segs_size then
      match vm_page_seg_alloc (st.segs 0) ord ty with
      | none => none
      | some (idx, s1) => some (0, idx, { st with segs := Function.update st.segs 0 s1 })
    else
      none
  | i + 1 =>
    if i + 1 < st.segs_size then
      match vm_page_seg_alloc (st.segs (i + 1)) ord ty with
      | none => vm_page_alloc_pa_loop st ord ty i
      | some (idx, s1) =>
        some (i + 1, idx, { st with segs := Function.update st.segs (i + 1) s1 })
    else
      none

/-- vm_page_alloc_pa.  .error models the panic for VM_PT_PMAP
exhaustion; .ok none is the ordinary NULL return. -/
def vm_page_alloc_pa (st : VmState) (ord : Nat) (sel : VmSel) (ty : PType) :
    Except String (Option (Nat × Nat × VmState)) :=
  match vm_page_alloc_pa_loop st ord ty (vm_page_select_alloc_seg st sel) with
  | some r => .ok (some r)
  | none =>
    if ty = PType.PMAP then
      .error "vm_page: unable to allocate pmap page"
    else
      .ok none

/-- vm_page_free_pa: dispatch on the page's seg_index (passed here as
segIdx = page->seg_index). -/
def vm_page_free_pa (st : VmState) (segIdx pageIdx ord : Nat) : VmState :=
  { st with segs := Function.update st.segs segIdx (vm_page_seg_free (st.segs segIdx) pageIdx ord) }

/-! ## Buddy/segment well-formedness invariants -/

/-- Sum over the free lists of size * 2^order: the page count the lists
account for. -/
def freeSum (seg : VmPageSeg) : Nat :=
  ∑ i ∈ Finset.range K, (seg.free_lists i).size * 2 ^ i

/-- Geometric well-formedness of a segment: page-aligned bounds and the
phys_addr formula for every descriptor. -/
def SegGeom (seg : VmPageSeg) : Prop :=
  PAGE_SIZE ∣ seg.start ∧ seg.start ≤ seg.endAddr ∧ PAGE_SIZE ∣ seg.endAddr ∧
  ∀ idx, idx < segPagesCount seg → (seg.pages idx).phys_addr = seg.start + idx * PAGE_SIZE

/-- Free list well-formedness: size counters match list lengths, no
duplicates, recorded orders are below K, and a descriptor is on free
list i exactly when its order field is i. -/
def SegLists (seg : VmPageSeg) : Prop :=
  (∀ i, i < K → (seg.free_lists i).size = (seg.free_lists i).blocks.length) ∧
  (∀ i, i < K → (seg.free_lists i).blocks.Nodup) ∧
  (∀ idx, idx < segPagesCount seg → (seg.pages idx).order.getD 0 < K) ∧
  (∀ idx, idx < segPagesCount seg → ∀ i, i < K →
    (idx ∈ (seg.free_lists i).blocks ↔ (seg.pages idx).order = some i))

/-- Block well-formedness: every listed block lies inside the segment,
its physical address is aligned to the block size, and its non-head
pages are unlisted. -/
def SegBlocks (seg : VmPageSeg) : Prop :=
  ∀ i, i < K → ∀ idx ∈ (seg.free_lists i).blocks,
    idx + 2 ^ i ≤ segPagesCount seg ∧
    (2 ^ i * PAGE_SIZE) ∣ (seg.start + idx * PAGE_SIZE) ∧
    ∀ j, j < 2 ^ i → 0 < j → (seg.pages (idx + j)).order = none

/-- The free-list accounting invariant of the spec plus the structural
facts needed to preserve it. -/
def SegInv (seg : VmPageSeg) : Prop :=
  SegGeom seg ∧ SegLists seg ∧ SegBlocks seg ∧ seg.nr_free_pages = freeSum seg

/-- Preconditions of vm_page_seg_free_to_buddy for a block of 2^ord
pages headed at pageIdx: the block is inside the segment, all its pages
are unlisted (order UNLISTED: allocated, not free), its physical address
is aligned to its size, and it does not overlap any listed free block
(no double free). -/
def CanFree (seg : VmPageSeg) (pageIdx ord : Nat) : Prop :=
  ord < K ∧
  pageIdx + 2 ^ ord ≤ segPagesCount seg ∧
  (∀ j, j < 2 ^ ord → (seg.pages (pageIdx + j)).order = none) ∧
  (2 ^ ord * PAGE_SIZE) ∣ (seg.start + pageIdx * PAGE_SIZE) ∧
  ∀ i, i < K → ∀ h ∈ (seg.free_lists i).blocks,
    h + 2 ^ i ≤ pageIdx ∨ pageIdx + 2 ^ ord ≤ h

/-- Pool well-formedness relative to its segment: the counter matches
the list, no duplicates, and every cached page is a valid, unlisted
order-0 page lying outside every listed free block. -/
def PoolInv (seg : VmPageSeg) (pool : VmPageCpuPool) : Prop :=
  pool.nr_pages = pool.pages.length ∧
  pool.transfer_size ≤ pool.size ∧
  pool.pages.Nodup ∧
  ∀ p ∈ pool.pages,
    p < segPagesCount seg ∧
    (seg.pages p).order = none ∧
    ∀ i, i < K → ∀ h ∈ (seg.free_lists i).blocks, ¬(h ≤ p ∧ p < h + 2 ^ i)

def SegCpuInv (s : VmSegCpu) : Prop := SegInv s.seg ∧ PoolInv s.seg s.cpu_pool

/-- Invariant of the whole segment table. -/
def StateInv (st : VmState) : Prop :=
  ∀ k, k < st.segs_size → SegCpuInv (st.segs k)

/-- m lies inside some listed free block of the segment. -/
def InBlocks (seg : VmPageSeg) (m : Nat) : Prop :=
  ∃ i, i < K ∧ ∃ h, h ∈ (seg.free_lists i).blocks ∧ h ≤ m ∧ m < h + 2 ^ i

/-- Invariant of the coalescing loop of vm_page_seg_free_to_buddy,
relating the original segment seg0 (in which the block headed at idx0 of
order ord0 was freed) to the current segment seg with its current
floating block [idx, idx + 2^ord). -/
structure BuddyFreeMid (seg0 seg : VmPageSeg) (idx0 ord0 idx ord : Nat) : Prop where
  geom : SegGeom seg
  lists : SegLists seg
  blocks : SegBlocks seg
  ordLo : ord0 ≤ ord
  ordHi : ord < K
  sum : freeSum seg + 2 ^ ord = freeSum seg0 + 2 ^ ord0
  nr : seg.nr_free_pages = seg0.nr_free_pages
  sameStart : seg.start = seg0.start
  sameEnd : seg.endAddr = seg0.endAddr
  range : idx + 2 ^ ord ≤ segPagesCount seg0
  lo : idx ≤ idx0
  hi : idx0 < idx + 2 ^ ord
  unlisted : ∀ j, j < 2 ^ ord → (seg.pages (idx + j)).order = none
  disj : ∀ i2, i2 < K → ∀ h ∈ (seg.free_lists i2).blocks, h + 2 ^ i2 ≤ idx ∨ idx + 2 ^ ord ≤ h
  align : (2 ^ ord * PAGE_SIZE) ∣ (seg0.start + idx * PAGE_SIZE)
  phys : ∀ m, (seg.pages m).phys_addr = (seg0.pages m).phys_addr
  outside : ∀ m, m < idx ∨ idx + 2 ^ ord ≤ m → (seg.pages m).order = (seg0.pages m).order
  sub : ∀ i2, i2 < K → ∀ h ∈ (seg.free_lists i2).blocks, h ∈ (seg0.free_lists i2).blocks
  tile : ∀ m, idx ≤ m → m < idx + 2 ^ ord →
    (idx0 ≤ m ∧ m < idx0 + 2 ^ ord0) ∨ InBlocks seg0 m

/-! ## biosmem: the firmware memory map (i386/i386at/biosmem.c) -/

def U64 : Nat := 2 ^ 64
def U32 : Nat := 2 ^ 32

/-- uint64_t addition. -/
def add64 (a b : Nat) : Nat := (a + b) % U64

/-- uint64_t subtraction (operands below 2^64). -/
def sub64 (a b : Nat) : Nat := (a + (U64 - b % U64)) % U64

/-- struct biosmem_map_entry. -/
structure BiosmemMapEntry where
  base_addr : Nat
  length : Nat
  type : Nat
deriving DecidableEq, Repr

def BIOSMEM_TYPE_AVAILABLE : Nat := 1
def BIOSMEM_TYPE_RESERVED : Nat := 2

/-- Capacity of biosmem_map: BIOSMEM_MAX_MAP_SIZE * 2. -/
def BIOSMEM_MAP_CAPACITY : Nat := 256

def entryDefault : BiosmemMapEntry := ⟨0, 0, 0⟩

/-- biosmem_map_entry_is_invalid: base + length (mod 2^64) <= base. -/
def biosmem_map_entry_is_invalid (e : BiosmemMapEntry) : Bool :=
  add64 e.base_addr e.length ≤ e.base_addr

/-- biosmem_map_filter: order-preserving removal of invalid entries. -/
def biosmem_map_filter (m : List BiosmemMapEntry) : List BiosmemMapEntry :=
  m.filter (fun e => ! biosmem_map_entry_is_invalid e)

/-- One insertion of biosmem_map_sort's insertion sort: the new entry is
shifted left past every entry whose base_addr is not smaller. -/
def biosmem_insert_sorted (e : BiosmemMapEntry) :
    List BiosmemMapEntry → List BiosmemMapEntry
  | [] => [e]
  | x :: xs =>
    if x.base_addr < e.base_addr then x :: biosmem_insert_sorted e xs
    else e :: x :: xs

/-- biosmem_map_sort (simple insertion sort by base_addr). -/
def biosmem_map_sort (m : List BiosmemMapEntry) : List BiosmemMapEntry :=
  m.foldl (fun acc x => biosmem_insert_sorted x acc) []

/-- Which continuation the overlap-resolution body of biosmem_map_adjust
takes after rewriting the pair. -/
inductive AdjustPairCase where
  | bothInvalid
  | aInvalid
  | bInvalid
  | mergeA
  | mergeB
  | append
deriving DecidableEq, Repr

structure AdjustPairResult where
  newA : BiosmemMapEntry
  newB : BiosmemMapEntry
  tmp : BiosmemMapEntry
  kase : AdjustPairCase
deriving DecidableEq, Repr

/-- first->length += tmp.length (extending first->base_addr down to
tmp's if needed): the merge of the overlap into a neighbor. -/
def biosmem_merge_into (f tmp : BiosmemMapEntry) : BiosmemMapEntry :=
  let f1 := if f.base_addr > tmp.base_addr then { f with base_addr := tmp.base_addr } else f
  { f1 with length := add64 f1.length tmp.length }

/-- The body of biosmem_map_adjust's inner loop for one overlapping pair
(a at index i, b at index j > i), lines 250-317.  a_end is the value
computed at the top of the enclosing i iteration (NOT recomputed after a
is modified: it can be stale).  Returns the final values of entries a
and b, the overlap entry tmp, and which continuation the C takes. -/
def biosmem_map_adjust_pair (a b : BiosmemMapEntry) (a_end : Nat) : AdjustPairResult :=
  let b_end := add64 b.base_addr b.length
  let firstIsA := a.base_addr < b.base_addr
  let last_end := if a_end > b_end then a_end else b_end
  let last_type := if a_end > b_end then a.type else b.type
  let tmpBase := if firstIsA then b.base_addr else a.base_addr
  let tmp : BiosmemMapEntry := ⟨tmpBase, sub64 (min a_end b_end) tmpBase, max a.type b.type⟩
  let first0 := if firstIsA then a else b
  let second0 := if firstIsA then b else a
  let first1 := { first0 with length := sub64 tmp.base_addr first0.base_addr }
  let sBase := add64 second0.base_addr tmp.length
  let second1 : BiosmemMapEntry := ⟨sBase, sub64 last_end sBase, last_type⟩
  let a1 := if firstIsA then first1 else second1
  let b1 := if firstIsA then second1 else first1
  if biosmem_map_entry_is_invalid a1 ∧ biosmem_map_entry_is_invalid b1 then
    ⟨a1, b1, tmp, .bothInvalid⟩
  else if biosmem_map_entry_is_invalid a1 then
    ⟨a1, b1, tmp, .aInvalid⟩
  else if biosmem_map_entry_is_invalid b1 then
    ⟨a1, b1, tmp, .bInvalid⟩
  else if tmp.type = a1.type then
    ⟨biosmem_merge_into a1 tmp, b1, tmp, .mergeA⟩
  else if tmp.type = b1.type then
    ⟨a1, biosmem_merge_into b1 tmp, tmp, .mergeB⟩
  else
    ⟨a1, b1, tmp, .append⟩

/-- Results of the adjust loops: .panic is boot_panic(toobig); outOfFuel
never occurs for the fuel adjust passes (the loops always terminate: the
inner loop either advances j, shrinks the map, or appends below the
capacity bound). -/
inductive AdjRes where
  | ok (m : List BiosmemMapEntry)
  | panic
  | outOfFuel
deriving DecidableEq, Repr

/-- The inner while (j < biosmem_map_size) loop of biosmem_map_adjust
for the i-th entry, with its (possibly stale) a_end. -/
def biosmem_map_adjust_inner (i a_end : Nat) (m : List BiosmemMapEntry) (j : Nat) :
    Nat → AdjRes
  | 0 => .outOfFuel
  | fuel + 1 =>
    if j < m.length then
      let a := m.getD i entryDefault
      let b := m.getD j entryDefault
      let b_end := add64 b.base_addr b.length
      if b_end ≤ a.base_addr ∨ a_end ≤ b.base_addr then
        biosmem_map_adjust_inner i a_end m (j + 1) fuel
      else
        let r := biosmem_map_adjust_pair a b a_end
        match r.kase with
        | .bothInvalid =>
          biosmem_map_adjust_inner i a_end ((m.set i r.tmp).eraseIdx j) j fuel
        | .aInvalid =>
          biosmem_map_adjust_inner i a_end ((m.set i r.tmp).set j r.newB) (j + 1) fuel
        | .bInvalid =>
          biosmem_map_adjust_inner i a_end ((m.set i r.newA).set j r.tmp) (j + 1) fuel
        | .mergeA =>
          biosmem_map_adjust_inner i a_end ((m.set i r.newA).set j r.newB) (j + 1) fuel
        | .mergeB =>
          biosmem_map_adjust_inner i a_end ((m.set i r.newA).set j r.newB) (j + 1) fuel
        | .append =>
          if BIOSMEM_MAP_CAPACITY ≤ m.length then
            .panic
          else
            biosmem_map_adjust_inner i a_end ((m.set i r.newA).set j r.newB ++ [r.tmp]) (j + 1) fuel
    else
      .ok m

/-- The outer for (i...) loop of biosmem_map_adjust. -/
def biosmem_map_adjust_outer (m : List BiosmemMapEntry) (i : Nat) : Nat → AdjRes
  | 0 => .outOfFuel
  | fuel + 1 =>
    if i < m.length then
      let a := m.getD i entryDefault
      match biosmem_map_adjust_inner i (add64 a.base_addr a.length) m (i + 1) 2048 with
      | .ok m1 => biosmem_map_adjust_outer m1 (i + 1) fuel
      | .panic => .panic
      | .outOfFuel => .outOfFuel
    else
      .ok m

/-- biosmem_map_adjust: filter, resolve overlaps pairwise, then sort. -/
def biosmem_map_adjust (m : List BiosmemMapEntry) : AdjRes :=
  match biosmem_map_adjust_outer (biosmem_map_filter m) 0 2048 with
  | .ok m1 => .ok (biosmem_map_sort m1)
  | r => r

/-! ## biosmem: segment partitioning (biosmem_bootstrap_common) -/

/-- vm_page_round on uint64 (align up, sum wrapping mod 2^64). -/
def vm_page_round64 (x : Nat) : Nat :=
  add64 x (PAGE_SIZE - 1) - add64 x (PAGE_SIZE - 1) % PAGE_SIZE

/-- vm_page_trunc (align down). -/
def vm_page_trunc64 (x : Nat) : Nat := x - x % PAGE_SIZE

/-- The entry scan of biosmem_map_find_avail.  seg_start / seg_end use
Option for the (phys_addr_t)-1 sentinels. -/
def biosmem_map_find_avail_loop (ps pe : Nat) :
    List BiosmemMapEntry → Option Nat → Option Nat → Option Nat × Option Nat
  | [], segStart, segEnd => (segStart, segEnd)
  | e :: rest, segStart, segEnd =>
    if e.type ≠ BIOSMEM_TYPE_AVAILABLE then
      biosmem_map_find_avail_loop ps pe rest segStart segEnd
    else
      let s := vm_page_round64 e.base_addr
      if pe ≤ s then
        (segStart, segEnd)
      else
        let en := vm_page_trunc64 (add64 e.base_addr e.length)
        if s < en ∧ s < pe ∧ ps < en then
          biosmem_map_find_avail_loop ps pe rest (some (segStart.getD s)) (some en)
        else
          biosmem_map_find_avail_loop ps pe rest segStart segEnd

/-- biosmem_map_find_avail: on success returns the clamped
(phys_start, phys_end). -/
def biosmem_map_find_avail (m : List BiosmemMapEntry) (ps pe : Nat) : Option (Nat × Nat) :=
  match biosmem_map_find_avail_loop ps pe m none none with
  | (some s, some en) => some (max ps s, min pe en)
  | _ => none

/-- Physical address window limits used by biosmem_bootstrap_common.
BIOSMEM_BASE and the VM_PAGE_*_LIMIT constants live in headers not under
src/; modelled from the spec: a BIOS base and ascending per-class
ceilings, with VM_PAGE_DMA32_LIMIT defined. -/
structure BiosmemConfig where
  biosmem_base : Nat
  dma_limit : Nat
  dma32_limit : Nat
  directmap_limit : Nat
  highmem_limit : Nat

/-- The segment-partitioning tail of biosmem_bootstrap_common (after
biosmem_map_adjust): load DMA (mandatory), then DMA32, DIRECTMAP,
HIGHMEM, stopping at the first class with no available memory; the
returned Nat is phys_last_addr.  The segment table maps a segment index
to its (start, end), (0, 0) when not loaded. -/
def biosmem_bootstrap_partition (cfg : BiosmemConfig) (m : List BiosmemMapEntry) :
    Except String ((Nat → Nat × Nat) × Nat) :=
  let segs0 : Nat → Nat × Nat := fun _ => (0, 0)
  match biosmem_map_find_avail m cfg.biosmem_base cfg.dma_limit with
  | none => .error "biosmem: unable to find any memory segment"
  | some r1 =>
    let segs1 := Function.update segs0 VM_PAGE_SEG_DMA r1
    match biosmem_map_find_avail m cfg.dma_limit cfg.dma32_limit with
    | none => .ok (segs1, r1.2)
    | some r2 =>
      let segs2 := Function.update segs1 VM_PAGE_SEG_DMA32 r2
      match biosmem_map_find_avail m cfg.dma32_limit cfg.directmap_limit with
      | none => .ok (segs2, r2.2)
      | some r3 =>
        let segs3 := Function.update segs2 VM_PAGE_SEG_DIRECTMAP r3
        match biosmem_map_find_avail m cfg.directmap_limit cfg.highmem_limit with
        | none => .ok (segs3, r3.2)
        | some r4 =>
          .ok (Function.update segs3 VM_PAGE_SEG_HIGHMEM r4, r3.2)

/-- biosmem_bootstrap_common: adjust the map, then partition. -/
def biosmem_bootstrap_common (cfg : BiosmemConfig) (m : List BiosmemMapEntry) :
    Except String ((Nat → Nat × Nat) × Nat) :=
  match biosmem_map_adjust m with
  | .ok m1 => biosmem_bootstrap_partition cfg m1
  | .panic => .error "biosmem: too many memory map entries"
  | .outOfFuel => .error "model: out of fuel"

/-! ## biosmem: bootstrap allocator and directmap bound -/

/-- The bootstrap heap (biosmem_heap_start / _cur / _end, uint32_t). -/
structure BiosmemHeap where
  heap_start : Nat
  heap_cur : Nat
  heap_end : Nat
deriving DecidableEq, Repr

/-- biosmem_bootalloc on the baremetal (non-MACH_HYP) path: top-down
bump allocation.  The caller must satisfy assert(!vm_page_ready()).
.error models boot_panic; on success the returned address is the new
heap cursor. -/
def biosmem_bootalloc (h : BiosmemHeap) (nr_pages : Nat) : Except String (Nat × BiosmemHeap) :=
  let size := vm_page_ptoa nr_pages % U32
  if size = 0 then
    .error "biosmem: attempt to allocate 0 page"
  else
    let addr := (h.heap_cur + (U32 - size)) % U32
    if addr < h.heap_start ∨ h.heap_cur < addr then
      .error "biosmem: unable to allocate memory"
    else
      .ok (addr, { h with heap_cur := addr })

def biosmem_segment_size (segs : Nat → Nat × Nat) (i : Nat) : Nat :=
  (segs i).2 - (segs i).1

def biosmem_segment_end (segs : Nat → Nat × Nat) (i : Nat) : Nat :=
  (segs i).2

/-- biosmem_directmap_size: the DIRECTMAP segment end, falling back to
DMA32 then DMA when empty. -/
def biosmem_directmap_size (segs : Nat → Nat × Nat) : Nat :=
  if biosmem_segment_size segs VM_PAGE_SEG_DIRECTMAP ≠ 0 then
    biosmem_segment_end segs VM_PAGE_SEG_DIRECTMAP
  else if biosmem_segment_size segs VM_PAGE_SEG_DMA32 ≠ 0 then
    biosmem_segment_end segs VM_PAGE_SEG_DMA32
  else
    biosmem_segment_end segs VM_PAGE_SEG_DMA

/-! ## Decidability of the invariants (for concrete-state witnesses) -/

instance (seg : VmPageSeg) : Decidable (SegGeom seg) := by
  unfold SegGeom; infer_instance

instance (seg : VmPageSeg) : Decidable (SegLists seg) := by
  unfold SegLists; infer_instance

instance (seg : VmPageSeg) : Decidable (SegBlocks seg) := by
  unfold SegBlocks; infer_instance

instance (seg : VmPageSeg) : Decidable (SegInv seg) := by
  unfold SegInv; infer_instance

instance (seg : VmPageSeg) (pageIdx ord : Nat) : Decidable (CanFree seg pageIdx ord) := by
  unfold CanFree; infer_instance

instance (seg : VmPageSeg) (pool : VmPageCpuPool) : Decidable (PoolInv seg pool) := by
  unfold PoolInv; infer_instance

instance (s : VmSegCpu) : Decidable (SegCpuInv s) := by
  unfold SegCpuInv; infer_instance

instance (st : VmState) : Decidable (StateInv st) := by
  unfold StateInv; infer_instance

/-! ## Concrete states evaluated by the verification witnesses -/

/-- A 16-page segment with every page allocated (all orders UNLISTED):
the state right before freeing the order-4 block at index 0. -/
def seg16W : VmPageSeg :=
  { start := 0
    endAddr := 16 * PAGE_SIZE
    pages := fun idx => ⟨idx * PAGE_SIZE, none, PType.KERNEL, 0⟩
    free_lists := fun _ => ⟨0, []⟩
    nr_free_pages := 0 }

/-- A 32-page segment whose lower order-4 block is free and whose upper
16 pages are allocated. -/
def seg32W : VmPageSeg :=
  { start := 0
    endAddr := 32 * PAGE_SIZE
    pages := fun idx =>
      ⟨idx * PAGE_SIZE, if idx = 0 then some 4 else none,
        if idx < 16 then PType.FREE else PType.KERNEL, 0⟩
    free_lists := fun i => if i = 4 then ⟨1, [0]⟩ else ⟨0, []⟩
    nr_free_pages := 16 }

/-- A 2-page segment holding two free order-0 blocks. -/
def seg2W : VmPageSeg :=
  { start := 0
    endAddr := 2 * PAGE_SIZE
    pages := fun idx => ⟨idx * PAGE_SIZE, if idx < 2 then some 0 else none, PType.FREE, 0⟩
    free_lists := fun i => if i = 0 then ⟨2, [0, 1]⟩ else ⟨0, []⟩
    nr_free_pages := 2 }

/-- An empty CPU pool of size 4 with transfer_size 2. -/
def pool2W : VmPageCpuPool := ⟨4, 2, 0, []⟩

/-- Segment+pool pair for the order-0 cache refill scenario. -/
def sc2W : VmSegCpu := ⟨seg2W, pool2W⟩

/-- A one-segment table built from seg32W with an empty pool. -/
def st1W : VmState :=
  { segs := fun _ => ⟨seg32W, ⟨2, 1, 0, []⟩⟩
    segs_size := 1 }

/-- The firmware map exhibiting the stale a_end overlap bug of
biosmem_map_adjust. -/
def mapC4 : List BiosmemMapEntry := [⟨4, 20, 1⟩, ⟨8, 5, 1⟩, ⟨0, 5, 1⟩]

/-- Overlapping pair whose intersection shares a base with entry a: the
prefix is empty, so the rewritten a is invalid and no merge happens. -/
def entA5 : BiosmemMapEntry := ⟨0, 5, 1⟩

def entB5 : BiosmemMapEntry := ⟨0, 10, 2⟩

/-- Physical window limits of a machine with 8 GiB of RAM starting at
1 MiB. -/
def cfg9 : BiosmemConfig :=
  { biosmem_base := 0x100000
    dma_limit := 0x1000000
    dma32_limit := 0x100000000
    directmap_limit := 0x180000000
    highmem_limit := 0x200000000 }

/-- Adjusted firmware map of that machine: one AVAILABLE range covering
[1 MiB, 8 GiB). -/
def map9 : List BiosmemMapEntry := [⟨0x100000, 0x200000000 - 0x100000, 1⟩]

/-- The phys_last_addr component of a partition result. -/
def partitionLast (r : Except String ((Nat → Nat × Nat) × Nat)) : Nat :=
  match r with
  | .ok p => p.2
  | .error _ => 0

/-- The end address of segment i in a partition result. -/
def partitionSegEnd (r : Except String ((Nat → Nat × Nat) × Nat)) (i : Nat) : Nat :=
  match r with
  | .ok p => (p.1 i).2
  | .error _ => 0

/-- Loaded-segment table of a machine whose memory stops below the
DIRECTMAP window: DMA and DMA32 loaded, DIRECTMAP and HIGHMEM empty. -/
def segs10W : Nat → Nat × Nat := fun i =>
  if i = VM_PAGE_SEG_DMA then (0x1000, 0x1000000)
  else if i = VM_PAGE_SEG_DMA32 then (0x1000000, 0x40000000)
  else (0, 0)

/-- A bootstrap heap [0x1000, 0x6000) with the cursor at 0x5000. -/
def heap8W : BiosmemHeap := ⟨0x1000, 0x5000, 0x6000⟩

/-- A full 256-entry map whose first two entries overlap with three
distinct types: resolving them must append, which exceeds capacity. -/
def map5W : List BiosmemMapEntry :=
  ⟨0, 10, 1⟩ :: ⟨2, 3, 5⟩ :: List.replicate 254 ⟨100, 1, 9⟩

/-! # Theorems

## Projection lemmas for the elementary state updates -/

@[simp] theorem setList_start (seg : VmPageSeg) (i : Nat) (fl : VmPageFreeList) :
    (setList seg i fl).start = seg.start := rfl

@[simp] theorem setList_endAddr (seg : VmPageSeg) (i : Nat) (fl : VmPageFreeList) :
    (setList seg i fl).endAddr = seg.endAddr := rfl

@[simp] theorem setList_pages (seg : VmPageSeg) (i : Nat) (fl : VmPageFreeList) :
    (setList seg i fl).pages = seg.pages := rfl

@[simp] theorem setList_nr (seg : VmPageSeg) (i : Nat) (fl : VmPageFreeList) :
    (setList seg i fl).nr_free_pages = seg.nr_free_pages := rfl

theorem setList_lists (seg : VmPageSeg) (i : Nat) (fl : VmPageFreeList) (j : Nat) :
    (setList seg i fl).free_lists j = if j = i then fl else seg.free_lists j := by
  simp [setList, Function.update_apply]

@[simp] theorem setList_count (seg : VmPageSeg) (i : Nat) (fl : VmPageFreeList) :
    segPagesCount (setList seg i fl) = segPagesCount seg := rfl

@[simp] theorem setPageOrder_start (seg : VmPageSeg) (idx : Nat) (o : Option Nat) :
    (setPageOrder seg idx o).start = seg.start := rfl

@[simp] theorem setPageOrder_endAddr (seg : VmPageSeg) (idx : Nat) (o : Option Nat) :
    (setPageOrder seg idx o).endAddr = seg.endAddr := rfl

@[simp] theorem setPageOrder_lists (seg : VmPageSeg) (idx : Nat) (o : Option Nat) :
    (setPageOrder seg idx o).free_lists = seg.free_lists := rfl

@[simp] theorem setPageOrder_nr (seg : VmPageSeg) (idx : Nat) (o : Option Nat) :
    (setPageOrder seg idx o).nr_free_pages = seg.nr_free_pages := rfl

@[simp] theorem setPageOrder_count (seg : VmPageSeg) (idx : Nat) (o : Option Nat) :
    segPagesCount (setPageOrder seg idx o) = segPagesCount seg := rfl

theorem setPageOrder_pages (seg : VmPageSeg) (idx : Nat) (o : Option Nat) (m : Nat) :
    (setPageOrder seg idx o).pages m =
      if m = idx then { seg.pages idx with order := o } else seg.pages m := by
  simp [setPageOrder, Function.update_apply]

@[simp] theorem setPageOrder_phys (seg : VmPageSeg) (idx : Nat) (o : Option Nat) (m : Nat) :
    ((setPageOrder seg idx o).pages m).phys_addr = (seg.pages m).phys_addr := by
  rw [setPageOrder_pages]; split <;> simp_all

theorem setPageOrder_order (seg : VmPageSeg) (idx : Nat) (o : Option Nat) (m : Nat) :
    ((setPageOrder seg idx o).pages m).order =
      if m = idx then o else (seg.pages m).order := by
  rw [setPageOrder_pages]; split <;> simp_all

@[simp] theorem set_type_start (seg : VmPageSeg) (pageIdx ord : Nat) (ty : PType) :
    (vm_page_set_type seg pageIdx ord ty).start = seg.start := rfl

@[simp] theorem set_type_endAddr (seg : VmPageSeg) (pageIdx ord : Nat) (ty : PType) :
    (vm_page_set_type seg pageIdx ord ty).endAddr = seg.endAddr := rfl

@[simp] theorem set_type_lists (seg : VmPageSeg) (pageIdx ord : Nat) (ty : PType) :
    (vm_page_set_type seg pageIdx ord ty).free_lists = seg.free_lists := rfl

@[simp] theorem set_type_nr (seg : VmPageSeg) (pageIdx ord : Nat) (ty : PType) :
    (vm_page_set_type seg pageIdx ord ty).nr_free_pages = seg.nr_free_pages := rfl

@[simp] theorem set_type_count (seg : VmPageSeg) (pageIdx ord : Nat) (ty : PType) :
    segPagesCount (vm_page_set_type seg pageIdx ord ty) = segPagesCount seg := rfl

@[simp] theorem set_type_order (seg : VmPageSeg) (pageIdx ord : Nat) (ty : PType) (m : Nat) :
    ((vm_page_set_type seg pageIdx ord ty).pages m).order = (seg.pages m).order := by
  unfold vm_page_set_type; simp only []; split <;> rfl

@[simp] theorem set_type_phys (seg : VmPageSeg) (pageIdx ord : Nat) (ty : PType) (m : Nat) :
    ((vm_page_set_type seg pageIdx ord ty).pages m).phys_addr = (seg.pages m).phys_addr := by
  unfold vm_page_set_type; simp only []; split <;> rfl

/-! ## freeSum accounting lemmas -/

theorem freeSum_setList (seg : VmPageSeg) (i : Nat) (fl : VmPageFreeList) (hi : i < K) :
    freeSum (setList seg i fl) + (seg.free_lists i).size * 2 ^ i =
      freeSum seg + fl.size * 2 ^ i := by
  unfold freeSum
  have hmem : i ∈ Finset.range K := Finset.mem_range.mpr hi
  have h1 : ∀ j ∈ Finset.range K,
      ((setList seg i fl).free_lists j).size * 2 ^ j =
        Function.update (fun j => (seg.free_lists j).size * 2 ^ j) i (fl.size * 2 ^ i) j := by
    intro j _
    rw [setList_lists, Function.update_apply]
    split <;> simp_all
  rw [Finset.sum_congr rfl h1, Finset.sum_update_of_mem hmem]
  have h2 : ∑ j ∈ Finset.range K, (seg.free_lists j).size * 2 ^ j =
      (seg.free_lists i).size * 2 ^ i +
        ∑ j ∈ Finset.range K \ {i}, (seg.free_lists j).size * 2 ^ j := by
    rw [Finset.sdiff_singleton_eq_erase]
    exact (Finset.add_sum_erase (Finset.range K)
      (fun j => (seg.free_lists j).size * 2 ^ j) hmem).symm
  omega

theorem freeSum_insert (seg : VmPageSeg) (i idx : Nat) (hi : i < K) :
    freeSum (setList seg i (vm_page_free_list_insert (seg.free_lists i) idx)) =
      freeSum seg + 2 ^ i := by
  have h := freeSum_setList seg i (vm_page_free_list_insert (seg.free_lists i) idx) hi
  have hsize : (vm_page_free_list_insert (seg.free_lists i) idx).size =
      (seg.free_lists i).size + 1 := rfl
  rw [hsize, Nat.add_mul, Nat.one_mul] at h
  omega

theorem freeSum_remove (seg : VmPageSeg) (i idx : Nat) (hi : i < K)
    (hs : (seg.free_lists i).size ≠ 0) :
    freeSum (setList seg i (vm_page_free_list_remove (seg.free_lists i) idx)) + 2 ^ i =
      freeSum seg := by
  have h := freeSum_setList seg i (vm_page_free_list_remove (seg.free_lists i) idx) hi
  have hsize : (vm_page_free_list_remove (seg.free_lists i) idx).size =
      (seg.free_lists i).size - 1 := rfl
  rw [hsize] at h
  have h1 : 1 ≤ (seg.free_lists i).size := Nat.one_le_iff_ne_zero.mpr hs
  have h2 : ((seg.free_lists i).size - 1) * 2 ^ i + 2 ^ i = (seg.free_lists i).size * 2 ^ i := by
    calc ((seg.free_lists i).size - 1) * 2 ^ i + 2 ^ i
        = ((seg.free_lists i).size - 1 + 1) * 2 ^ i := by ring
      _ = (seg.free_lists i).size * 2 ^ i := by rw [Nat.sub_add_cancel h1]
  omega

@[simp] theorem freeSum_setPageOrder (seg : VmPageSeg) (idx : Nat) (o : Option Nat) :
    freeSum (setPageOrder seg idx o) = freeSum seg := rfl

@[simp] theorem freeSum_set_type (seg : VmPageSeg) (pageIdx ord : Nat) (ty : PType) :
    freeSum (vm_page_set_type seg pageIdx ord ty) = freeSum seg := rfl

/-! ## XOR buddy arithmetic -/

theorem two_mul_xor_two_mul (a b : Nat) : (2 * a) ^^^ (2 * b) = 2 * (a ^^^ b) := by
  have hm : ((2 * a) ^^^ (2 * b)) % 2 = 0 := by
    have := @Nat.xor_mod_two_eq_one (2 * a) (2 * b)
    omega
  have hd : ((2 * a) ^^^ (2 * b)) / 2 = a ^^^ b := by
    rw [Nat.xor_div_two]
    congr 1 <;> omega
  omega

theorem two_mul_xor_one (a : Nat) : (2 * a) ^^^ 1 = 2 * a + 1 := by
  have hm : ((2 * a) ^^^ 1) % 2 = 1 := by
    have := @Nat.xor_mod_two_eq_one (2 * a) 1
    omega
  have hd : ((2 * a) ^^^ 1) / 2 = a := by
    rw [Nat.xor_div_two]
    have h1 : (2 * a) / 2 = a := by omega
    have h2 : 1 / 2 = 0 := by norm_num
    rw [h1, h2, Nat.xor_zero]
  omega

theorem two_mul_add_one_xor_one (a : Nat) : (2 * a + 1) ^^^ 1 = 2 * a := by
  have hm : ((2 * a + 1) ^^^ 1) % 2 = 0 := by
    have := @Nat.xor_mod_two_eq_one (2 * a + 1) 1
    omega
  have hd : ((2 * a + 1) ^^^ 1) / 2 = a := by
    rw [Nat.xor_div_two]
    have h1 : (2 * a + 1) / 2 = a := by omega
    have h2 : 1 / 2 = 0 := by norm_num
    rw [h1, h2, Nat.xor_zero]
  omega

theorem xor_one_of_even (q : Nat) (h : q % 2 = 0) : q ^^^ 1 = q + 1 := by
  have h2 : q = 2 * (q / 2) := by omega
  calc q ^^^ 1 = (2 * (q / 2)) ^^^ 1 := by rw [← h2]
    _ = 2 * (q / 2) + 1 := two_mul_xor_one _
    _ = q + 1 := by omega

theorem xor_one_of_odd (q : Nat) (h : q % 2 = 1) : (q ^^^ 1) + 1 = q := by
  have h2 : q = 2 * (q / 2) + 1 := by omega
  calc (q ^^^ 1) + 1 = ((2 * (q / 2) + 1) ^^^ 1) + 1 := by rw [← h2]
    _ = 2 * (q / 2) + 1 := by rw [two_mul_add_one_xor_one]
    _ = q := by omega

theorem pow_mul_xor_pow (m q : Nat) : (2 ^ m * q) ^^^ 2 ^ m = 2 ^ m * (q ^^^ 1) := by
  induction m with
  | zero => simp
  | succ m ih =>
    have h1 : 2 ^ (m + 1) * q = 2 * (2 ^ m * q) := by ring
    have h2 : (2 : Nat) ^ (m + 1) = 2 * 2 ^ m := by ring
    rw [h1, h2, two_mul_xor_two_mul, ih]
    ring

/-- The XOR buddy of an aligned address: the other half of the enclosing
double-sized block. -/
theorem xor_buddy (m pa : Nat) (h : 2 ^ m ∣ pa) :
    ((pa ^^^ 2 ^ m) = pa + 2 ^ m ∧ pa % 2 ^ (m + 1) = 0) ∨
    ((pa ^^^ 2 ^ m) + 2 ^ m = pa ∧ pa % 2 ^ (m + 1) = 2 ^ m) := by
  obtain ⟨q, hq⟩ := h
  subst hq
  have hsplit : q % 2 = 0 ∨ q % 2 = 1 := by omega
  rcases hsplit with hq0 | hq1
  · left
    constructor
    · rw [pow_mul_xor_pow, xor_one_of_even q hq0]
      ring
    · have hq2 : 2 * (q / 2) = q := by omega
      have heq : 2 ^ m * q = 2 ^ (m + 1) * (q / 2) := by
        calc 2 ^ m * q = 2 ^ m * (2 * (q / 2)) := by rw [hq2]
          _ = 2 ^ (m + 1) * (q / 2) := by ring
      rw [heq]
      exact Nat.mul_mod_right _ _
  · right
    constructor
    · rw [pow_mul_xor_pow]
      have h3 := xor_one_of_odd q hq1
      calc 2 ^ m * (q ^^^ 1) + 2 ^ m = 2 ^ m * ((q ^^^ 1) + 1) := by ring
        _ = 2 ^ m * q := by rw [h3]
    · have hq2 : 2 * (q / 2) + 1 = q := by omega
      have heq : 2 ^ m * q = 2 ^ (m + 1) * (q / 2) + 2 ^ m := by
        calc 2 ^ m * q = 2 ^ m * (2 * (q / 2) + 1) := by rw [hq2]
          _ = 2 ^ (m + 1) * (q / 2) + 2 ^ m := by ring
      rw [heq, Nat.mul_add_mod]
      exact Nat.mod_eq_of_lt (Nat.pow_lt_pow_succ (by norm_num))

theorem ptoa_pow (ord : Nat) : vm_page_ptoa (2 ^ ord) = 2 ^ (ord + 12) := by
  unfold vm_page_ptoa PAGE_SIZE
  have h : (4096 : Nat) = 2 ^ 12 := by norm_num
  rw [h, ← pow_add]

/-! ## Structural facts about well-formed segments -/

theorem mem_blocks_lt {seg : VmPageSeg} (hB : SegBlocks seg) {i h : Nat}
    (hi : i < K) (hm : h ∈ (seg.free_lists i).blocks) : h < segPagesCount seg := by
  have := (hB i hi h hm).1
  have h2 : 0 < 2 ^ i := Nat.pos_pow_of_pos i (by norm_num)
  omega

theorem mem_blocks_order {seg : VmPageSeg} (hL : SegLists seg) (hB : SegBlocks seg)
    {i h : Nat} (hi : i < K) (hm : h ∈ (seg.free_lists i).blocks) :
    (seg.pages h).order = some i := by
  obtain ⟨hsz, hnd, hbd, hiff⟩ := hL
  exact (hiff h (mem_blocks_lt hB hi hm) i hi).mp hm

theorem order_some_mem {seg : VmPageSeg} (hL : SegLists seg) {i h : Nat}
    (hn : h < segPagesCount seg) (hi : i < K) (ho : (seg.pages h).order = some i) :
    h ∈ (seg.free_lists i).blocks := by
  obtain ⟨hsz, hnd, hbd, hiff⟩ := hL
  exact (hiff h hn i hi).mpr ho

theorem order_none_not_mem {seg : VmPageSeg} (hL : SegLists seg) {h : Nat}
    (hn : h < segPagesCount seg) (ho : (seg.pages h).order = none) :
    ∀ i, i < K → h ∉ (seg.free_lists i).blocks := by
  intro i hi hm
  obtain ⟨hsz, hnd, hbd, hiff⟩ := hL
  have := (hiff h hn i hi).mp hm
  rw [ho] at this
  exact Option.noConfusion this

/-- Two distinct listed free blocks never overlap. -/
theorem listed_disjoint {seg : VmPageSeg} (hL : SegLists seg) (hB : SegBlocks seg)
    {i i' h h' : Nat} (hi : i < K) (hi' : i' < K)
    (hm : h ∈ (seg.free_lists i).blocks) (hm' : h' ∈ (seg.free_lists i').blocks)
    (hne : ¬(i = i' ∧ h = h')) :
    h + 2 ^ i ≤ h' ∨ h' + 2 ^ i' ≤ h := by
  by_contra hc
  push_neg at hc
  obtain ⟨hc1, hc2⟩ := hc
  rcases Nat.le_total h h' with hle | hle
  · have hj : h' - h < 2 ^ i := by omega
    rcases Nat.eq_zero_or_pos (h' - h) with h0 | hpos
    · have heq : h = h' := by omega
      subst heq
      have o1 := mem_blocks_order hL hB hi hm
      have o2 := mem_blocks_order hL hB hi' hm'
      rw [o1] at o2
      exact hne ⟨Option.some.inj o2, rfl⟩
    · have hint := (hB i hi h hm).2.2 (h' - h) hj hpos
      have o2 := mem_blocks_order hL hB hi' hm'
      have heq : h + (h' - h) = h' := by omega
      rw [heq, o2] at hint
      exact Option.noConfusion hint
  · have hj : h - h' < 2 ^ i' := by omega
    rcases Nat.eq_zero_or_pos (h - h') with h0 | hpos
    · have heq : h = h' := by omega
      subst heq
      have o1 := mem_blocks_order hL hB hi hm
      have o2 := mem_blocks_order hL hB hi' hm'
      rw [o1] at o2
      exact hne ⟨Option.some.inj o2, rfl⟩
    · have hint := (hB i' hi' h' hm').2.2 (h - h') hj hpos
      have o1 := mem_blocks_order hL hB hi hm
      have heq : h' + (h - h') = h := by omega
      rw [heq, o1] at hint
      exact Option.noConfusion hint

@[simp] theorem remove_blocks (fl : VmPageFreeList) (idx : Nat) :
    (vm_page_free_list_remove fl idx).blocks = fl.blocks.erase idx := rfl

@[simp] theorem remove_size (fl : VmPageFreeList) (idx : Nat) :
    (vm_page_free_list_remove fl idx).size = fl.size - 1 := rfl

@[simp] theorem insert_blocks (fl : VmPageFreeList) (idx : Nat) :
    (vm_page_free_list_insert fl idx).blocks = idx :: fl.blocks := rfl

@[simp] theorem insert_size (fl : VmPageFreeList) (idx : Nat) :
    (vm_page_free_list_insert fl idx).size = fl.size + 1 := rfl

/-- Removing a listed block head from its free list and unlisting it
(the remove + order = UNLISTED step of both buddy loops). -/
theorem remove_listed_spec {seg seg' : VmPageSeg} {i idx : Nat}
    (hG : SegGeom seg) (hL : SegLists seg) (hB : SegBlocks seg)
    (hi : i < K) (hm : idx ∈ (seg.free_lists i).blocks)
    (hseg' : seg' =
      setPageOrder (setList seg i (vm_page_free_list_remove (seg.free_lists i) idx)) idx none) :
    SegGeom seg' ∧ SegLists seg' ∧ SegBlocks seg' ∧
    (idx + 2 ^ i ≤ segPagesCount seg) ∧
    (∀ j, j < 2 ^ i → (seg'.pages (idx + j)).order = none) ∧
    (∀ i2, i2 < K → ∀ h ∈ (seg'.free_lists i2).blocks,
      h + 2 ^ i2 ≤ idx ∨ idx + 2 ^ i ≤ h) ∧
    (2 ^ i * PAGE_SIZE) ∣ (seg.start + idx * PAGE_SIZE) ∧
    (freeSum seg' + 2 ^ i = freeSum seg) ∧
    seg'.nr_free_pages = seg.nr_free_pages ∧ seg'.start = seg.start ∧
    seg'.endAddr = seg.endAddr ∧
    (∀ m, (seg'.pages m).phys_addr = (seg.pages m).phys_addr) ∧
    (∀ m, m ≠ idx → (seg'.pages m).order = (seg.pages m).order) ∧
    (∀ i2, i2 < K → ∀ h ∈ (seg'.free_lists i2).blocks, h ∈ (seg.free_lists i2).blocks) ∧
    (∀ i2, i2 ≠ i → seg'.free_lists i2 = seg.free_lists i2) ∧
    ((seg'.free_lists i).blocks = (seg.free_lists i).blocks.erase idx) := by
  obtain ⟨hsz, hnd, hbd, hiff⟩ := hL
  have hidxlt : idx < segPagesCount seg := mem_blocks_lt hB hi hm
  have hrange := (hB i hi idx hm).1
  have halign := (hB i hi idx hm).2.1
  have hintr := (hB i hi idx hm).2.2
  have hord : (seg.pages idx).order = some i := (hiff idx hidxlt i hi).mp hm
  have hlist_eq : seg'.free_lists i = vm_page_free_list_remove (seg.free_lists i) idx := by
    rw [hseg']
    show (Function.update seg.free_lists i _) i = _
    rw [Function.update_same]
  have hlist_ne : ∀ j, j ≠ i → seg'.free_lists j = seg.free_lists j := by
    intro j hj
    rw [hseg']
    show (Function.update seg.free_lists i _) j = _
    rw [Function.update_noteq hj]
  have horder_eq : (seg'.pages idx).order = none := by
    rw [hseg', setPageOrder_order, if_pos rfl]
  have horder_ne : ∀ m, m ≠ idx → (seg'.pages m).order = (seg.pages m).order := by
    intro m hmne
    rw [hseg', setPageOrder_order, if_neg hmne, setList_pages]
  have hphys' : ∀ m, (seg'.pages m).phys_addr = (seg.pages m).phys_addr := by
    intro m
    rw [hseg', setPageOrder_phys, setList_pages]
  have hstart' : seg'.start = seg.start := by rw [hseg']; rfl
  have hend' : seg'.endAddr = seg.endAddr := by rw [hseg']; rfl
  have hnr' : seg'.nr_free_pages = seg.nr_free_pages := by rw [hseg']; rfl
  have hcount' : segPagesCount seg' = segPagesCount seg := by
    unfold segPagesCount
    rw [hstart', hend']
  have hmem' : ∀ m j, j < K → (m ∈ (seg'.free_lists j).blocks ↔
      (m ∈ (seg.free_lists j).blocks ∧ ¬(j = i ∧ m = idx))) := by
    intro m j hj
    by_cases hji : j = i
    · subst hji
      rw [hlist_eq, remove_blocks, List.Nodup.mem_erase_iff (hnd j hj)]
      constructor
      · rintro ⟨hne, hmm⟩
        exact ⟨hmm, by tauto⟩
      · rintro ⟨hmm, hne⟩
        exact ⟨by tauto, hmm⟩
    · rw [hlist_ne j hji]
      constructor
      · intro hmm
        exact ⟨hmm, by tauto⟩
      · tauto
  have hGnew : SegGeom seg' := by
    obtain ⟨g1, g2, g3, g4⟩ := hG
    refine ⟨by rw [hstart']; exact g1, by rw [hstart', hend']; exact g2,
      by rw [hend']; exact g3, ?_⟩
    intro m hmlt
    rw [hphys', hstart']
    exact g4 m (by rw [hcount'] at hmlt; exact hmlt)
  have hLnew : SegLists seg' := by
    refine ⟨?_, ?_, ?_, ?_⟩
    · intro j hj
      by_cases hji : j = i
      · subst hji
        rw [hlist_eq, remove_size, remove_blocks, List.length_erase_of_mem hm, hsz j hj]
      · rw [hlist_ne j hji]
        exact hsz j hj
    · intro j hj
      by_cases hji : j = i
      · subst hji
        rw [hlist_eq, remove_blocks]
        exact (hnd j hj).erase idx
      · rw [hlist_ne j hji]
        exact hnd j hj
    · intro m hmlt
      rw [hcount'] at hmlt
      by_cases hmi : m = idx
      · subst hmi
        rw [horder_eq]
        decide
      · rw [horder_ne m hmi]
        exact hbd m hmlt
    · intro m hmlt j hj
      rw [hcount'] at hmlt
      rw [hmem' m j hj]
      by_cases hmi : m = idx
      · subst hmi
        rw [horder_eq]
        constructor
        · rintro ⟨hmm, hne⟩
          have h0 := (hiff m hmlt j hj).mp hmm
          rw [hord] at h0
          have hji : j = i := (Option.some.inj h0).symm
          exact absurd ⟨hji, rfl⟩ hne
        · intro hc
          exact Option.noConfusion hc
      · rw [horder_ne m hmi]
        constructor
        · rintro ⟨hmm, hne⟩
          exact (hiff m hmlt j hj).mp hmm
        · intro ho
          exact ⟨(hiff m hmlt j hj).mpr ho, by tauto⟩
  have hBnew : SegBlocks seg' := by
    intro j hj h hmm
    obtain ⟨hmold, hne⟩ := (hmem' h j hj).mp hmm
    have hold := hB j hj h hmold
    refine ⟨by rw [hcount']; exact hold.1, by rw [hstart']; exact hold.2.1, ?_⟩
    intro j2 hj2 hj2pos
    by_cases hc : h + j2 = idx
    · exfalso
      have hdisj := listed_disjoint ⟨hsz, hnd, hbd, hiff⟩ hB hj hi hmold hm hne
      have h2i : 0 < 2 ^ i := Nat.pos_pow_of_pos i (by norm_num)
      omega
    · rw [horder_ne _ hc]
      exact hold.2.2 j2 hj2 hj2pos
  refine ⟨hGnew, hLnew, hBnew, hrange, ?_, ?_, halign, ?_, hnr', hstart', hend', hphys',
    horder_ne, ?_, fun i2 hi2 => hlist_ne i2 hi2, by rw [hlist_eq, remove_blocks]⟩
  · intro j hj
    by_cases hj0 : j = 0
    · subst hj0
      rw [Nat.add_zero]
      exact horder_eq
    · have hne : idx + j ≠ idx := by omega
      rw [horder_ne _ hne]
      exact hintr j hj (by omega)
  · intro i2 hi2 h hmm
    obtain ⟨hmold, hne⟩ := (hmem' h i2 hi2).mp hmm
    exact listed_disjoint ⟨hsz, hnd, hbd, hiff⟩ hB hi2 hi hmold hm hne
  · have hs0 : (seg.free_lists i).size ≠ 0 := by
      rw [hsz i hi]
      intro hlen
      rw [List.length_eq_zero] at hlen
      rw [hlen] at hm
      exact List.not_mem_nil idx hm
    have hfr := freeSum_remove seg i idx hi hs0
    have hfs : freeSum seg' =
        freeSum (setList seg i (vm_page_free_list_remove (seg.free_lists i) idx)) := by
      rw [hseg']
      rfl
    omega
  · intro i2 hi2 h hmm
    exact ((hmem' h i2 hi2).mp hmm).1

/-- Inserting an unlisted, free-floating, aligned block at the head of
its free list and recording its order (the insert + order = o step of
both buddy paths). -/
theorem insert_unlisted_spec {seg seg' : VmPageSeg} {i idx : Nat}
    (hG : SegGeom seg) (hL : SegLists seg) (hB : SegBlocks seg)
    (hi : i < K)
    (hrange : idx + 2 ^ i ≤ segPagesCount seg)
    (hunl : ∀ j, j < 2 ^ i → (seg.pages (idx + j)).order = none)
    (hdisj : ∀ i2, i2 < K → ∀ h ∈ (seg.free_lists i2).blocks,
      h + 2 ^ i2 ≤ idx ∨ idx + 2 ^ i ≤ h)
    (halign : (2 ^ i * PAGE_SIZE) ∣ (seg.start + idx * PAGE_SIZE))
    (hseg' : seg' =
      setPageOrder (setList seg i (vm_page_free_list_insert (seg.free_lists i) idx)) idx (some i)) :
    SegGeom seg' ∧ SegLists seg' ∧ SegBlocks seg' ∧
    freeSum seg' = freeSum seg + 2 ^ i ∧
    seg'.nr_free_pages = seg.nr_free_pages ∧ seg'.start = seg.start ∧
    seg'.endAddr = seg.endAddr ∧
    (∀ m, (seg'.pages m).phys_addr = (seg.pages m).phys_addr) ∧
    (∀ m, m ≠ idx → (seg'.pages m).order = (seg.pages m).order) ∧
    ((seg'.pages idx).order = some i) ∧
    ((seg'.free_lists i).blocks = idx :: (seg.free_lists i).blocks) ∧
    (∀ i2, i2 ≠ i → seg'.free_lists i2 = seg.free_lists i2) := by
  obtain ⟨hsz, hnd, hbd, hiff⟩ := hL
  have h2i : 0 < 2 ^ i := Nat.pos_pow_of_pos i (by norm_num)
  have hidxlt : idx < segPagesCount seg := by omega
  have hidxord : (seg.pages idx).order = none := by
    have := hunl 0 h2i
    rw [Nat.add_zero] at this
    exact this
  have hnotmem : ∀ j, j < K → idx ∉ (seg.free_lists j).blocks := by
    intro j hj hmm
    have := (hiff idx hidxlt j hj).mp hmm
    rw [hidxord] at this
    exact Option.noConfusion this
  have hlist_eq : seg'.free_lists i = vm_page_free_list_insert (seg.free_lists i) idx := by
    rw [hseg']
    show (Function.update seg.free_lists i _) i = _
    rw [Function.update_same]
  have hlist_ne : ∀ j, j ≠ i → seg'.free_lists j = seg.free_lists j := by
    intro j hj
    rw [hseg']
    show (Function.update seg.free_lists i _) j = _
    rw [Function.update_noteq hj]
  have horder_eq : (seg'.pages idx).order = some i := by
    rw [hseg', setPageOrder_order, if_pos rfl]
  have horder_ne : ∀ m, m ≠ idx → (seg'.pages m).order = (seg.pages m).order := by
    intro m hmne
    rw [hseg', setPageOrder_order, if_neg hmne, setList_pages]
  have hphys' : ∀ m, (seg'.pages m).phys_addr = (seg.pages m).phys_addr := by
    intro m
    rw [hseg', setPageOrder_phys, setList_pages]
  have hstart' : seg'.start = seg.start := by rw [hseg']; rfl
  have hend' : seg'.endAddr = seg.endAddr := by rw [hseg']; rfl
  have hnr' : seg'.nr_free_pages = seg.nr_free_pages := by rw [hseg']; rfl
  have hcount' : segPagesCount seg' = segPagesCount seg := by
    unfold segPagesCount
    rw [hstart', hend']
  have hmem' : ∀ m j, j < K → (m ∈ (seg'.free_lists j).blocks ↔
      (m ∈ (seg.free_lists j).blocks ∨ (j = i ∧ m = idx))) := by
    intro m j hj
    by_cases hji : j = i
    · subst hji
      rw [hlist_eq, insert_blocks, List.mem_cons]
      constructor
      · rintro (hme | hmm)
        · exact Or.inr ⟨rfl, hme⟩
        · exact Or.inl hmm
      · rintro (hmm | ⟨-, hme⟩)
        · exact Or.inr hmm
        · exact Or.inl hme
    · rw [hlist_ne j hji]
      constructor
      · intro hmm
        exact Or.inl hmm
      · rintro (hmm | ⟨hji2, -⟩)
        · exact hmm
        · exact absurd hji2 hji
  have hGnew : SegGeom seg' := by
    obtain ⟨g1, g2, g3, g4⟩ := hG
    refine ⟨by rw [hstart']; exact g1, by rw [hstart', hend']; exact g2,
      by rw [hend']; exact g3, ?_⟩
    intro m hmlt
    rw [hphys', hstart']
    exact g4 m (by rw [hcount'] at hmlt; exact hmlt)
  have hLnew : SegLists seg' := by
    refine ⟨?_, ?_, ?_, ?_⟩
    · intro j hj
      by_cases hji : j = i
      · subst hji
        rw [hlist_eq, insert_size, insert_blocks, List.length_cons, hsz j hj]
      · rw [hlist_ne j hji]
        exact hsz j hj
    · intro j hj
      by_cases hji : j = i
      · subst hji
        rw [hlist_eq, insert_blocks]
        exact List.Nodup.cons (hnotmem j hj) (hnd j hj)
      · rw [hlist_ne j hji]
        exact hnd j hj
    · intro m hmlt
      rw [hcount'] at hmlt
      by_cases hmi : m = idx
      · subst hmi
        rw [horder_eq]
        simpa using hi
      · rw [horder_ne m hmi]
        exact hbd m hmlt
    · intro m hmlt j hj
      rw [hcount'] at hmlt
      rw [hmem' m j hj]
      by_cases hmi : m = idx
      · subst hmi
        rw [horder_eq]
        constructor
        · rintro (hmm | ⟨hji, -⟩)
          · exact absurd hmm (hnotmem j hj)
          · rw [hji]
        · intro ho
          have : j = i := Option.some.inj ho.symm
          exact Or.inr ⟨this.symm ▸ rfl, rfl⟩
      · rw [horder_ne m hmi]
        constructor
        · rintro (hmm | ⟨-, hme⟩)
          · exact (hiff m hmlt j hj).mp hmm
          · exact absurd hme hmi
        · intro ho
          exact Or.inl ((hiff m hmlt j hj).mpr ho)
  have hBnew : SegBlocks seg' := by
    intro j hj h hmm
    rcases (hmem' h j hj).mp hmm with hmold | ⟨hji, hhe⟩
    · have hold := hB j hj h hmold
      refine ⟨by rw [hcount']; exact hold.1, by rw [hstart']; exact hold.2.1, ?_⟩
      intro j2 hj2 hj2pos
      by_cases hc : h + j2 = idx
      · exfalso
        have := hdisj j hj h hmold
        omega
      · rw [horder_ne _ hc]
        exact hold.2.2 j2 hj2 hj2pos
    · subst hji hhe
      refine ⟨by rw [hcount']; exact hrange, by rw [hstart']; exact halign, ?_⟩
      intro j2 hj2 hj2pos
      have hc : h + j2 ≠ h := by omega
      rw [horder_ne _ hc]
      exact hunl j2 hj2
  refine ⟨hGnew, hLnew, hBnew, ?_, hnr', hstart', hend', hphys', horder_ne, horder_eq,
    by rw [hlist_eq, insert_blocks], fun i2 hi2 => hlist_ne i2 hi2⟩
  have hfs : freeSum seg' =
      freeSum (setList seg i (vm_page_free_list_insert (seg.free_lists i) idx)) := by
    rw [hseg']
    rfl
  rw [hfs]
  exact freeSum_insert seg i idx hi

theorem seg_end_eq {seg : VmPageSeg} (hG : SegGeom seg) :
    seg.endAddr = seg.start + segPagesCount seg * PAGE_SIZE := by
  obtain ⟨g1, g2, g3, -⟩ := hG
  have hps : 0 < PAGE_SIZE := by norm_num [PAGE_SIZE]
  have hdvd : PAGE_SIZE ∣ (seg.endAddr - seg.start) := Nat.dvd_sub' g3 g1
  unfold segPagesCount vm_page_atop
  have := Nat.div_mul_cancel hdvd
  omega

theorem pow_mul_page (ord : Nat) : 2 ^ ord * PAGE_SIZE = 2 ^ (ord + 12) := ptoa_pow ord

/-- The coalescing loop of vm_page_seg_free_to_buddy preserves the loop
invariant and returns the final floating block. -/
theorem free_loop_mid {seg0 : VmPageSeg} {idx0 ord0 : Nat} :
    ∀ fuel seg pa idx ord,
    BuddyFreeMid seg0 seg idx0 ord0 idx ord →
    pa = seg0.start + idx * PAGE_SIZE →
    K - 1 - ord < fuel →
    ∃ seg2 idx2 ord2,
      vm_page_free_loop seg pa ord fuel = (seg2, seg0.start + idx2 * PAGE_SIZE, ord2) ∧
      BuddyFreeMid seg0 seg2 idx0 ord0 idx2 ord2 := by
  intro fuel
  induction fuel with
  | zero => intro seg pa idx ord mid hpa hfuel; omega
  | succ fuel ih =>
    intro seg pa idx ord mid hpa hfuel
    by_cases hstop : ord < K - 1
    · -- loop body runs
      have hps : 0 < PAGE_SIZE := by norm_num [PAGE_SIZE]
      have hst : seg.start = seg0.start := mid.sameStart
      have hed : seg.endAddr = seg0.endAddr := mid.sameEnd
      have hcnt : segPagesCount seg = segPagesCount seg0 := by
        unfold segPagesCount
        rw [hst, hed]
      have hendeq : seg0.endAddr = seg0.start + segPagesCount seg0 * PAGE_SIZE := by
        have := seg_end_eq mid.geom
        rw [hst, hed, hcnt] at this
        exact this
      have hptoa : vm_page_ptoa (2 ^ ord) = 2 ^ (ord + 12) := ptoa_pow ord
      have hpm : (2 : Nat) ^ ord * PAGE_SIZE = 2 ^ (ord + 12) := pow_mul_page ord
      have halignpa : 2 ^ (ord + 12) ∣ pa := by
        rw [hpa, ← hpm]
        exact mid.align
      have hps2 : (2 : Nat) ^ (ord + 1) * PAGE_SIZE = 2 ^ (ord + 13) := by
        rw [pow_mul_page]
      have hpow2 : (2 : Nat) ^ (ord + 1) = 2 ^ ord + 2 ^ ord := by
        rw [pow_succ]
        ring
      have h2o : 0 < 2 ^ ord := Nat.pos_pow_of_pos ord (by norm_num)
      set buddy_pa := pa ^^^ vm_page_ptoa (2 ^ ord) with hbpa
      have hbx : buddy_pa = pa ^^^ 2 ^ (ord + 12) := by rw [hbpa, hptoa]
      have hx : (buddy_pa = pa + 2 ^ (ord + 12) ∧ pa % 2 ^ (ord + 13) = 0) ∨
          (buddy_pa + 2 ^ (ord + 12) = pa ∧ pa % 2 ^ (ord + 13) = 2 ^ (ord + 12)) := by
        have := xor_buddy (ord + 12) pa halignpa
        rcases this with ⟨h1, h2⟩ | ⟨h1, h2⟩
        · left
          exact ⟨by rw [hbx, h1], h2⟩
        · right
          exact ⟨by rw [hbx]; omega, h2⟩
      by_cases hout : buddy_pa < seg.start ∨ seg.endAddr ≤ buddy_pa
      · -- buddy outside the segment: loop stops
        refine ⟨seg, idx, ord, ?_, mid⟩
        simp only [vm_page_free_loop]
        rw [← hbpa, if_pos hstop, if_pos hout, hpa]
      · -- buddy is inside the segment
        have hout2 := hout
        push_neg at hout2
        obtain ⟨hge, hlt⟩ := hout2
        rw [hst] at hge
        rw [hed, hendeq] at hlt
        have hmul : (idx + 2 ^ ord) * PAGE_SIZE = idx * PAGE_SIZE + 2 ^ (ord + 12) := by
          rw [← hpm]
          ring
        -- identify the buddy index
        have hbidx : ∃ bIdx, vm_page_atop (buddy_pa - seg.start) = bIdx ∧
            buddy_pa = seg0.start + bIdx * PAGE_SIZE ∧ bIdx < segPagesCount seg0 ∧
            ((bIdx = idx + 2 ^ ord ∧ pa % 2 ^ (ord + 13) = 0) ∨
             (bIdx + 2 ^ ord = idx ∧ pa % 2 ^ (ord + 13) = 2 ^ (ord + 12))) := by
          rcases hx with ⟨hxe, hxm⟩ | ⟨hxe, hxm⟩
          · have haddr : buddy_pa = seg0.start + (idx + 2 ^ ord) * PAGE_SIZE := by
              rw [hmul, hxe, hpa]
              omega
            refine ⟨idx + 2 ^ ord, ?_, haddr, ?_, Or.inl ⟨rfl, hxm⟩⟩
            · rw [hst]
              unfold vm_page_atop
              have hsb : buddy_pa - seg0.start = (idx + 2 ^ ord) * PAGE_SIZE := by
                omega
              rw [hsb, Nat.mul_div_cancel _ hps]
            · by_contra hcon
              push_neg at hcon
              have hmle : segPagesCount seg0 * PAGE_SIZE ≤ (idx + 2 ^ ord) * PAGE_SIZE :=
                Nat.mul_le_mul_right _ hcon
              omega
          · have hidxge : 2 ^ ord ≤ idx := by
              by_contra hcon
              push_neg at hcon
              have hlt2 : idx * PAGE_SIZE < 2 ^ ord * PAGE_SIZE :=
                Nat.mul_lt_mul_of_lt_of_le hcon (le_refl _) hps
              rw [hpm] at hlt2
              omega
            have hmul2 : (idx - 2 ^ ord) * PAGE_SIZE + 2 ^ (ord + 12) = idx * PAGE_SIZE := by
              rw [← hpm, ← Nat.add_mul, Nat.sub_add_cancel hidxge]
            have haddr : buddy_pa = seg0.start + (idx - 2 ^ ord) * PAGE_SIZE := by
              rw [hpa] at hxe
              omega
            refine ⟨idx - 2 ^ ord, ?_, haddr, ?_, Or.inr ⟨Nat.sub_add_cancel hidxge, hxm⟩⟩
            · rw [hst]
              unfold vm_page_atop
              have hsb : buddy_pa - seg0.start = (idx - 2 ^ ord) * PAGE_SIZE := by
                omega
              rw [hsb, Nat.mul_div_cancel _ hps]
            · have hr := mid.range
              omega
        obtain ⟨bIdx, hbeq, hbaddr, hblt, hbcase⟩ := hbidx
        by_cases hbo : (seg.pages (vm_page_atop (buddy_pa - seg.start))).order ≠ some ord
        · -- buddy allocated or inside a larger block: loop stops
          refine ⟨seg, idx, ord, ?_, mid⟩
          simp only [vm_page_free_loop]
          rw [← hbpa, if_pos hstop, if_neg hout, if_pos hbo, hpa]
        · -- coalesce with the buddy
          push_neg at hbo
          rw [hbeq] at hbo
          have hbmem : bIdx ∈ (seg.free_lists ord).blocks := by
            refine order_some_mem mid.lists ?_ mid.ordHi hbo
            rw [hcnt]
            exact hblt
          obtain ⟨rG, rL, rB, rRange, rUnl, rDisj, rAlign, rSum, rNr, rStart, rEnd, rPhys,
            rOrdNe, rSub, rListNe, rListEq⟩ :=
            remove_listed_spec mid.geom mid.lists mid.blocks mid.ordHi hbmem rfl
          set segR := setPageOrder
            (setList seg ord (vm_page_free_list_remove (seg.free_lists ord) bIdx)) bIdx none
            with hsegR
          set idxN := min idx bIdx with hidxN
          have hNcase : (idxN = idx ∧ bIdx = idx + 2 ^ ord) ∨
              (idxN = bIdx ∧ bIdx + 2 ^ ord = idx) := by
            rcases hbcase with ⟨hbe, -⟩ | ⟨hbe, -⟩
            · exact Or.inl ⟨by omega, hbe⟩
            · exact Or.inr ⟨by omega, hbe⟩
          -- the realigned (merged block head) address
          have hdvd13 : 2 ^ (ord + 13) ∣ (pa - pa % 2 ^ (ord + 13)) := by
            refine ⟨pa / 2 ^ (ord + 13), ?_⟩
            have := Nat.div_add_mod pa (2 ^ (ord + 13))
            omega
          have hpa2 : pa - pa % vm_page_ptoa (2 ^ (ord + 1)) =
              seg0.start + idxN * PAGE_SIZE := by
            rw [ptoa_pow]
            have hmm : (ord + 1) + 12 = ord + 13 := by omega
            rw [hmm]
            rcases hbcase with ⟨hbe, hmod⟩ | ⟨hbe, hmod⟩
            · have hNi : idxN = idx := by omega
              rw [hmod, hNi, ← hpa]
              omega
            · have hNb : idxN = bIdx := by omega
              rw [hmod, hNb, ← hbaddr]
              rcases hx with ⟨hxe, hxm2⟩ | ⟨hxe, hxm2⟩
              · rw [hmod] at hxm2
                exfalso
                omega
              · omega
          have halignN : 2 ^ (ord + 1) * PAGE_SIZE ∣ (seg0.start + idxN * PAGE_SIZE) := by
            rw [hps2, ← hpa2, ptoa_pow]
            have hmm : (ord + 1) + 12 = ord + 13 := by omega
            rw [hmm]
            exact hdvd13
          -- invariant for the merged block
          have hbdisj : bIdx + 2 ^ ord ≤ idx ∨ idx + 2 ^ ord ≤ bIdx := by
            rcases hbcase with ⟨hbe, -⟩ | ⟨hbe, -⟩
            · right; omega
            · left; omega
          have huN : ∀ j, j < 2 ^ (ord + 1) → (segR.pages (idxN + j)).order = none := by
            intro j hj
            by_cases hpb : bIdx ≤ idxN + j ∧ idxN + j < bIdx + 2 ^ ord
            · have hpe : idxN + j = bIdx + (idxN + j - bIdx) := by omega
              rw [hpe]
              exact rUnl (idxN + j - bIdx) (by omega)
            · have hpi : idx ≤ idxN + j ∧ idxN + j < idx + 2 ^ ord := by
                rcases hNcase with ⟨h1, h2⟩ | ⟨h1, h2⟩ <;> omega
              have hpne : idxN + j ≠ bIdx := by omega
              rw [rOrdNe _ hpne]
              have hpe : idxN + j = idx + (idxN + j - idx) := by omega
              rw [hpe]
              exact mid.unlisted (idxN + j - idx) (by omega)
          have hmidN : BuddyFreeMid seg0 segR idx0 ord0 idxN (ord + 1) := by
            refine {
              geom := rG, lists := rL, blocks := rB,
              ordLo := by have := mid.ordLo; omega,
              ordHi := by have := mid.ordHi; omega,
              sum := ?_, nr := by rw [rNr, mid.nr],
              sameStart := by rw [rStart, hst],
              sameEnd := by rw [rEnd, hed],
              range := ?_, lo := ?_, hi := ?_,
              unlisted := huN, disj := ?_, align := halignN,
              phys := ?_, outside := ?_, sub := ?_, tile := ?_ }
            · have hs := mid.sum
              rw [hpow2]
              omega
            · rw [hcnt] at rRange
              have hr := mid.range
              rcases hNcase with ⟨h1, h2⟩ | ⟨h1, h2⟩ <;> omega
            · have := mid.lo
              omega
            · have := mid.hi
              omega
            · intro i2 hi2 h hmm
              have hsub2 := rSub i2 hi2 h hmm
              have hd1 := mid.disj i2 hi2 h hsub2
              have hd2 := rDisj i2 hi2 h hmm
              have h2i2 : 0 < 2 ^ i2 := Nat.pos_pow_of_pos i2 (by norm_num)
              rcases hNcase with ⟨h1, h2⟩ | ⟨h1, h2⟩ <;> omega
            · intro m2
              rw [rPhys m2]
              exact mid.phys m2
            · intro m2 hm2
              have hm2ne : m2 ≠ bIdx := by
                rcases hNcase with ⟨h1, h2⟩ | ⟨h1, h2⟩ <;> omega
              rw [rOrdNe m2 hm2ne]
              refine mid.outside m2 ?_
              rcases hNcase with ⟨h1, h2⟩ | ⟨h1, h2⟩ <;> omega
            · intro i2 hi2 h hmm
              exact mid.sub i2 hi2 h (rSub i2 hi2 h hmm)
            · intro m2 hm2lo hm2hi
              by_cases hmb : bIdx ≤ m2 ∧ m2 < bIdx + 2 ^ ord
              · right
                exact ⟨ord, mid.ordHi, bIdx, mid.sub ord mid.ordHi bIdx hbmem, hmb.1, hmb.2⟩
              · have hmi : idx ≤ m2 ∧ m2 < idx + 2 ^ ord := by
                  rcases hNcase with ⟨h1, h2⟩ | ⟨h1, h2⟩ <;> omega
                exact mid.tile m2 hmi.1 hmi.2
          have hrec := ih segR (pa - pa % vm_page_ptoa (2 ^ (ord + 1))) idxN (ord + 1) hmidN
            hpa2 (by omega)
          obtain ⟨seg2, idx2, ord2, hloop, hmid2⟩ := hrec
          refine ⟨seg2, idx2, ord2, ?_, hmid2⟩
          simp only [vm_page_free_loop]
          rw [← hbpa, if_pos hstop, if_neg hout]
          rw [if_neg (by rw [hbeq, hbo]; exact fun hc => hc rfl :
            ¬((seg.pages (vm_page_atop (buddy_pa - seg.start))).order ≠ some ord))]
          rw [hbeq]
          exact hloop
    · -- ord = K - 1: loop body does not run
      refine ⟨seg, idx, ord, ?_, mid⟩
      simp only [vm_page_free_loop]
      rw [if_neg hstop, hpa]

/-- Core correctness of vm_page_seg_free_to_buddy: under the segment
invariant and the free precondition, freeing preserves the invariant,
adds exactly 2^ord to nr_free_pages, and inserts one coalesced block
(covering the freed block) at the head of its final free list. -/
theorem free_to_buddy_core {seg : VmPageSeg} {idx ord : Nat}
    (hI : SegInv seg) (hCF : CanFree seg idx ord) :
    ∃ idx2 ord2,
      SegInv (vm_page_seg_free_to_buddy seg idx ord) ∧
      (vm_page_seg_free_to_buddy seg idx ord).nr_free_pages =
        seg.nr_free_pages + 2 ^ ord ∧
      ord ≤ ord2 ∧ ord2 < K ∧ idx2 ≤ idx ∧ idx < idx2 + 2 ^ ord2 ∧
      idx2 + 2 ^ ord2 ≤ segPagesCount seg ∧
      ((vm_page_seg_free_to_buddy seg idx ord).pages idx2).order = some ord2 ∧
      (vm_page_seg_free_to_buddy seg idx ord).start = seg.start ∧
      (vm_page_seg_free_to_buddy seg idx ord).endAddr = seg.endAddr ∧
      (∀ m, ((vm_page_seg_free_to_buddy seg idx ord).pages m).phys_addr =
        (seg.pages m).phys_addr) ∧
      (∀ m, m < idx2 ∨ idx2 + 2 ^ ord2 ≤ m →
        ((vm_page_seg_free_to_buddy seg idx ord).pages m).order = (seg.pages m).order) ∧
      (∃ tl, ((vm_page_seg_free_to_buddy seg idx ord).free_lists ord2).blocks = idx2 :: tl) ∧
      (∀ i2, i2 < K → ∀ h ∈ ((vm_page_seg_free_to_buddy seg idx ord).free_lists i2).blocks,
        (i2 = ord2 ∧ h = idx2) ∨ h ∈ (seg.free_lists i2).blocks) ∧
      (∀ m2, idx2 ≤ m2 → m2 < idx2 + 2 ^ ord2 →
        (idx ≤ m2 ∧ m2 < idx + 2 ^ ord) ∨ InBlocks seg m2) := by
  obtain ⟨hG, hL, hB, hAcc⟩ := hI
  obtain ⟨hordK, hrange, hunl, halign, hdisj⟩ := hCF
  have h2o : 0 < 2 ^ ord := Nat.pos_pow_of_pos ord (by norm_num)
  have hps : 0 < PAGE_SIZE := by norm_num [PAGE_SIZE]
  have hidxlt : idx < segPagesCount seg := by omega
  have hpa : (seg.pages idx).phys_addr = seg.start + idx * PAGE_SIZE := by
    obtain ⟨-, -, -, g4⟩ := hG
    exact g4 idx hidxlt
  have mid0 : BuddyFreeMid seg seg idx ord idx ord := by
    refine {
      geom := hG, lists := hL, blocks := hB,
      ordLo := le_refl ord, ordHi := hordK,
      sum := rfl, nr := rfl, sameStart := rfl, sameEnd := rfl,
      range := hrange, lo := le_refl idx, hi := by omega,
      unlisted := hunl, disj := hdisj, align := halign,
      phys := fun m => rfl, outside := fun m hm => rfl,
      sub := fun i2 hi2 h hm => hm,
      tile := fun m hm1 hm2 => Or.inl ⟨hm1, hm2⟩ }
  have hfuel : K - 1 - ord < K := by omega
  obtain ⟨seg1, idx2, ord2, hloop, mid2⟩ :=
    free_loop_mid K seg ((seg.pages idx).phys_addr) idx ord mid0 hpa hfuel
  have hcnt1 : segPagesCount seg1 = segPagesCount seg := by
    unfold segPagesCount
    rw [mid2.sameStart, mid2.sameEnd]
  have hfin : vm_page_atop (seg.start + idx2 * PAGE_SIZE - seg1.start) = idx2 := by
    rw [mid2.sameStart]
    unfold vm_page_atop
    have heq : seg.start + idx2 * PAGE_SIZE - seg.start = idx2 * PAGE_SIZE := by omega
    rw [heq, Nat.mul_div_cancel _ hps]
  have hres : vm_page_seg_free_to_buddy seg idx ord =
      (let seg3 := setPageOrder
        (setList seg1 ord2 (vm_page_free_list_insert (seg1.free_lists ord2) idx2))
        idx2 (some ord2)
       { seg3 with nr_free_pages := seg3.nr_free_pages + 2 ^ ord }) := by
    simp only [vm_page_seg_free_to_buddy, hloop, hfin]
  simp only [] at hres
  set seg3 := setPageOrder
    (setList seg1 ord2 (vm_page_free_list_insert (seg1.free_lists ord2) idx2)) idx2 (some ord2)
    with hseg3
  obtain ⟨iG, iL, iB, iSum, iNr, iStart, iEnd, iPhys, iOrdNe, iOrdEq, iListEq, iListNe⟩ :=
    insert_unlisted_spec mid2.geom mid2.lists mid2.blocks mid2.ordHi
      (by rw [hcnt1]; exact mid2.range) mid2.unlisted mid2.disj
      (by rw [mid2.sameStart]; exact mid2.align) hseg3
  have hproj_lists : ∀ j, ({ seg3 with nr_free_pages := seg3.nr_free_pages + 2 ^ ord } :
      VmPageSeg).free_lists j = seg3.free_lists j := fun j => rfl
  have hproj_pages : ∀ m, ({ seg3 with nr_free_pages := seg3.nr_free_pages + 2 ^ ord } :
      VmPageSeg).pages m = seg3.pages m := fun m => rfl
  have hcnt3 : segPagesCount seg3 = segPagesCount seg := by
    unfold segPagesCount
    rw [iStart, iEnd, mid2.sameStart, mid2.sameEnd]
  refine ⟨idx2, ord2, ?_, ?_, mid2.ordLo, mid2.ordHi, by have := mid2.lo; omega,
    by have := mid2.hi; omega, mid2.range, ?_, ?_, ?_, ?_, ?_, ?_, ?_, ?_⟩
  · -- SegInv
    rw [hres]
    refine ⟨?_, ?_, ?_, ?_⟩
    · obtain ⟨g1, g2, g3, g4⟩ := iG
      exact ⟨g1, g2, g3, g4⟩
    · exact iL
    · exact iB
    · show seg3.nr_free_pages + 2 ^ ord = freeSum seg3
      rw [iNr, mid2.nr, hAcc, iSum]
      have := mid2.sum
      omega
  · rw [hres]
    show seg3.nr_free_pages + 2 ^ ord = seg.nr_free_pages + 2 ^ ord
    rw [iNr, mid2.nr]
  · rw [hres]
    show (seg3.pages idx2).order = some ord2
    exact iOrdEq
  · rw [hres]
    show seg3.start = seg.start
    rw [iStart, mid2.sameStart]
  · rw [hres]
    show seg3.endAddr = seg.endAddr
    rw [iEnd, mid2.sameEnd]
  · intro m
    rw [hres, hproj_pages m]
    rw [iPhys m]
    exact mid2.phys m
  · intro m hm
    rw [hres, hproj_pages m]
    have h2o2 : 0 < 2 ^ ord2 := Nat.pos_pow_of_pos ord2 (by norm_num)
    have hmne : m ≠ idx2 := by omega
    rw [iOrdNe m hmne]
    exact mid2.outside m hm
  · refine ⟨(seg1.free_lists ord2).blocks, ?_⟩
    rw [hres, hproj_lists ord2]
    exact iListEq
  · intro i2 hi2 h hmm
    rw [hres, hproj_lists i2] at hmm
    by_cases hio : i2 = ord2
    · subst hio
      rw [iListEq] at hmm
      rcases List.mem_cons.mp hmm with he | hmm2
      · exact Or.inl ⟨rfl, he⟩
      · exact Or.inr (mid2.sub i2 hi2 h hmm2)
    · rw [iListNe i2 hio] at hmm
      exact Or.inr (mid2.sub i2 hi2 h hmm)
  · intro m2 hm2lo hm2hi
    exact mid2.tile m2 hm2lo hm2hi

/-! ## The free-list scan of vm_page_seg_alloc_from_buddy -/

theorem find?_range'_none {p : Nat → Bool} :
    ∀ n a, (List.range' a n).find? p = none ↔ ∀ i, a ≤ i → i < a + n → p i = false := by
  intro n
  induction n with
  | zero =>
    intro a
    simp only [List.range'_zero, List.find?_nil]
    constructor
    · intro _ i h1 h2
      omega
    · intro _
      trivial
  | succ n ih =>
    intro a
    rw [List.range'_succ, List.find?_cons]
    cases hpa : p a
    · simp only []
      rw [ih (a + 1)]
      constructor
      · intro hall i h1 h2
        by_cases hia : i = a
        · rw [hia]; exact hpa
        · exact hall i (by omega) (by omega)
      · intro hall i h1 h2
        exact hall i (by omega) (by omega)
    · simp only []
      constructor
      · intro hc
        exact Option.noConfusion hc
      · intro hall
        have := hall a (le_refl a) (by omega)
        rw [hpa] at this
        exact Bool.noConfusion this

theorem find?_range'_some {p : Nat → Bool} :
    ∀ n a i, (List.range' a n).find? p = some i →
      a ≤ i ∧ i < a + n ∧ p i = true ∧ ∀ j, a ≤ j → j < i → p j = false := by
  intro n
  induction n with
  | zero =>
    intro a i h
    rw [List.range'_zero, List.find?_nil] at h
    exact Option.noConfusion h
  | succ n ih =>
    intro a i h
    rw [List.range'_succ, List.find?_cons] at h
    cases hpa : p a
    · rw [hpa] at h
      simp only [] at h
      obtain ⟨h1, h2, h3, h4⟩ := ih (a + 1) i h
      refine ⟨by omega, by omega, h3, ?_⟩
      intro j hj1 hj2
      by_cases hja : j = a
      · rw [hja]; exact hpa
      · exact h4 j (by omega) hj2
    · rw [hpa] at h
      simp only [] at h
      have hia : i = a := (Option.some.inj h).symm
      subst hia
      refine ⟨le_refl i, by omega, hpa, ?_⟩
      intro j hj1 hj2
      omega

theorem find_list_none_iff (seg : VmPageSeg) (ord : Nat) (hord : ord ≤ K) :
    vm_page_find_list seg ord = none ↔
      ∀ i, ord ≤ i → i < K → (seg.free_lists i).size = 0 := by
  unfold vm_page_find_list
  rw [find?_range'_none]
  have he : ord + (K - ord) = K := by omega
  rw [he]
  constructor
  · intro hall i h1 h2
    have := hall i h1 h2
    simpa using this
  · intro hall i h1 h2
    simpa using hall i h1 h2

theorem find_list_some_spec (seg : VmPageSeg) (ord i : Nat)
    (h : vm_page_find_list seg ord = some i) :
    ord ≤ i ∧ i < K ∧ (seg.free_lists i).size ≠ 0 ∧
      ∀ j, ord ≤ j → j < i → (seg.free_lists j).size = 0 := by
  unfold vm_page_find_list at h
  obtain ⟨h1, h2, h3, h4⟩ := find?_range'_some (K - ord) ord i h
  refine ⟨h1, by omega, by simpa using h3, ?_⟩
  intro j hj1 hj2
  simpa using h4 j hj1 hj2

/-- The splitting loop of vm_page_seg_alloc_from_buddy: starting from a
free-floating block of order i, it releases the upper halves at orders
i-1, ..., ord and leaves a floating block of order ord at the same
head. -/
theorem split_loop_spec :
    ∀ i seg idx ord,
    ord ≤ i → i < K →
    SegGeom seg → SegLists seg → SegBlocks seg →
    idx + 2 ^ i ≤ segPagesCount seg →
    (∀ j, j < 2 ^ i → (seg.pages (idx + j)).order = none) →
    (∀ i2, i2 < K → ∀ h ∈ (seg.free_lists i2).blocks,
      h + 2 ^ i2 ≤ idx ∨ idx + 2 ^ i ≤ h) →
    ((2 ^ i * PAGE_SIZE) ∣ (seg.start + idx * PAGE_SIZE)) →
    SegGeom (vm_page_split_loop seg idx ord i) ∧
    SegLists (vm_page_split_loop seg idx ord i) ∧
    SegBlocks (vm_page_split_loop seg idx ord i) ∧
    freeSum (vm_page_split_loop seg idx ord i) + 2 ^ ord = freeSum seg + 2 ^ i ∧
    (vm_page_split_loop seg idx ord i).nr_free_pages = seg.nr_free_pages ∧
    (vm_page_split_loop seg idx ord i).start = seg.start ∧
    (vm_page_split_loop seg idx ord i).endAddr = seg.endAddr ∧
    (∀ m, ((vm_page_split_loop seg idx ord i).pages m).phys_addr =
      (seg.pages m).phys_addr) ∧
    (∀ j, j < 2 ^ ord → ((vm_page_split_loop seg idx ord i).pages (idx + j)).order = none) ∧
    (∀ i2, i2 < K → ∀ h ∈ ((vm_page_split_loop seg idx ord i).free_lists i2).blocks,
      h + 2 ^ i2 ≤ idx ∨ idx + 2 ^ ord ≤ h) ∧
    (∀ m, m < idx ∨ idx + 2 ^ i ≤ m →
      ((vm_page_split_loop seg idx ord i).pages m).order = (seg.pages m).order) ∧
    (∀ k, ord ≤ k → k < i →
      ((vm_page_split_loop seg idx ord i).free_lists k).blocks =
        (idx + 2 ^ k) :: (seg.free_lists k).blocks ∧
      ((vm_page_split_loop seg idx ord i).pages (idx + 2 ^ k)).order = some k) ∧
    (∀ k, (k < ord ∨ i ≤ k) → (vm_page_split_loop seg idx ord i).free_lists k =
      seg.free_lists k) ∧
    (∀ i2, i2 < K → ∀ h ∈ ((vm_page_split_loop seg idx ord i).free_lists i2).blocks,
      h ∈ (seg.free_lists i2).blocks ∨ (idx ≤ h ∧ h + 2 ^ i2 ≤ idx + 2 ^ i)) := by
  intro i
  induction i with
  | zero =>
    intro seg idx ord hordle hiK hG hL hB hrange hunl hdisj halign
    have hord0 : ord = 0 := by omega
    subst hord0
    have hz : vm_page_split_loop seg idx 0 0 = seg := rfl
    rw [hz]
    refine ⟨hG, hL, hB, rfl, rfl, rfl, rfl, fun m => rfl, hunl, hdisj,
      fun m hm => rfl, ?_, fun k hk => rfl, ?_⟩
    · intro k hk1 hk2
      omega
    · intro i2 hi2 h hm
      exact Or.inl hm
  | succ i ih =>
    intro seg idx ord hordle hiK hG hL hB hrange hunl hdisj halign
    by_cases hoi : ord ≤ i
    · -- insert the upper half at order i, then recurse
      have h2i : 0 < 2 ^ i := Nat.pos_pow_of_pos i (by norm_num)
      have hp2 : (2 : Nat) ^ (i + 1) = 2 ^ i + 2 ^ i := by
        rw [pow_succ]; ring
      have hiK2 : i < K := by omega
      -- insert the buddy block [idx + 2^i, idx + 2^(i+1))
      have hinsrange : (idx + 2 ^ i) + 2 ^ i ≤ segPagesCount seg := by omega
      have hinsunl : ∀ j, j < 2 ^ i → (seg.pages ((idx + 2 ^ i) + j)).order = none := by
        intro j hj
        have : (idx + 2 ^ i) + j = idx + (2 ^ i + j) := by omega
        rw [this]
        exact hunl (2 ^ i + j) (by omega)
      have hinsdisj : ∀ i2, i2 < K → ∀ h ∈ (seg.free_lists i2).blocks,
          h + 2 ^ i2 ≤ idx + 2 ^ i ∨ (idx + 2 ^ i) + 2 ^ i ≤ h := by
        intro i2 hi2 h hm
        have := hdisj i2 hi2 h hm
        omega
      have hinsalign : (2 ^ i * PAGE_SIZE) ∣ (seg.start + (idx + 2 ^ i) * PAGE_SIZE) := by
        have h1 : seg.start + (idx + 2 ^ i) * PAGE_SIZE =
            (seg.start + idx * PAGE_SIZE) + 2 ^ i * PAGE_SIZE := by ring
        rw [h1]
        refine Nat.dvd_add ?_ (dvd_refl _)
        have : (2 : Nat) ^ i * PAGE_SIZE ∣ 2 ^ (i + 1) * PAGE_SIZE := by
          refine Nat.mul_dvd_mul ?_ (dvd_refl _)
          exact pow_dvd_pow 2 (by omega)
        exact dvd_trans this halign
      obtain ⟨iG, iL, iB, iSum, iNr, iStart, iEnd, iPhys, iOrdNe, iOrdEq, iListEq, iListNe⟩ :=
        insert_unlisted_spec hG hL hB hiK2 hinsrange hinsunl hinsdisj hinsalign rfl
      set segI := setPageOrder
        (setList seg i (vm_page_free_list_insert (seg.free_lists i) (idx + 2 ^ i)))
        (idx + 2 ^ i) (some i) with hsegI
      have hcntI : segPagesCount segI = segPagesCount seg := by
        unfold segPagesCount
        rw [iStart, iEnd]
      -- floating block [idx, idx + 2^i) in segI
      have hflrange : idx + 2 ^ i ≤ segPagesCount segI := by omega
      have hflunl : ∀ j, j < 2 ^ i → (segI.pages (idx + j)).order = none := by
        intro j hj
        have hne : idx + j ≠ idx + 2 ^ i := by omega
        rw [iOrdNe _ hne]
        exact hunl j (by omega)
      have hfldisj : ∀ i2, i2 < K → ∀ h ∈ (segI.free_lists i2).blocks,
          h + 2 ^ i2 ≤ idx ∨ idx + 2 ^ i ≤ h := by
        intro i2 hi2 h hm
        by_cases hio : i2 = i
        · subst hio
          rw [iListEq] at hm
          rcases List.mem_cons.mp hm with he | hm2
          · subst he
            right
            omega
          · have := hdisj i2 hi2 h hm2
            omega
        · rw [iListNe i2 hio] at hm
          have := hdisj i2 hi2 h hm
          omega
      have hflalign : (2 ^ i * PAGE_SIZE) ∣ (segI.start + idx * PAGE_SIZE) := by
        rw [iStart]
        have : (2 : Nat) ^ i * PAGE_SIZE ∣ 2 ^ (i + 1) * PAGE_SIZE := by
          refine Nat.mul_dvd_mul ?_ (dvd_refl _)
          exact pow_dvd_pow 2 (by omega)
        exact dvd_trans this halign
      obtain ⟨sG, sL, sB, sSum, sNr, sStart, sEnd, sPhys, sUnl, sDisj, sOut, sHeads,
        sSame, sSub⟩ := ih segI idx ord hoi hiK2 iG iL iB hflrange hflunl hfldisj hflalign
      have hloopeq : vm_page_split_loop seg idx ord (i + 1) = vm_page_split_loop segI idx ord i := by
        simp only [vm_page_split_loop]
        rw [if_pos hoi]
      rw [hloopeq]
      have h2k : ∀ k, k < i → (2 : Nat) ^ k < 2 ^ i := by
        intro k hk
        exact Nat.pow_lt_pow_right (by norm_num) hk
      refine ⟨sG, sL, sB, ?_, by rw [sNr, iNr], by rw [sStart, iStart],
        by rw [sEnd, iEnd], ?_, sUnl, sDisj, ?_, ?_, ?_, ?_⟩
      · rw [iSum] at sSum
        omega
      · intro m
        rw [sPhys m, iPhys m]
      · intro m hm
        have hmor := sOut m (by omega)
        rw [hmor]
        have hne : m ≠ idx + 2 ^ i := by omega
        rw [iOrdNe m hne]
      · intro k hk1 hk2
        by_cases hki : k = i
        · subst hki
          have hsk := sSame k (Or.inr (le_refl k))
          rw [hsk, iListEq]
          constructor
          · rfl
          · have := sOut (idx + 2 ^ k) (by omega)
            rw [this, iOrdEq]
        · obtain ⟨hh1, hh2⟩ := sHeads k hk1 (by omega)
          constructor
          · rw [hh1]
            by_cases hkio : k = i
            · exact absurd hkio hki
            · rw [iListNe k hkio]
          · exact hh2
      · intro k hk
        rcases hk with hk | hk
        · rw [sSame k (Or.inl hk), iListNe k (by omega)]
        · rw [sSame k (Or.inr (by omega)), iListNe k (by omega)]
      · intro i2 hi2 h hm
        rcases sSub i2 hi2 h hm with hold | hnew
        · by_cases hio : i2 = i
          · subst hio
            rw [iListEq] at hold
            rcases List.mem_cons.mp hold with he | hm2
            · subst he
              right
              omega
            · exact Or.inl hm2
          · rw [iListNe i2 hio] at hold
            exact Or.inl hold
        · right
          omega
    · -- ord = i + 1: the loop body does not run
      have hoe : ord = i + 1 := by omega
      have hloopeq : vm_page_split_loop seg idx ord (i + 1) = seg := by
        simp only [vm_page_split_loop]
        rw [if_neg hoi]
      rw [hloopeq, hoe]
      refine ⟨hG, hL, hB, rfl, rfl, rfl, rfl, fun m => rfl, hunl, hdisj,
        fun m hm => rfl, ?_, fun k hk => rfl, ?_⟩
      · intro k hk1 hk2
        omega
      · intro i2 hi2 h hm
        exact Or.inl hm

theorem freeSum_ge (seg : VmPageSeg) (i : Nat) (hi : i < K) :
    (seg.free_lists i).size * 2 ^ i ≤ freeSum seg := by
  unfold freeSum
  exact @Finset.single_le_sum Nat Nat _ (fun j => (seg.free_lists j).size * 2 ^ j)
    (Finset.range K) (fun j _ => Nat.zero_le _) i (Finset.mem_range.mpr hi)

/-- Core correctness of vm_page_seg_alloc_from_buddy: NULL exactly when
all the lists at or above the requested order are empty; on success the
head of the smallest non-empty list is removed, split down to the
requested order, returned unlisted, and nr_free_pages drops by exactly
2^ord; the invariant is preserved and the returned block satisfies the
free precondition. -/
theorem alloc_from_buddy_core {seg : VmPageSeg} {ord : Nat}
    (hI : SegInv seg) (hord : ord < K) :
    (vm_page_seg_alloc_from_buddy seg ord = none ↔
      ∀ i, ord ≤ i → i < K → (seg.free_lists i).size = 0) ∧
    (∀ idx seg', vm_page_seg_alloc_from_buddy seg ord = some (idx, seg') →
      ∃ i0 tl,
        ord ≤ i0 ∧ i0 < K ∧
        (∀ j, ord ≤ j → j < i0 → (seg.free_lists j).size = 0) ∧
        (seg.free_lists i0).blocks = idx :: tl ∧
        SegInv seg' ∧
        seg'.nr_free_pages + 2 ^ ord = seg.nr_free_pages ∧
        CanFree seg' idx ord ∧
        (seg'.pages idx).order = none ∧
        idx + 2 ^ i0 ≤ segPagesCount seg ∧
        seg'.start = seg.start ∧ seg'.endAddr = seg.endAddr ∧
        (∀ m, (seg'.pages m).phys_addr = (seg.pages m).phys_addr) ∧
        (∀ k, ord ≤ k → k < i0 →
          (seg'.free_lists k).blocks = (idx + 2 ^ k) :: (seg.free_lists k).blocks ∧
          (seg'.pages (idx + 2 ^ k)).order = some k) ∧
        ((seg'.free_lists i0).blocks = tl) ∧
        (∀ k, k < K → (k < ord ∨ i0 < k) → seg'.free_lists k = seg.free_lists k) ∧
        (∀ i2, i2 < K → ∀ h ∈ (seg'.free_lists i2).blocks,
          h ∈ (seg.free_lists i2).blocks ∨ (idx ≤ h ∧ h + 2 ^ i2 ≤ idx + 2 ^ i0)) ∧
        (∀ m, m < idx ∨ idx + 2 ^ i0 ≤ m →
          (seg'.pages m).order = (seg.pages m).order)) := by
  obtain ⟨hG, hL, hB, hAcc⟩ := hI
  cases hfind : vm_page_find_list seg ord with
  | none =>
    have hnone : vm_page_seg_alloc_from_buddy seg ord = none := by
      unfold vm_page_seg_alloc_from_buddy
      rw [hfind]
    constructor
    · rw [hnone]
      rw [← find_list_none_iff seg ord (by omega)]
      constructor
      · intro _
        exact hfind
      · intro _
        rfl
    · intro idx seg' hsome
      rw [hnone] at hsome
      exact Option.noConfusion hsome
  | some i0 =>
    obtain ⟨hi0ge, hi0lt, hi0sz, hi0min⟩ := find_list_some_spec seg ord i0 hfind
    obtain ⟨hsz, hnd, hbd, hiff⟩ := hL
    have hne : (seg.free_lists i0).blocks ≠ [] := by
      intro hc
      rw [hsz i0 hi0lt, hc] at hi0sz
      exact hi0sz rfl
    cases hblk : (seg.free_lists i0).blocks with
    | nil => exact absurd hblk hne
    | cons idx tl =>
      have hm : idx ∈ (seg.free_lists i0).blocks := by
        rw [hblk]
        exact List.mem_cons_self idx tl
      obtain ⟨rG, rL, rB, rRange, rUnl, rDisj, rAlign, rSum, rNr, rStart, rEnd, rPhys,
        rOrdNe, rSub, rListNe, rListEq⟩ :=
        remove_listed_spec hG ⟨hsz, hnd, hbd, hiff⟩ hB hi0lt hm rfl
      set segR := setPageOrder
        (setList seg i0 (vm_page_free_list_remove (seg.free_lists i0) idx)) idx none
        with hsegR
      have hcntR : segPagesCount segR = segPagesCount seg := by
        unfold segPagesCount
        rw [rStart, rEnd]
      obtain ⟨sG, sL, sB, sSum, sNr, sStart, sEnd, sPhys, sUnl, sDisj, sOut, sHeads,
        sSame, sSub⟩ :=
        split_loop_spec i0 segR idx ord hi0ge hi0lt rG rL rB
          (by rw [hcntR]; exact rRange) rUnl rDisj (by rw [rStart]; exact rAlign)
      set segS := vm_page_split_loop segR idx ord i0 with hsegS
      have hres : vm_page_seg_alloc_from_buddy seg ord =
          some (idx, { segS with nr_free_pages := segS.nr_free_pages - 2 ^ ord }) := by
        simp only [vm_page_seg_alloc_from_buddy, hfind, hblk]
      have h2o : 0 < 2 ^ ord := Nat.pos_pow_of_pos ord (by norm_num)
      have h2i0 : 0 < 2 ^ i0 := Nat.pos_pow_of_pos i0 (by norm_num)
      have hple : (2 : Nat) ^ ord ≤ 2 ^ i0 :=
        Nat.pow_le_pow_right (by norm_num) hi0ge
      have hnrge : 2 ^ i0 ≤ seg.nr_free_pages := by
        have hge := freeSum_ge seg i0 hi0lt
        have hs1 : 1 ≤ (seg.free_lists i0).size := by omega
        have : 2 ^ i0 ≤ (seg.free_lists i0).size * 2 ^ i0 :=
          Nat.le_mul_of_pos_left _ (by omega)
        omega
      constructor
      · rw [hres]
        constructor
        · intro hc
          exact Option.noConfusion hc
        · intro hall
          have := hall i0 hi0ge hi0lt
          exact absurd this hi0sz
      · intro idx1 seg1 hsome
        rw [hres] at hsome
        have hpair := Option.some.inj hsome
        have hidx1 : idx1 = idx := (Prod.mk.injEq _ _ _ _).mp hpair |>.1.symm
        have hseg1 : seg1 = { segS with nr_free_pages := segS.nr_free_pages - 2 ^ ord } :=
          ((Prod.mk.injEq _ _ _ _).mp hpair).2.symm
        subst hidx1
        have hproj_lists : ∀ j, seg1.free_lists j = segS.free_lists j := by
          intro j
          rw [hseg1]
        have hproj_pages : ∀ m, seg1.pages m = segS.pages m := by
          intro m
          rw [hseg1]
        have hstart1 : seg1.start = seg.start := by
          rw [hseg1]
          show segS.start = seg.start
          rw [sStart, rStart]
        have hend1 : seg1.endAddr = seg.endAddr := by
          rw [hseg1]
          show segS.endAddr = seg.endAddr
          rw [sEnd, rEnd]
        have hcnt1 : segPagesCount seg1 = segPagesCount seg := by
          unfold segPagesCount
          rw [hstart1, hend1]
        have hsum1 : freeSum seg1 = freeSum segS := by
          unfold freeSum
          refine Finset.sum_congr rfl ?_
          intro j _
          rw [hproj_lists j]
        have hnr1 : seg1.nr_free_pages = seg.nr_free_pages - 2 ^ ord := by
          rw [hseg1]
          show segS.nr_free_pages - 2 ^ ord = seg.nr_free_pages - 2 ^ ord
          rw [sNr, rNr]
        have hacc1 : seg1.nr_free_pages + 2 ^ ord = seg.nr_free_pages := by
          rw [hnr1]
          omega
        have hfs : freeSum seg1 + 2 ^ ord = freeSum seg := by
          rw [hsum1]
          omega
        refine ⟨i0, tl, hi0ge, hi0lt, hi0min, hblk, ?_, hacc1, ?_, ?_, ?_, hstart1, hend1,
          ?_, ?_, ?_, ?_, ?_, ?_⟩
        · -- SegInv seg1
          refine ⟨?_, ?_, ?_, ?_⟩
          · obtain ⟨g1, g2, g3, g4⟩ := sG
            refine ⟨by rw [hstart1]; rw [sStart, rStart] at g1; exact g1,
              by rw [hstart1, hend1]; rw [sStart, rStart, sEnd, rEnd] at g2; exact g2,
              by rw [hend1]; rw [sEnd, rEnd] at g3; exact g3, ?_⟩
            intro m hmlt
            have e1 : seg1.pages m = segS.pages m := hproj_pages m
            rw [e1, hstart1]
            rw [hcnt1] at hmlt
            have hmlt2 : m < segPagesCount segS := by
              unfold segPagesCount
              rw [sStart, rStart, sEnd, rEnd]
              exact hmlt
            rw [g4 m hmlt2, sStart, rStart]
          · refine ⟨?_, ?_, ?_, ?_⟩
            · intro j hj
              rw [hproj_lists j]
              exact sL.1 j hj
            · intro j hj
              rw [hproj_lists j]
              exact sL.2.1 j hj
            · intro m hmlt
              rw [hproj_pages m]
              refine sL.2.2.1 m ?_
              unfold segPagesCount at *
              rw [sStart, rStart, sEnd, rEnd]
              rw [hcnt1] at hmlt
              exact hmlt
            · intro m hmlt j hj
              rw [hproj_lists j, hproj_pages m]
              refine sL.2.2.2 m ?_ j hj
              unfold segPagesCount at *
              rw [sStart, rStart, sEnd, rEnd]
              rw [hcnt1] at hmlt
              exact hmlt
          · intro j hj h hmm
            rw [hproj_lists j] at hmm
            have := sB j hj h hmm
            refine ⟨?_, ?_, ?_⟩
            · rw [hcnt1]
              unfold segPagesCount at *
              rw [sStart, rStart, sEnd, rEnd] at this
              exact this.1
            · rw [hstart1]
              rw [sStart, rStart] at this
              exact this.2.1
            · intro j2 hj2 hj2pos
              rw [hproj_pages]
              exact this.2.2 j2 hj2 hj2pos
          · rw [hfs, hAcc] at *
            omega
        · -- CanFree seg1 idx ord
          refine ⟨hord, by rw [hcnt1]; omega, ?_, ?_, ?_⟩
          · intro j hj
            rw [hproj_pages]
            exact sUnl j hj
          · rw [hstart1]
            have : (2 : Nat) ^ ord * PAGE_SIZE ∣ 2 ^ i0 * PAGE_SIZE :=
              Nat.mul_dvd_mul (pow_dvd_pow 2 hi0ge) (dvd_refl _)
            exact dvd_trans this rAlign
          · intro i2 hi2 h hmm
            rw [hproj_lists i2] at hmm
            exact sDisj i2 hi2 h hmm
        · rw [hproj_pages]
          have := sUnl 0 h2o
          rw [Nat.add_zero] at this
          exact this
        · exact rRange
        · intro m
          rw [hproj_pages m, sPhys m, rPhys m]
        · intro k hk1 hk2
          obtain ⟨hh1, hh2⟩ := sHeads k hk1 hk2
          constructor
          · rw [hproj_lists k, hh1, rListNe k (by omega)]
          · rw [hproj_pages, hh2]
        · rw [hproj_lists i0, sSame i0 (Or.inr (le_refl i0)), rListEq, hblk]
          simp [List.erase_cons]
        · intro k hk hkc
          rw [hproj_lists k, sSame k (by omega), rListNe k (by omega)]
        · intro i2 hi2 h hmm
          rw [hproj_lists i2] at hmm
          rcases sSub i2 hi2 h hmm with hold | hnew
          · exact Or.inl (rSub i2 hi2 h hold)
          · exact Or.inr hnew
        · intro m hm
          rw [hproj_pages m, sOut m hm, rOrdNe m (by omega)]

/-! ## Per-CPU pool refill and drain -/

/-- The refill loop of vm_page_cpu_pool_fill: each transferred page is a
fresh order-0 block from the buddy, pushed onto the pool. -/
theorem fill_loop_spec :
    ∀ n pool seg, SegInv seg → PoolInv seg pool →
    SegInv (vm_page_cpu_pool_fill_loop pool seg n).2.2 ∧
    PoolInv (vm_page_cpu_pool_fill_loop pool seg n).2.2
      (vm_page_cpu_pool_fill_loop pool seg n).2.1 ∧
    (vm_page_cpu_pool_fill_loop pool seg n).1 ≤ n ∧
    (vm_page_cpu_pool_fill_loop pool seg n).2.1.nr_pages =
      pool.nr_pages + (vm_page_cpu_pool_fill_loop pool seg n).1 ∧
    (vm_page_cpu_pool_fill_loop pool seg n).2.1.pages.length =
      pool.pages.length + (vm_page_cpu_pool_fill_loop pool seg n).1 ∧
    (vm_page_cpu_pool_fill_loop pool seg n).2.2.nr_free_pages +
      (vm_page_cpu_pool_fill_loop pool seg n).1 = seg.nr_free_pages ∧
    (vm_page_cpu_pool_fill_loop pool seg n).2.1.size = pool.size ∧
    (vm_page_cpu_pool_fill_loop pool seg n).2.1.transfer_size = pool.transfer_size ∧
    ((vm_page_cpu_pool_fill_loop pool seg n).1 = 0 →
      (vm_page_cpu_pool_fill_loop pool seg n).2.1 = pool ∧
      (vm_page_cpu_pool_fill_loop pool seg n).2.2 = seg) ∧
    ((vm_page_cpu_pool_fill_loop pool seg n).1 = 0 ↔
      (n = 0 ∨ ∀ i, i < K → (seg.free_lists i).size = 0)) := by
  intro n
  induction n with
  | zero =>
    intro pool seg hS hP
    refine ⟨hS, hP, le_refl 0, rfl, rfl, rfl, rfl, rfl, fun _ => ⟨rfl, rfl⟩, ?_⟩
    constructor
    · intro _
      exact Or.inl rfl
    · intro _
      rfl
  | succ n ih =>
    intro pool seg hS hP
    have hK0 : (0 : Nat) < K := by norm_num [K]
    cases halloc : vm_page_seg_alloc_from_buddy seg 0 with
    | none =>
      have hempty : ∀ i, i < K → (seg.free_lists i).size = 0 := by
        have := (alloc_from_buddy_core hS hK0).1.mp halloc
        intro i hi
        exact this i (Nat.zero_le i) hi
      have heq : vm_page_cpu_pool_fill_loop pool seg (n + 1) = (0, pool, seg) := by
        simp only [vm_page_cpu_pool_fill_loop, halloc]
      rw [heq]
      refine ⟨hS, hP, Nat.zero_le _, rfl, rfl, rfl, rfl, rfl, fun _ => ⟨rfl, rfl⟩, ?_⟩
      constructor
      · intro _
        exact Or.inr hempty
      · intro _
        rfl
    | some r =>
      obtain ⟨idx, seg1⟩ := r
      obtain ⟨-, hsome⟩ := alloc_from_buddy_core hS hK0
      obtain ⟨i0, tl, hi0ge, hi0lt, hi0min, hblk, hI1, hnr1, hCF1, hord1, hrange1, hst1,
        hen1, hphys1, hheads1, hlist1, hsame1, hsub1, hout1⟩ := hsome idx seg1 halloc
      obtain ⟨hpn, hpt, hpd, hpp⟩ := hP
      have h2i0 : 0 < 2 ^ i0 := Nat.pos_pow_of_pos i0 (by norm_num)
      have hidxblk : idx ∈ (seg.free_lists i0).blocks := by
        rw [hblk]
        exact List.mem_cons_self idx tl
      -- the fresh page is not in the pool
      have hidxnotin : idx ∉ pool.pages := by
        intro hc
        have := (hpp idx hc).2.2 i0 hi0lt idx hidxblk
        exact this ⟨le_refl idx, by omega⟩
      -- pool invariant after the push, against the new segment
      have hP1 : PoolInv seg1 (vm_page_cpu_pool_push pool idx) := by
        refine ⟨?_, hpt, ?_, ?_⟩
        · show pool.nr_pages + 1 = (idx :: pool.pages).length
          rw [List.length_cons, hpn]
        · exact List.Nodup.cons hidxnotin hpd
        · intro p hp
          rcases List.mem_cons.mp hp with he | hp2
          · subst he
            obtain ⟨hcK, hcrange, hcunl, hcalign, hcdisj⟩ := hCF1
            refine ⟨by omega, hord1, ?_⟩
            intro i hi h hmm
            have := hcdisj i hi h hmm
            omega
          · obtain ⟨hq1, hq2, hq3⟩ := hpp p hp2
            have hpnot : ¬(idx ≤ p ∧ p < idx + 2 ^ i0) := hq3 i0 hi0lt idx hidxblk
            refine ⟨?_, ?_, ?_⟩
            · unfold segPagesCount at *
              rw [hst1, hen1]
              exact hq1
            · rw [hout1 p (by omega)]
              exact hq2
            · intro i hi h hmm
              rcases hsub1 i hi h hmm with hold | hnew
              · exact hq3 i hi h hold
              · intro hc
                exact hpnot ⟨by omega, by omega⟩
      have ihr := ih (vm_page_cpu_pool_push pool idx) seg1 hI1 hP1
      have heq : vm_page_cpu_pool_fill_loop pool seg (n + 1) =
          ((vm_page_cpu_pool_fill_loop (vm_page_cpu_pool_push pool idx) seg1 n).1 + 1,
           (vm_page_cpu_pool_fill_loop (vm_page_cpu_pool_push pool idx) seg1 n).2) := by
        simp only [vm_page_cpu_pool_fill_loop, halloc]
      rw [heq]
      obtain ⟨j1, j2, j3, j4, j5, j6, j7, j8, j9, j10⟩ := ihr
      have hpushnr : (vm_page_cpu_pool_push pool idx).nr_pages = pool.nr_pages + 1 := rfl
      have hpushlen : (vm_page_cpu_pool_push pool idx).pages.length =
          pool.pages.length + 1 := by
        show (idx :: pool.pages).length = pool.pages.length + 1
        rw [List.length_cons]
      refine ⟨j1, j2, by omega, ?_, ?_, ?_, j7, j8, ?_, ?_⟩
      · show (vm_page_cpu_pool_fill_loop (vm_page_cpu_pool_push pool idx) seg1 n).2.1.nr_pages =
          pool.nr_pages + ((vm_page_cpu_pool_fill_loop (vm_page_cpu_pool_push pool idx) seg1 n).1 + 1)
        rw [j4, hpushnr]
        omega
      · show (vm_page_cpu_pool_fill_loop (vm_page_cpu_pool_push pool idx) seg1 n).2.1.pages.length =
          pool.pages.length + ((vm_page_cpu_pool_fill_loop (vm_page_cpu_pool_push pool idx) seg1 n).1 + 1)
        rw [j5, hpushlen]
        omega
      · show (vm_page_cpu_pool_fill_loop (vm_page_cpu_pool_push pool idx) seg1 n).2.2.nr_free_pages +
          ((vm_page_cpu_pool_fill_loop (vm_page_cpu_pool_push pool idx) seg1 n).1 + 1) =
          seg.nr_free_pages
        have h1 : (2 : Nat) ^ 0 = 1 := by norm_num
        rw [h1] at hnr1
        omega
      · intro hc
        simp only [] at hc
        omega
      · constructor
        · intro hc
          simp only [] at hc
          omega
        · intro hc
          rcases hc with hc | hc
          · omega
          · exfalso
            have hc0 := hc i0 hi0lt
            obtain ⟨-, ⟨hsz2, -, -, -⟩, -, -⟩ := hS
            rw [hsz2 i0 hi0lt, hblk] at hc0
            simp at hc0

/-- The drain loop of vm_page_cpu_pool_drain: each popped page is an
order-0 free page outside every free block, so freeing it back to the
buddy preserves the invariants and adds one to nr_free_pages. -/
theorem drain_loop_spec :
    ∀ n pool seg, SegInv seg → PoolInv seg pool → n ≤ pool.pages.length →
    SegInv (vm_page_cpu_pool_drain_loop pool seg n).2 ∧
    PoolInv (vm_page_cpu_pool_drain_loop pool seg n).2
      (vm_page_cpu_pool_drain_loop pool seg n).1 ∧
    (vm_page_cpu_pool_drain_loop pool seg n).1.nr_pages = pool.nr_pages - n ∧
    (vm_page_cpu_pool_drain_loop pool seg n).1.pages.length = pool.pages.length - n ∧
    (vm_page_cpu_pool_drain_loop pool seg n).2.nr_free_pages = seg.nr_free_pages + n ∧
    (vm_page_cpu_pool_drain_loop pool seg n).1.size = pool.size ∧
    (vm_page_cpu_pool_drain_loop pool seg n).1.transfer_size = pool.transfer_size ∧
    (vm_page_cpu_pool_drain_loop pool seg n).2.start = seg.start ∧
    (vm_page_cpu_pool_drain_loop pool seg n).2.endAddr = seg.endAddr ∧
    (∀ p ∈ (vm_page_cpu_pool_drain_loop pool seg n).1.pages, p ∈ pool.pages) ∧
    (∀ q, q ∉ pool.pages → (∀ i, i < K → ∀ h ∈ (seg.free_lists i).blocks,
        ¬(h ≤ q ∧ q < h + 2 ^ i)) → q < segPagesCount seg →
      ((vm_page_cpu_pool_drain_loop pool seg n).2.pages q).order = (seg.pages q).order ∧
      (∀ i, i < K → ∀ h ∈ ((vm_page_cpu_pool_drain_loop pool seg n).2.free_lists i).blocks,
        ¬(h ≤ q ∧ q < h + 2 ^ i))) := by
  intro n
  induction n with
  | zero =>
    intro pool seg hS hP hlen
    exact ⟨hS, hP, rfl, rfl, rfl, rfl, rfl, rfl, rfl, fun p hp => hp,
      fun q hq1 hq2 hq3 => ⟨rfl, hq2⟩⟩
  | succ n ih =>
    intro pool seg hS hP hlen
    obtain ⟨hpn, hpt, hpd, hpp⟩ := hP
    cases hpl : pool.pages with
    | nil =>
      rw [hpl] at hlen
      simp at hlen
    | cons p rest =>
      have hpmem : p ∈ pool.pages := by
        rw [hpl]
        exact List.mem_cons_self p rest
      obtain ⟨hq1, hq2, hq3⟩ := hpp p hpmem
      have hprest : p ∉ rest := by
        rw [hpl] at hpd
        exact (List.nodup_cons.mp hpd).1
      have hrestd : rest.Nodup := by
        rw [hpl] at hpd
        exact (List.nodup_cons.mp hpd).2
      have hK0 : (0 : Nat) < K := by norm_num [K]
      have hps : 0 < PAGE_SIZE := by norm_num [PAGE_SIZE]
      have hCF : CanFree seg p 0 := by
        refine ⟨hK0, by norm_num; omega, ?_, ?_, ?_⟩
        · intro j hj
          have hj0 : j = 0 := by
            have : (2 : Nat) ^ 0 = 1 := by norm_num
            omega
          subst hj0
          rw [Nat.add_zero]
          exact hq2
        · have h1 : (2 : Nat) ^ 0 * PAGE_SIZE = PAGE_SIZE := by norm_num
          rw [h1]
          obtain ⟨⟨g1, -, -, -⟩, -, -, -⟩ := hS
          exact Nat.dvd_add g1 (dvd_mul_left PAGE_SIZE p)
        · intro i hi h hmm
          have := hq3 i hi h hmm
          have h20 : (2 : Nat) ^ 0 = 1 := by norm_num
          omega
      obtain ⟨idx2, ord2, fI, fNr, fOrdLo, fOrdHi, fLo, fHi, fRange, fOrd, fStart, fEnd,
        fPhys, fOut, fHead, fSub, fTile⟩ := free_to_buddy_core hS hCF
      set segF := vm_page_seg_free_to_buddy seg p 0 with hsegF
      have hcntF : segPagesCount segF = segPagesCount seg := by
        unfold segPagesCount
        rw [fStart, fEnd]
      set pool1 : VmPageCpuPool := ⟨pool.size, pool.transfer_size, pool.nr_pages - 1, rest⟩
        with hpool1
      -- a page not in the pool and outside all blocks stays outside
      have houtside : ∀ q, q ≠ p → (∀ i, i < K → ∀ h ∈ (seg.free_lists i).blocks,
          ¬(h ≤ q ∧ q < h + 2 ^ i)) →
          (¬(idx2 ≤ q ∧ q < idx2 + 2 ^ ord2)) := by
        intro q hqp hqout hc
        rcases fTile q hc.1 hc.2 with ⟨hl, hr⟩ | ⟨i, hi, h, hh, hl, hr⟩
        · have h20 : (2 : Nat) ^ 0 = 1 := by norm_num
          omega
        · exact hqout i hi h hh ⟨hl, hr⟩
      have hP1 : PoolInv segF pool1 := by
        refine ⟨?_, hpt, hrestd, ?_⟩
        · show pool.nr_pages - 1 = rest.length
          rw [hpn, hpl, List.length_cons]
          omega
        · intro q hq
          have hqp : q ≠ p := fun hc => hprest (hc ▸ hq)
          have hqmem : q ∈ pool.pages := by
            rw [hpl]
            exact List.mem_cons_of_mem p hq
          obtain ⟨hw1, hw2, hw3⟩ := hpp q hqmem
          have hqnotblk := houtside q hqp hw3
          refine ⟨by rw [hcntF]; exact hw1, ?_, ?_⟩
          · rw [fOut q (by omega)]
            exact hw2
          · intro i hi h hmm
            rcases fSub i hi h hmm with ⟨hie, hhe⟩ | hold
            · subst hie hhe
              exact hqnotblk
            · exact hw3 i hi h hold
      have hdrain : vm_page_cpu_pool_drain_loop pool seg (n + 1) =
          vm_page_cpu_pool_drain_loop pool1 segF n := by
        simp only [vm_page_cpu_pool_drain_loop, vm_page_cpu_pool_pop, hpl]
      rw [hdrain]
      have hlen1 : n ≤ pool1.pages.length := by
        show n ≤ rest.length
        rw [hpl, List.length_cons] at hlen
        omega
      obtain ⟨j1, j2, j3, j4, j5, j6, j7, j8, j9, jsub, j10⟩ := ih pool1 segF fI hP1 hlen1
      have h20 : (2 : Nat) ^ 0 = 1 := by norm_num
      refine ⟨j1, j2, ?_, ?_, ?_, j6, j7, by rw [j8, fStart], by rw [j9, fEnd], ?_, ?_⟩
      · show (vm_page_cpu_pool_drain_loop pool1 segF n).1.nr_pages = pool.nr_pages - (n + 1)
        rw [j3]
        show pool.nr_pages - 1 - n = pool.nr_pages - (n + 1)
        omega
      · rw [j4]
        show rest.length - n = (p :: rest).length - (n + 1)
        rw [List.length_cons]
        omega
      · rw [j5, fNr]
        omega
      · intro p2 hp2
        have := jsub p2 hp2
        exact List.mem_cons_of_mem p this
      · intro q hqnot hqout hqlt
        have hqp : q ≠ p := by
          intro hc
          refine hqnot ?_
          rw [hc]
          exact List.mem_cons_self p rest
        have hqnotblk := houtside q hqp hqout
        have hqnot1 : q ∉ pool1.pages := by
          intro hc
          exact hqnot (List.mem_cons_of_mem p hc)
        have hqoutF : ∀ i, i < K → ∀ h ∈ (segF.free_lists i).blocks,
            ¬(h ≤ q ∧ q < h + 2 ^ i) := by
          intro i hi h hmm
          rcases fSub i hi h hmm with ⟨hie, hhe⟩ | hold
          · subst hie hhe
            exact hqnotblk
          · exact hqout i hi h hold
        obtain ⟨jj1, jj2⟩ := j10 q hqnot1 hqoutF (by rw [hcntF]; exact hqlt)
        refine ⟨?_, jj2⟩
        rw [jj1]
        exact fOut q (by omega)

/-! ## Segment-level allocate / free preserve the invariants -/

theorem set_type_SegInv {seg : VmPageSeg} (a b : Nat) (ty : PType) (h : SegInv seg) :
    SegInv (vm_page_set_type seg a b ty) := by
  obtain ⟨⟨g1, g2, g3, g4⟩, ⟨l1, l2, l3, l4⟩, hB, hA⟩ := h
  refine ⟨⟨g1, g2, g3, ?_⟩, ⟨l1, l2, ?_, ?_⟩, ?_, hA⟩
  · intro m hm
    rw [set_type_phys]
    exact g4 m hm
  · intro m hm
    rw [set_type_order]
    exact l3 m hm
  · intro m hm i hi
    rw [set_type_order]
    exact l4 m hm i hi
  · intro i hi hh hmm
    have := hB i hi hh hmm
    refine ⟨this.1, this.2.1, ?_⟩
    intro j hj hjpos
    rw [set_type_order]
    exact this.2.2 j hj hjpos

theorem set_type_PoolInv {seg : VmPageSeg} {pool : VmPageCpuPool} (a b : Nat) (ty : PType)
    (h : PoolInv seg pool) : PoolInv (vm_page_set_type seg a b ty) pool := by
  obtain ⟨h1, h2, h3, h4⟩ := h
  refine ⟨h1, h2, h3, ?_⟩
  intro p hp
  obtain ⟨q1, q2, q3⟩ := h4 p hp
  exact ⟨q1, by rw [set_type_order]; exact q2, q3⟩

/-- The CPU pool's pages stay valid across a buddy allocation: the
allocated block was a listed block, which no pool page may lie in. -/
theorem pool_survives_alloc {seg seg' : VmPageSeg} {pool : VmPageCpuPool} {ord idx : Nat}
    (hI : SegInv seg) (hP : PoolInv seg pool) (hord : ord < K)
    (h : vm_page_seg_alloc_from_buddy seg ord = some (idx, seg')) :
    PoolInv seg' pool := by
  obtain ⟨-, hsome⟩ := alloc_from_buddy_core hI hord
  obtain ⟨i0, tl, hi0ge, hi0lt, hi0min, hblk, hI1, hnr1, hCF1, hord1, hrange1, hst1,
    hen1, hphys1, hheads1, hlist1, hsame1, hsub1, hout1⟩ := hsome idx seg' h
  obtain ⟨hpn, hpt, hpd, hpp⟩ := hP
  have hidxblk : idx ∈ (seg.free_lists i0).blocks := by
    rw [hblk]
    exact List.mem_cons_self idx tl
  refine ⟨hpn, hpt, hpd, ?_⟩
  intro p hp
  obtain ⟨q1, q2, q3⟩ := hpp p hp
  have hpnot : ¬(idx ≤ p ∧ p < idx + 2 ^ i0) := q3 i0 hi0lt idx hidxblk
  refine ⟨?_, ?_, ?_⟩
  · unfold segPagesCount at *
    rw [hst1, hen1]
    exact q1
  · rw [hout1 p (by omega)]
    exact q2
  · intro i hi hh hmm
    rcases hsub1 i hi hh hmm with hold | hnew
    · exact q3 i hi hh hold
    · intro hc
      exact hpnot ⟨by omega, by omega⟩

/-- vm_page_seg_alloc preserves the invariants. -/
theorem seg_alloc_inv {s : VmSegCpu} {ord : Nat} {ty : PType}
    (hI : SegCpuInv s) (hord : ord < K) :
    ∀ idx s', vm_page_seg_alloc s ord ty = some (idx, s') → SegCpuInv s' := by
  intro idx s' hres
  obtain ⟨hS, hP⟩ := hI
  by_cases h0 : ord = 0
  · subst h0
    rw [vm_page_seg_alloc, if_pos rfl] at hres
    by_cases hvide : s.cpu_pool.nr_pages = 0
    · rw [if_pos hvide] at hres
      obtain ⟨j1, j2, j3, j4, j5, j6, j7, j8, j9, j10⟩ :=
        fill_loop_spec s.cpu_pool.transfer_size s.cpu_pool s.seg hS hP
      by_cases hzero : (vm_page_cpu_pool_fill s.cpu_pool s.seg).1 = 0
      · rw [if_pos hzero] at hres
        exact Option.noConfusion hres
      · rw [if_neg hzero] at hres
        have hzero2 : (vm_page_cpu_pool_fill_loop s.cpu_pool s.seg
            s.cpu_pool.transfer_size).1 ≠ 0 := hzero
        have hlen : (vm_page_cpu_pool_fill s.cpu_pool s.seg).2.1.pages.length ≠ 0 := by
          show (vm_page_cpu_pool_fill_loop s.cpu_pool s.seg
            s.cpu_pool.transfer_size).2.1.pages.length ≠ 0
          omega
        cases hpg : (vm_page_cpu_pool_fill s.cpu_pool s.seg).2.1.pages with
        | nil =>
          rw [hpg] at hlen
          simp at hlen
        | cons hh tt =>
          rw [vm_page_cpu_pool_pop, hpg] at hres
          simp only [] at hres
          have hpair := Option.some.inj hres
          have hs' : s' = ⟨vm_page_set_type (vm_page_cpu_pool_fill s.cpu_pool s.seg).2.2 hh 0 ty,
              ⟨(vm_page_cpu_pool_fill s.cpu_pool s.seg).2.1.size,
               (vm_page_cpu_pool_fill s.cpu_pool s.seg).2.1.transfer_size,
               (vm_page_cpu_pool_fill s.cpu_pool s.seg).2.1.nr_pages - 1, tt⟩⟩ :=
            ((Prod.mk.injEq _ _ _ _).mp hpair).2.symm
          rw [hs']
          obtain ⟨w1, w2, w3, w4⟩ := j2
          have hpg2 : (vm_page_cpu_pool_fill_loop s.cpu_pool s.seg
              s.cpu_pool.transfer_size).2.1.pages = hh :: tt := hpg
          refine ⟨set_type_SegInv _ _ _ j1, ?_, w2, ?_, ?_⟩
          · show (vm_page_cpu_pool_fill_loop s.cpu_pool s.seg
              s.cpu_pool.transfer_size).2.1.nr_pages - 1 = tt.length
            rw [w1, hpg2, List.length_cons]
            omega
          · rw [hpg2] at w3
            exact (List.nodup_cons.mp w3).2
          · intro p hp
            have hpmem : p ∈ (vm_page_cpu_pool_fill_loop s.cpu_pool s.seg
                s.cpu_pool.transfer_size).2.1.pages := by
              rw [hpg2]
              exact List.mem_cons_of_mem hh hp
            obtain ⟨q1, q2, q3⟩ := w4 p hpmem
            exact ⟨q1, by rw [set_type_order]; exact q2, q3⟩
    · rw [if_neg hvide] at hres
      obtain ⟨hpn, hpt, hpd, hpp⟩ := hP
      cases hpg : s.cpu_pool.pages with
      | nil =>
        rw [hpg] at hpn
        rw [List.length_nil] at hpn
        exact absurd hpn hvide
      | cons hh tt =>
        rw [vm_page_cpu_pool_pop, hpg] at hres
        simp only [] at hres
        have hpair := Option.some.inj hres
        have hs' : s' = ⟨vm_page_set_type s.seg hh 0 ty,
            ⟨s.cpu_pool.size, s.cpu_pool.transfer_size, s.cpu_pool.nr_pages - 1, tt⟩⟩ :=
          ((Prod.mk.injEq _ _ _ _).mp hpair).2.symm
        rw [hs']
        refine ⟨set_type_SegInv _ _ _ hS, ?_, hpt, ?_, ?_⟩
        · show s.cpu_pool.nr_pages - 1 = tt.length
          rw [hpn, hpg, List.length_cons]
          omega
        · rw [hpg] at hpd
          exact (List.nodup_cons.mp hpd).2
        · intro p hp
          have hpmem : p ∈ s.cpu_pool.pages := by
            rw [hpg]
            exact List.mem_cons_of_mem hh hp
          obtain ⟨q1, q2, q3⟩ := hpp p hpmem
          exact ⟨q1, by rw [set_type_order]; exact q2, q3⟩
  · rw [vm_page_seg_alloc, if_neg h0] at hres
    cases halloc : vm_page_seg_alloc_from_buddy s.seg ord with
    | none =>
      rw [halloc] at hres
      exact Option.noConfusion hres
    | some r =>
      obtain ⟨idx1, seg1⟩ := r
      rw [halloc] at hres
      simp only [] at hres
      have hpair := Option.some.inj hres
      have hs' : s' = ⟨vm_page_set_type seg1 idx1 ord ty, s.cpu_pool⟩ :=
        ((Prod.mk.injEq _ _ _ _).mp hpair).2.symm
      rw [hs']
      obtain ⟨-, hsome⟩ := alloc_from_buddy_core hS hord
      obtain ⟨i0, tl, -, -, -, -, hI1, -, -, -, -, -, -, -, -, -, -, -, -⟩ :=
        hsome idx1 seg1 halloc
      exact ⟨set_type_SegInv _ _ _ hI1,
        set_type_PoolInv _ _ _ (pool_survives_alloc hS hP hord halloc)⟩

theorem set_type_CanFree {seg : VmPageSeg} {idx ord : Nat} (a b : Nat) (ty : PType)
    (h : CanFree seg idx ord) : CanFree (vm_page_set_type seg a b ty) idx ord := by
  obtain ⟨h1, h2, h3, h4, h5⟩ := h
  refine ⟨h1, h2, ?_, h4, h5⟩
  intro j hj
  rw [set_type_order]
  exact h3 j hj

/-- vm_page_seg_free preserves the invariants, given the free
precondition and that the freed block holds no cached page. -/
theorem seg_free_inv {s : VmSegCpu} {idx ord : Nat}
    (hI : SegCpuInv s) (hCF : CanFree s.seg idx ord)
    (hpool : ∀ p ∈ s.cpu_pool.pages, ¬(idx ≤ p ∧ p < idx + 2 ^ ord)) :
    SegCpuInv (vm_page_seg_free s idx ord) := by
  obtain ⟨hS, hP⟩ := hI
  have hS0 : SegInv (vm_page_set_type s.seg idx ord PType.FREE) :=
    set_type_SegInv _ _ _ hS
  have hP0 : PoolInv (vm_page_set_type s.seg idx ord PType.FREE) s.cpu_pool :=
    set_type_PoolInv _ _ _ hP
  have hCF0 : CanFree (vm_page_set_type s.seg idx ord PType.FREE) idx ord :=
    set_type_CanFree _ _ _ hCF
  set seg0 := vm_page_set_type s.seg idx ord PType.FREE with hseg0
  have hcnt0 : segPagesCount seg0 = segPagesCount s.seg := rfl
  by_cases h0 : ord = 0
  · subst h0
    rw [vm_page_seg_free, if_pos rfl]
    have h20 : (2 : Nat) ^ 0 = 1 := by norm_num
    have hidxnot : idx ∉ s.cpu_pool.pages := by
      intro hc
      exact hpool idx hc ⟨le_refl idx, by omega⟩
    by_cases hfull : s.cpu_pool.nr_pages = s.cpu_pool.size
    · rw [if_pos hfull]
      obtain ⟨hpn, hpt, hpd, hpp⟩ := id hP0
      have hlen : s.cpu_pool.transfer_size ≤ s.cpu_pool.pages.length := by omega
      obtain ⟨j1, j2, j3, j4, j5, j6, j7, j8, j9, jsub, j10⟩ :=
        drain_loop_spec s.cpu_pool.transfer_size s.cpu_pool seg0 hS0 hP0 hlen
      set r := vm_page_cpu_pool_drain_loop s.cpu_pool seg0 s.cpu_pool.transfer_size
        with hr
      show SegCpuInv ⟨r.2, vm_page_cpu_pool_push r.1 idx⟩
      have hidxout : ∀ i, i < K → ∀ h ∈ (seg0.free_lists i).blocks,
          ¬(h ≤ idx ∧ idx < h + 2 ^ i) := by
        obtain ⟨-, -, -, -, hd⟩ := hCF0
        intro i hi h hm
        have := hd i hi h hm
        omega
      have hidxlt : idx < segPagesCount seg0 := by
        obtain ⟨-, hc2, -, -, -⟩ := hCF0
        omega
      obtain ⟨jj1, jj2⟩ := j10 idx hidxnot hidxout hidxlt
      obtain ⟨w1, w2, w3, w4⟩ := j2
      refine ⟨j1, ?_, w2, ?_, ?_⟩
      · show r.1.nr_pages + 1 = (idx :: r.1.pages).length
        rw [List.length_cons, w1]
      · refine List.Nodup.cons ?_ w3
        intro hc
        exact hidxnot (jsub idx hc)
      · intro p hp
        rcases List.mem_cons.mp hp with he | hp2
        · subst p
          refine ⟨by show idx < vm_page_atop (r.2.endAddr - r.2.start); rw [j8, j9]; exact hidxlt, ?_, jj2⟩
          rw [jj1]
          obtain ⟨-, -, hc3, -, -⟩ := hCF0
          have := hc3 0 (by omega)
          rw [Nat.add_zero] at this
          exact this
        · exact w4 p hp2
    · rw [if_neg hfull]
      obtain ⟨hpn, hpt, hpd, hpp⟩ := hP0
      have hidxlt : idx < segPagesCount seg0 := by
        obtain ⟨-, hc2, -, -, -⟩ := hCF0
        omega
      refine ⟨hS0, ?_, hpt, List.Nodup.cons hidxnot hpd, ?_⟩
      · show s.cpu_pool.nr_pages + 1 = (idx :: s.cpu_pool.pages).length
        rw [List.length_cons, hpn]
      · intro p hp
        rcases List.mem_cons.mp hp with he | hp2
        · subst he
          obtain ⟨-, -, hc3, -, hc5⟩ := hCF0
          refine ⟨hidxlt, ?_, ?_⟩
          · have := hc3 0 (by omega)
            rw [Nat.add_zero] at this
            exact this
          · intro i hi h hm
            have := hc5 i hi h hm
            omega
        · exact hpp p hp2
  · rw [vm_page_seg_free, if_neg h0]
    obtain ⟨idx2, ord2, fI, fNr, fOrdLo, fOrdHi, fLo, fHi, fRange, fOrd, fStart, fEnd,
      fPhys, fOut, fHead, fSub, fTile⟩ := free_to_buddy_core hS0 hCF0
    refine ⟨fI, ?_⟩
    obtain ⟨hpn, hpt, hpd, hpp⟩ := hP0
    refine ⟨hpn, hpt, hpd, ?_⟩
    intro p hp
    obtain ⟨q1, q2, q3⟩ := hpp p hp
    have hpor : ¬(idx2 ≤ p ∧ p < idx2 + 2 ^ ord2) := by
      intro hc
      rcases fTile p hc.1 hc.2 with ⟨hl, hr⟩ | ⟨i, hi, h, hh, hl, hr⟩
      · exact hpool p hp ⟨hl, hr⟩
      · exact q3 i hi h hh ⟨hl, hr⟩
    refine ⟨?_, ?_, ?_⟩
    · unfold segPagesCount at *
      rw [fStart, fEnd]
      exact q1
    · rw [fOut p (by omega)]
      exact q2
    · intro i hi h hm
      rcases fSub i hi h hm with ⟨hie, hhe⟩ | hold
      · subst hie hhe
        exact hpor
      · exact q3 i hi h hold

/-- The downward walk of vm_page_alloc_pa preserves the table
invariant; on success the winning segment index is at most the starting
index and within the table. -/
theorem alloc_pa_loop_inv {st : VmState} {ord : Nat} {ty : PType}
    (hord : ord < K) (hI : StateInv st) :
    ∀ n segIdx idx st', vm_page_alloc_pa_loop st ord ty n = some (segIdx, idx, st') →
      StateInv st' ∧ segIdx ≤ n ∧ segIdx < st.segs_size ∧
        st'.segs_size = st.segs_size := by
  intro n
  induction n with
  | zero =>
    intro segIdx idx st' hres
    simp only [vm_page_alloc_pa_loop] at hres
    by_cases hpos : 0 < st.segs_size
    · rw [if_pos hpos] at hres
      cases har : vm_page_seg_alloc (st.segs 0) ord ty with
      | none => rw [har] at hres; exact absurd hres (by simp)
      | some p =>
        obtain ⟨idx1, s1⟩ := p
        rw [har, Option.some.injEq, Prod.mk.injEq, Prod.mk.injEq] at hres
        obtain ⟨h1, h2, h3⟩ := hres
        subst h1
        refine ⟨?_, le_refl 0, hpos, by rw [← h3]⟩
        intro k hk
        rw [← h3] at hk ⊢
        by_cases hk0 : k = 0
        · subst hk0
          show SegCpuInv (Function.update st.segs 0 s1 0)
          rw [Function.update_same]
          exact seg_alloc_inv (hI 0 hpos) hord idx1 s1 har
        · show SegCpuInv (Function.update st.segs 0 s1 k)
          rw [Function.update_noteq hk0]
          exact hI k hk
    · rw [if_neg hpos] at hres
      exact absurd hres (by simp)
  | succ i ih =>
    intro segIdx idx st' hres
    simp only [vm_page_alloc_pa_loop] at hres
    by_cases hpos : i + 1 < st.segs_size
    · rw [if_pos hpos] at hres
      cases har : vm_page_seg_alloc (st.segs (i + 1)) ord ty with
      | none =>
        rw [har] at hres
        obtain ⟨q1, q2, q3, q4⟩ := ih segIdx idx st' hres
        exact ⟨q1, Nat.le_succ_of_le q2, q3, q4⟩
      | some p =>
        obtain ⟨idx1, s1⟩ := p
        rw [har, Option.some.injEq, Prod.mk.injEq, Prod.mk.injEq] at hres
        obtain ⟨h1, h2, h3⟩ := hres
        subst h1
        refine ⟨?_, le_refl _, hpos, by rw [← h3]⟩
        intro k hk
        rw [← h3] at hk ⊢
        by_cases hki : k = i + 1
        · subst hki
          show SegCpuInv (Function.update st.segs (i + 1) s1 (i + 1))
          rw [Function.update_same]
          exact seg_alloc_inv (hI _ hpos) hord idx1 s1 har
        · show SegCpuInv (Function.update st.segs (i + 1) s1 k)
          rw [Function.update_noteq hki]
          exact hI k hk
    · rw [if_neg hpos] at hres
      exact absurd hres (by simp)

/-- vm_page_alloc_pa preserves the table invariant on every successful
allocation. -/
theorem alloc_pa_inv {st : VmState} {ord : Nat} {sel : VmSel} {ty : PType}
    (hord : ord < K) (hI : StateInv st) :
    ∀ segIdx idx st', vm_page_alloc_pa st ord sel ty = .ok (some (segIdx, idx, st')) →
      StateInv st' ∧ segIdx < st.segs_size ∧ st'.segs_size = st.segs_size := by
  intro segIdx idx st' hres
  rw [vm_page_alloc_pa] at hres
  cases hl : vm_page_alloc_pa_loop st ord ty (vm_page_select_alloc_seg st sel) with
  | some r =>
    rw [hl] at hres
    have hreq : r = (segIdx, idx, st') := by simpa using hres
    rw [hreq] at hl
    obtain ⟨q1, q2, q3, q4⟩ := alloc_pa_loop_inv hord hI _ segIdx idx st' hl
    exact ⟨q1, q3, q4⟩
  | none =>
    rw [hl] at hres
    by_cases hty : ty = PType.PMAP
    · rw [if_pos hty] at hres
      exact absurd hres (by simp)
    · rw [if_neg hty] at hres
      exact absurd hres (by simp)

/-- vm_page_free_pa preserves the table invariant. -/
theorem free_pa_inv {st : VmState} {segIdx pageIdx ord : Nat}
    (hI : StateInv st) (hseg : segIdx < st.segs_size)
    (hCF : CanFree (st.segs segIdx).seg pageIdx ord)
    (hpool : ∀ p ∈ (st.segs segIdx).cpu_pool.pages,
      ¬(pageIdx ≤ p ∧ p < pageIdx + 2 ^ ord)) :
    StateInv (vm_page_free_pa st segIdx pageIdx ord) := by
  intro k hk
  rw [vm_page_free_pa] at hk ⊢
  by_cases hks : k = segIdx
  · subst hks
    show SegCpuInv (Function.update st.segs k (vm_page_seg_free (st.segs k) pageIdx ord) k)
    rw [Function.update_same]
    exact seg_free_inv (hI k hk) hCF hpool
  · show SegCpuInv (Function.update st.segs segIdx (vm_page_seg_free (st.segs segIdx) pageIdx ord) k)
    rw [Function.update_noteq hks]
    exact hI k hk

/-- vm_page_seg_init establishes the invariants: empty free lists, no
free pages, a fresh pool. -/
theorem seg_init_inv (startAddr endAddr segIndex : Nat)
    (h1 : PAGE_SIZE ∣ startAddr) (h2 : PAGE_SIZE ∣ endAddr) (h3 : startAddr ≤ endAddr) :
    SegCpuInv (vm_page_seg_init startAddr endAddr segIndex) := by
  have hpool1 : 1 ≤ vm_page_seg_compute_pool_size startAddr endAddr := by
    show 1 ≤ if vm_page_atop (endAddr - startAddr) / 1024 = 0 then 1
      else if vm_page_atop (endAddr - startAddr) / 1024 > 128 then 128
      else vm_page_atop (endAddr - startAddr) / 1024
    split_ifs <;> omega
  constructor
  · refine ⟨⟨h1, h3, h2, fun idx _ => rfl⟩,
      ⟨fun i _ => rfl, fun i _ => List.nodup_nil, fun idx _ => by show (0 : Nat) < K; norm_num [K],
        fun idx _ i _ => ?_⟩, fun i _ idx hidx => absurd hidx (List.not_mem_nil idx), ?_⟩
    · constructor
      · intro hmem
        exact absurd hmem (List.not_mem_nil idx)
      · intro hord
        exact Option.noConfusion hord
    · show 0 = freeSum (vm_page_seg_init startAddr endAddr segIndex).seg
      unfold freeSum
      rw [Finset.sum_eq_zero]
      intro i _
      show 0 * 2 ^ i = 0
      exact Nat.zero_mul _
  · refine ⟨rfl, ?_, List.nodup_nil, fun p hp => absurd hp (List.not_mem_nil p)⟩
    show (vm_page_seg_compute_pool_size startAddr endAddr + 2 - 1) / 2 ≤
      vm_page_seg_compute_pool_size startAddr endAddr
    omega

/-- The downward walk of vm_page_alloc_pa_loop: it returns NULL exactly
when every segment from the start index down fails, and a success comes
from the highest segment index that succeeds, every higher tried index
having failed. -/
theorem alloc_pa_loop_walk {st : VmState} {ord : Nat} {ty : PType} :
    ∀ n, n < st.segs_size →
      (vm_page_alloc_pa_loop st ord ty n = none ↔
        ∀ k, k ≤ n → vm_page_seg_alloc (st.segs k) ord ty = none) ∧
      (∀ sIdx idx st', vm_page_alloc_pa_loop st ord ty n = some (sIdx, idx, st') →
        sIdx ≤ n ∧
        (∀ k, sIdx < k → k ≤ n → vm_page_seg_alloc (st.segs k) ord ty = none) ∧
        ∃ s1, vm_page_seg_alloc (st.segs sIdx) ord ty = some (idx, s1) ∧
          st' = { st with segs := Function.update st.segs sIdx s1 }) := by
  intro n
  induction n with
  | zero =>
    intro hn
    simp only [vm_page_alloc_pa_loop]
    rw [if_pos hn]
    cases har : vm_page_seg_alloc (st.segs 0) ord ty with
    | none =>
      constructor
      · constructor
        · intro _ k hk
          have : k = 0 := Nat.le_zero.mp hk
          rw [this]
          exact har
        · intro _
          rfl
      · intro sIdx idx st' hres
        exact absurd hres (by simp)
    | some p =>
      obtain ⟨idx1, s1⟩ := p
      constructor
      · constructor
        · intro hc
          exact absurd hc (by simp)
        · intro hall
          rw [hall 0 (le_refl 0)] at har
          exact Option.noConfusion har
      · intro sIdx idx st' hres
        rw [Option.some.injEq, Prod.mk.injEq, Prod.mk.injEq] at hres
        obtain ⟨e1, e2, e3⟩ := hres
        subst e1
        refine ⟨le_refl 0, fun k hk1 hk2 => absurd (Nat.lt_of_lt_of_le hk1 hk2)
          (lt_irrefl 0), s1, ?_, e3.symm⟩
        rw [← e2]
        exact har
  | succ i ih =>
    intro hn
    have hi : i < st.segs_size := by omega
    obtain ⟨ihn, ihs⟩ := ih hi
    simp only [vm_page_alloc_pa_loop]
    rw [if_pos hn]
    cases har : vm_page_seg_alloc (st.segs (i + 1)) ord ty with
    | none =>
      constructor
      · constructor
        · intro hnone k hk
          rcases Nat.lt_or_ge k (i + 1) with hlt | hge
          · exact ihn.mp hnone k (by omega)
          · have : k = i + 1 := by omega
            rw [this]
            exact har
        · intro hall
          exact ihn.mpr (fun k hk => hall k (by omega))
      · intro sIdx idx st' hres
        obtain ⟨q1, q2, q3⟩ := ihs sIdx idx st' hres
        refine ⟨by omega, ?_, q3⟩
        intro k hk1 hk2
        rcases Nat.lt_or_ge k (i + 1) with hlt | hge
        · exact q2 k hk1 (by omega)
        · have : k = i + 1 := by omega
          rw [this]
          exact har
    | some p =>
      obtain ⟨idx1, s1⟩ := p
      constructor
      · constructor
        · intro hc
          exact absurd hc (by simp)
        · intro hall
          rw [hall (i + 1) (le_refl _)] at har
          exact Option.noConfusion har
      · intro sIdx idx st' hres
        rw [Option.some.injEq, Prod.mk.injEq, Prod.mk.injEq] at hres
        obtain ⟨e1, e2, e3⟩ := hres
        subst e1
        refine ⟨le_refl _, fun k hk1 hk2 => absurd (Nat.lt_of_lt_of_le hk1 hk2)
          (lt_irrefl _), s1, ?_, e3.symm⟩
        rw [← e2]
        exact har

/-! # Claim theorems -/

/-- C1: freeing an unlisted block of order ord < K into the buddy system
(vm_page_seg_free_to_buddy) coalesces it iteratively with its free
buddies: the result is a block of some order ord2 with ord ≤ ord2 < K
containing the freed block, lying inside the segment, whose pages were
all either just freed or already on a free list; that block is inserted
at the head of F[ord2] with its head descriptor's order set to ord2,
every listed block is either that new block or a previously listed one,
pages outside the merged block keep their order fields, the buddy
invariants are preserved, and nr_free_pages grows by exactly
2^ord (the original order). -/
theorem C1_free_to_buddy_coalesce {seg : VmPageSeg} {idx ord : Nat}
    (hI : SegInv seg) (hCF : CanFree seg idx ord) :
    ∃ idx2 ord2,
      SegInv (vm_page_seg_free_to_buddy seg idx ord) ∧
      (vm_page_seg_free_to_buddy seg idx ord).nr_free_pages =
        seg.nr_free_pages + 2 ^ ord ∧
      ord ≤ ord2 ∧ ord2 < K ∧ idx2 ≤ idx ∧ idx < idx2 + 2 ^ ord2 ∧
      idx2 + 2 ^ ord2 ≤ segPagesCount seg ∧
      ((vm_page_seg_free_to_buddy seg idx ord).pages idx2).order = some ord2 ∧
      (vm_page_seg_free_to_buddy seg idx ord).start = seg.start ∧
      (vm_page_seg_free_to_buddy seg idx ord).endAddr = seg.endAddr ∧
      (∀ m, ((vm_page_seg_free_to_buddy seg idx ord).pages m).phys_addr =
        (seg.pages m).phys_addr) ∧
      (∀ m, m < idx2 ∨ idx2 + 2 ^ ord2 ≤ m →
        ((vm_page_seg_free_to_buddy seg idx ord).pages m).order = (seg.pages m).order) ∧
      (∃ tl, ((vm_page_seg_free_to_buddy seg idx ord).free_lists ord2).blocks = idx2 :: tl) ∧
      (∀ i2, i2 < K → ∀ h ∈ ((vm_page_seg_free_to_buddy seg idx ord).free_lists i2).blocks,
        (i2 = ord2 ∧ h = idx2) ∨ h ∈ (seg.free_lists i2).blocks) ∧
      (∀ m2, idx2 ≤ m2 → m2 < idx2 + 2 ^ ord2 →
        (idx ≤ m2 ∧ m2 < idx + 2 ^ ord) ∨ InBlocks seg m2) :=
  free_to_buddy_core hI hCF

theorem C1_free_to_buddy_coalesce_witness :
    SegInv seg16W ∧ CanFree seg16W 0 4 ∧
      SegInv (vm_page_seg_free_to_buddy seg16W 0 4) ∧
      (vm_page_seg_free_to_buddy seg16W 0 4).nr_free_pages =
        seg16W.nr_free_pages + 2 ^ 4 := by
  obtain ⟨idx2, ord2, q1, q2, -⟩ :=
    @C1_free_to_buddy_coalesce seg16W 0 4 (by decide) (by decide)
  exact ⟨by decide, by decide, q1, q2⟩

/-- C2: a buddy allocation of order ord < K (vm_page_seg_alloc_from_buddy)
returns NULL exactly when every free list F[i] with ord ≤ i < K is empty;
otherwise it removes the head block of the smallest non-empty F[i0] with
i0 ≥ ord, splits it by pushing the upper half p + 2^k onto F[k] (with
that head's order set to k) for every k from i0 - 1 down to ord, returns
the block head with its order UNLISTED and the whole block free-able at
order ord, leaves the other lists and outside pages untouched, preserves
the buddy invariants, and decreases nr_free_pages by exactly 2^ord. -/
theorem C2_alloc_from_buddy {seg : VmPageSeg} {ord : Nat}
    (hI : SegInv seg) (hord : ord < K) :
    (vm_page_seg_alloc_from_buddy seg ord = none ↔
      ∀ i, ord ≤ i → i < K → (seg.free_lists i).size = 0) ∧
    (∀ idx seg', vm_page_seg_alloc_from_buddy seg ord = some (idx, seg') →
      ∃ i0 tl,
        ord ≤ i0 ∧ i0 < K ∧
        (∀ j, ord ≤ j → j < i0 → (seg.free_lists j).size = 0) ∧
        (seg.free_lists i0).blocks = idx :: tl ∧
        SegInv seg' ∧
        seg'.nr_free_pages + 2 ^ ord = seg.nr_free_pages ∧
        CanFree seg' idx ord ∧
        (seg'.pages idx).order = none ∧
        idx + 2 ^ i0 ≤ segPagesCount seg ∧
        seg'.start = seg.start ∧ seg'.endAddr = seg.endAddr ∧
        (∀ m, (seg'.pages m).phys_addr = (seg.pages m).phys_addr) ∧
        (∀ k, ord ≤ k → k < i0 →
          (seg'.free_lists k).blocks = (idx + 2 ^ k) :: (seg.free_lists k).blocks ∧
          (seg'.pages (idx + 2 ^ k)).order = some k) ∧
        ((seg'.free_lists i0).blocks = tl) ∧
        (∀ k, k < K → (k < ord ∨ i0 < k) → seg'.free_lists k = seg.free_lists k) ∧
        (∀ i2, i2 < K → ∀ h ∈ (seg'.free_lists i2).blocks,
          h ∈ (seg.free_lists i2).blocks ∨ (idx ≤ h ∧ h + 2 ^ i2 ≤ idx + 2 ^ i0)) ∧
        (∀ m, m < idx ∨ idx + 2 ^ i0 ≤ m →
          (seg'.pages m).order = (seg.pages m).order)) :=
  alloc_from_buddy_core hI hord

theorem C2_alloc_from_buddy_witness :
    (SegInv seg16W ∧ 2 < K ∧ vm_page_seg_alloc_from_buddy seg16W 2 = none) ∧
    (SegInv seg32W ∧ vm_page_seg_alloc_from_buddy seg32W 2 ≠ none) := by
  have h16 := @C2_alloc_from_buddy seg16W 2 (by decide) (by decide)
  have h32 := @C2_alloc_from_buddy seg32W 2 (by decide) (by decide)
  refine ⟨⟨by decide, by decide, h16.1.mpr (by decide)⟩, by decide, ?_⟩
  intro hn
  have hz := h32.1.mp hn 4 (by decide) (by decide)
  revert hz
  decide

/-- C3: the accounting equality nr_free_pages = Σ_i size(F[i]) · 2^i
holds after vm_page_seg_init and is preserved by buddy frees, buddy
allocations, and by the public vm_page_alloc_pa / vm_page_free_pa
operations (for every segment of the table); pages sitting in the CPU
pools are counted in neither side. -/
theorem C3_accounting_invariant
    (startAddr endAddr segIndex : Nat)
    (ha1 : PAGE_SIZE ∣ startAddr) (ha2 : PAGE_SIZE ∣ endAddr) (ha3 : startAddr ≤ endAddr)
    {seg : VmPageSeg} {ord : Nat} {idx : Nat}
    (hS : SegInv seg) (hord : ord < K) (hCF : CanFree seg idx ord)
    {st : VmState} (hI : StateInv st) (sel : VmSel) (ty : PType)
    {segIdx pageIdx : Nat} (hseg : segIdx < st.segs_size)
    (hCF2 : CanFree (st.segs segIdx).seg pageIdx ord)
    (hpool : ∀ p ∈ (st.segs segIdx).cpu_pool.pages,
      ¬(pageIdx ≤ p ∧ p < pageIdx + 2 ^ ord)) :
    ((vm_page_seg_init startAddr endAddr segIndex).seg.nr_free_pages =
      freeSum (vm_page_seg_init startAddr endAddr segIndex).seg) ∧
    ((vm_page_seg_free_to_buddy seg idx ord).nr_free_pages =
      freeSum (vm_page_seg_free_to_buddy seg idx ord)) ∧
    (∀ idx2 seg', vm_page_seg_alloc_from_buddy seg ord = some (idx2, seg') →
      seg'.nr_free_pages = freeSum seg') ∧
    (∀ sIdx idx2 st', vm_page_alloc_pa st ord sel ty = .ok (some (sIdx, idx2, st')) →
      ∀ k, k < st'.segs_size →
        (st'.segs k).seg.nr_free_pages = freeSum (st'.segs k).seg) ∧
    (∀ k, k < (vm_page_free_pa st segIdx pageIdx ord).segs_size →
      ((vm_page_free_pa st segIdx pageIdx ord).segs k).seg.nr_free_pages =
        freeSum ((vm_page_free_pa st segIdx pageIdx ord).segs k).seg) := by
  refine ⟨?_, ?_, ?_, ?_, ?_⟩
  · exact ((seg_init_inv startAddr endAddr segIndex ha1 ha2 ha3).1).2.2.2
  · obtain ⟨-, -, hSeg', -⟩ := free_to_buddy_core hS hCF
    exact hSeg'.2.2.2
  · intro idx2 seg' hres
    obtain ⟨i0, tl, -, -, -, -, hSI, -⟩ := (alloc_from_buddy_core hS hord).2 idx2 seg' hres
    exact hSI.2.2.2
  · intro sIdx idx2 st' hres
    obtain ⟨hI', -, -⟩ := alloc_pa_inv hord hI sIdx idx2 st' hres
    intro k hk
    exact ((hI' k hk).1).2.2.2
  · intro k hk
    exact (((free_pa_inv hI hseg hCF2 hpool) k hk).1).2.2.2

theorem C3_accounting_invariant_witness :
    (PAGE_SIZE ∣ 0 ∧ PAGE_SIZE ∣ 65536 ∧ (0 : Nat) ≤ 65536 ∧
      SegInv seg32W ∧ 4 < K ∧ CanFree seg32W 16 4 ∧ StateInv st1W ∧
      0 < st1W.segs_size ∧ CanFree (st1W.segs 0).seg 16 4) ∧
    ((vm_page_seg_init 0 65536 0).seg.nr_free_pages =
      freeSum (vm_page_seg_init 0 65536 0).seg) ∧
    ((vm_page_seg_free_to_buddy seg32W 16 4).nr_free_pages =
      freeSum (vm_page_seg_free_to_buddy seg32W 16 4)) ∧
    (∀ k, k < (vm_page_free_pa st1W 0 16 4).segs_size →
      ((vm_page_free_pa st1W 0 16 4).segs k).seg.nr_free_pages =
        freeSum ((vm_page_free_pa st1W 0 16 4).segs k).seg) := by
  obtain ⟨w1, w2, -, -, w5⟩ :=
    @C3_accounting_invariant 0 65536 0 (by decide) (by decide) (by decide)
      seg32W 4 16 (by decide) (by decide) (by decide)
      st1W (by decide) VmSel.DMA PType.KERNEL 0 16 (by decide) (by decide)
      (by decide)
  exact ⟨⟨by decide, by decide, by decide, by decide, by decide, by decide,
    by decide, by decide, by decide⟩, w1, w2, w5⟩

/-- C4: REFUTED. The claimed canonical form after biosmem_map_adjust —
sorted, pairwise non-overlapping, positive lengths — fails: because the
inner loop keeps using the a_end value computed before entry i was
rewritten (stale end), the three-entry map [(4,20),(8,5),(0,5)] (all
AVAILABLE, 3 ≤ 128 entries) adjusts to [(0,4),(4,20),(13,11)], whose
second and third entries overlap on [13,24). -/
theorem C4_adjust_canonical_form_violated :
    mapC4.length ≤ 128 ∧
    biosmem_map_adjust mapC4 = .ok [⟨0, 4, 1⟩, ⟨4, 20, 1⟩, ⟨13, 11, 1⟩] ∧
    ∃ out, biosmem_map_adjust mapC4 = .ok out ∧
      ∃ p q, p < q ∧ q < out.length ∧
        (out.getD p entryDefault).base_addr <
          add64 (out.getD q entryDefault).base_addr (out.getD q entryDefault).length ∧
        (out.getD q entryDefault).base_addr <
          add64 (out.getD p entryDefault).base_addr (out.getD p entryDefault).length := by
  refine ⟨by decide, by decide, [⟨0, 4, 1⟩, ⟨4, 20, 1⟩, ⟨13, 11, 1⟩], by decide,
    1, 2, by decide, by decide, by decide, by decide⟩

/-- The overlap entry built by the pair rewrite takes the higher type. -/
theorem adjust_pair_tmp_type (a b : BiosmemMapEntry) (a_end : Nat) :
    (biosmem_map_adjust_pair a b a_end).tmp.type = max a.type b.type := by
  simp only [biosmem_map_adjust_pair]
  split_ifs <;> rfl

/-- The overlap entry starts at the higher base address. -/
theorem adjust_pair_tmp_base (a b : BiosmemMapEntry) (a_end : Nat) :
    (biosmem_map_adjust_pair a b a_end).tmp.base_addr =
      max a.base_addr b.base_addr := by
  simp only [biosmem_map_adjust_pair]
  split_ifs <;>
    first
      | (have hle : a.base_addr ≤ b.base_addr := by omega
         exact (Nat.max_eq_right hle).symm)
      | (have hle : b.base_addr ≤ a.base_addr := by omega
         exact (Nat.max_eq_left hle).symm)

/-- The type left in slot a: a's own when a holds the prefix, otherwise
the type of the entry that extends further. -/
theorem adjust_pair_newA_type (a b : BiosmemMapEntry) (a_end : Nat) :
    (biosmem_map_adjust_pair a b a_end).newA.type =
      (if a.base_addr < b.base_addr then a.type
       else if a_end > add64 b.base_addr b.length then a.type else b.type) := by
  simp only [biosmem_map_adjust_pair, biosmem_merge_into]
  split_ifs <;> rfl

/-- The type left in slot b: b's own when b holds the prefix, otherwise
the type of the entry that extends further. -/
theorem adjust_pair_newB_type (a b : BiosmemMapEntry) (a_end : Nat) :
    (biosmem_map_adjust_pair a b a_end).newB.type =
      (if a.base_addr < b.base_addr then
        (if a_end > add64 b.base_addr b.length then a.type else b.type)
       else b.type) := by
  simp only [biosmem_map_adjust_pair, biosmem_merge_into]
  split_ifs <;> rfl

/-- Merging into slot a happens only when its type matches the
intersection type, and merging preserves it. -/
theorem adjust_pair_mergeA (a b : BiosmemMapEntry) (a_end : Nat) :
    (biosmem_map_adjust_pair a b a_end).kase = .mergeA →
      (biosmem_map_adjust_pair a b a_end).newA.type =
        (biosmem_map_adjust_pair a b a_end).tmp.type := by
  simp only [biosmem_map_adjust_pair, biosmem_merge_into]
  split_ifs <;> intro h <;>
    first
      | exact absurd h (by decide)
      | rfl
      | (dsimp only at * <;> omega)
      | omega

/-- Merging into slot b happens only when its type matches the
intersection type, and merging preserves it. -/
theorem adjust_pair_mergeB (a b : BiosmemMapEntry) (a_end : Nat) :
    (biosmem_map_adjust_pair a b a_end).kase = .mergeB →
      (biosmem_map_adjust_pair a b a_end).newB.type =
        (biosmem_map_adjust_pair a b a_end).tmp.type := by
  simp only [biosmem_map_adjust_pair, biosmem_merge_into]
  split_ifs <;> intro h <;>
    first
      | exact absurd h (by decide)
      | rfl
      | (dsimp only at * <;> omega)
      | omega

/-- The append continuation is taken only when neither neighbor's type
matches the intersection's. -/
theorem adjust_pair_append (a b : BiosmemMapEntry) (a_end : Nat) :
    (biosmem_map_adjust_pair a b a_end).kase = .append →
      (biosmem_map_adjust_pair a b a_end).newA.type ≠
        (biosmem_map_adjust_pair a b a_end).tmp.type ∧
      (biosmem_map_adjust_pair a b a_end).newB.type ≠
        (biosmem_map_adjust_pair a b a_end).tmp.type := by
  simp only [biosmem_map_adjust_pair, biosmem_merge_into]
  split_ifs <;> intro h <;>
    first
      | exact absurd h (by decide)
      | (refine ⟨?_, ?_⟩ <;> first
          | (dsimp only at * <;> omega)
          | omega)

/-- Appending on a full map panics. -/
theorem adjust_inner_capacity (i a_end : Nat) (m : List BiosmemMapEntry)
    (j fuel : Nat) (hj : j < m.length)
    (hguard : ¬(add64 (m.getD j entryDefault).base_addr
        (m.getD j entryDefault).length ≤ (m.getD i entryDefault).base_addr ∨
      a_end ≤ (m.getD j entryDefault).base_addr))
    (hkase : (biosmem_map_adjust_pair (m.getD i entryDefault)
      (m.getD j entryDefault) a_end).kase = .append)
    (hcap : BIOSMEM_MAP_CAPACITY ≤ m.length) :
    biosmem_map_adjust_inner i a_end m j (fuel + 1) = .panic := by
  simp only [biosmem_map_adjust_inner]
  rw [if_pos hj, if_neg hguard, hkase]
  show (if BIOSMEM_MAP_CAPACITY ≤ m.length then AdjRes.panic else _) = AdjRes.panic
  rw [if_pos hcap]

/-- C5: CORRECTED. For every pair of entries resolved by the overlap
rewrite: the intersection entry receives the numerically higher of the
two types and starts at the higher base address; the entry left in
slot a keeps type a.type when a owns the prefix (a.base < b.base) and
otherwise the type of whichever entry extends further (the suffix
owner), symmetrically for slot b; when the continuation merges the
intersection into a neighbor, that neighbor's type equals the
intersection's, and the append continuation is taken only when neither
neighbor's type matches; appending with the map at capacity (256
entries) panics.  The original claim's unconditional merge clause is
refuted: for the pair (0,5,type 1), (0,10,type 2) the rewritten entry
in slot b is degenerate (empty prefix), the code takes the
invalid-entry continuation instead of merging, and the adjusted map
keeps two adjacent same-type entries unmerged even though an
equal-type neighbor exists. -/
theorem C5_overlap_resolution :
    (∀ (a b : BiosmemMapEntry) (a_end : Nat),
      (biosmem_map_adjust_pair a b a_end).tmp.type = max a.type b.type ∧
      (biosmem_map_adjust_pair a b a_end).tmp.base_addr =
        max a.base_addr b.base_addr ∧
      (biosmem_map_adjust_pair a b a_end).newA.type =
        (if a.base_addr < b.base_addr then a.type
         else if a_end > add64 b.base_addr b.length then a.type else b.type) ∧
      (biosmem_map_adjust_pair a b a_end).newB.type =
        (if a.base_addr < b.base_addr then
          (if a_end > add64 b.base_addr b.length then a.type else b.type)
         else b.type) ∧
      ((biosmem_map_adjust_pair a b a_end).kase = .mergeA →
        (biosmem_map_adjust_pair a b a_end).newA.type =
          (biosmem_map_adjust_pair a b a_end).tmp.type) ∧
      ((biosmem_map_adjust_pair a b a_end).kase = .mergeB →
        (biosmem_map_adjust_pair a b a_end).newB.type =
          (biosmem_map_adjust_pair a b a_end).tmp.type) ∧
      ((biosmem_map_adjust_pair a b a_end).kase = .append →
        (biosmem_map_adjust_pair a b a_end).newA.type ≠
          (biosmem_map_adjust_pair a b a_end).tmp.type ∧
        (biosmem_map_adjust_pair a b a_end).newB.type ≠
          (biosmem_map_adjust_pair a b a_end).tmp.type)) ∧
    (∀ i a_end m j fuel,
      j < m.length →
      ¬(add64 (m.getD j entryDefault).base_addr (m.getD j entryDefault).length ≤
          (m.getD i entryDefault).base_addr ∨
        a_end ≤ (m.getD j entryDefault).base_addr) →
      (biosmem_map_adjust_pair (m.getD i entryDefault) (m.getD j entryDefault)
        a_end).kase = .append →
      BIOSMEM_MAP_CAPACITY ≤ m.length →
      biosmem_map_adjust_inner i a_end m j (fuel + 1) = .panic) ∧
    (entA5.base_addr < add64 entB5.base_addr entB5.length ∧
     entB5.base_addr < add64 entA5.base_addr entA5.length ∧
     (biosmem_map_adjust_pair entA5 entB5 (add64 entA5.base_addr entA5.length)).kase =
       .bInvalid ∧
     (biosmem_map_adjust_pair entA5 entB5 (add64 entA5.base_addr entA5.length)).tmp.type =
       (biosmem_map_adjust_pair entA5 entB5
         (add64 entA5.base_addr entA5.length)).newA.type ∧
     biosmem_map_adjust [entA5, entB5] = .ok [⟨0, 5, 2⟩, ⟨5, 5, 2⟩]) := by
  refine ⟨fun a b a_end =>
      ⟨adjust_pair_tmp_type a b a_end, adjust_pair_tmp_base a b a_end,
        adjust_pair_newA_type a b a_end, adjust_pair_newB_type a b a_end,
        adjust_pair_mergeA a b a_end, adjust_pair_mergeB a b a_end,
        adjust_pair_append a b a_end⟩,
    fun i a_end m j fuel hj hguard hkase hcap =>
      adjust_inner_capacity i a_end m j fuel hj hguard hkase hcap,
    by decide, by decide, by decide, by decide, by decide⟩

set_option maxRecDepth 4096 in
theorem C5_overlap_resolution_witness :
    (biosmem_map_adjust_pair entA5 entB5
      (add64 entA5.base_addr entA5.length)).tmp.type = 2 ∧
    1 < map5W.length ∧ BIOSMEM_MAP_CAPACITY ≤ map5W.length ∧
    (biosmem_map_adjust_pair (map5W.getD 0 entryDefault)
      (map5W.getD 1 entryDefault) 10).kase = .append ∧
    biosmem_map_adjust_inner 0 10 map5W 1 5 = .panic := by
  obtain ⟨hpair, hcap, -⟩ := C5_overlap_resolution
  have h1 := (hpair entA5 entB5 (add64 entA5.base_addr entA5.length)).1
  refine ⟨by rw [h1]; decide, by decide, by decide, by decide, ?_⟩
  exact hcap 0 10 map5W 1 4 (by decide) (by decide) (by decide) (by decide)

/-- C6: an order-0 allocation that finds the CPU pool empty refills it
from the buddy: the number transferred is at most transfer_size and is
zero exactly when transfer_size is zero or every buddy free list is
empty; the allocation returns NULL exactly when the refill obtained
zero pages, and otherwise it pops one page off the refilled pool and
returns it, leaving nr_pages = transferred - 1. -/
theorem C6_cache_refill {s : VmSegCpu} {ty : PType}
    (hI : SegCpuInv s) (hempty : s.cpu_pool.nr_pages = 0) :
    ((vm_page_cpu_pool_fill s.cpu_pool s.seg).1 = 0 ↔
      (s.cpu_pool.transfer_size = 0 ∨ ∀ i, i < K → (s.seg.free_lists i).size = 0)) ∧
    (vm_page_cpu_pool_fill s.cpu_pool s.seg).1 ≤ s.cpu_pool.transfer_size ∧
    (vm_page_seg_alloc s 0 ty = none ↔
      (vm_page_cpu_pool_fill s.cpu_pool s.seg).1 = 0) ∧
    (∀ idx s', vm_page_seg_alloc s 0 ty = some (idx, s') →
      s'.cpu_pool.nr_pages = (vm_page_cpu_pool_fill s.cpu_pool s.seg).1 - 1) := by
  obtain ⟨hS, hP⟩ := hI
  obtain ⟨f1, f2, f3, f4, f5, f6, f7, f8, f9, f10⟩ :=
    fill_loop_spec s.cpu_pool.transfer_size s.cpu_pool s.seg hS hP
  have hfill : vm_page_cpu_pool_fill s.cpu_pool s.seg =
      vm_page_cpu_pool_fill_loop s.cpu_pool s.seg s.cpu_pool.transfer_size := rfl
  have halloc : vm_page_seg_alloc s 0 ty =
      (if (vm_page_cpu_pool_fill s.cpu_pool s.seg).1 = 0 then none
       else
        match vm_page_cpu_pool_pop (vm_page_cpu_pool_fill s.cpu_pool s.seg).2.1 with
        | none => none
        | some (idx, pool2) =>
          some (idx,
            ⟨vm_page_set_type (vm_page_cpu_pool_fill s.cpu_pool s.seg).2.2 idx 0 ty,
              pool2⟩)) := by
    rw [vm_page_seg_alloc, if_pos rfl, if_pos hempty]
  have hlen0 : s.cpu_pool.pages.length = 0 := by
    obtain ⟨hp1, -, -, -⟩ := hP
    omega
  refine ⟨?_, by rw [hfill]; exact f3, ?_, ?_⟩
  · rw [hfill]
    exact f10
  · by_cases hz : (vm_page_cpu_pool_fill s.cpu_pool s.seg).1 = 0
    · rw [halloc, if_pos hz]
      exact ⟨fun _ => hz, fun _ => rfl⟩
    · rw [halloc, if_neg hz]
      have hlen : (vm_page_cpu_pool_fill s.cpu_pool s.seg).2.1.pages.length =
          (vm_page_cpu_pool_fill s.cpu_pool s.seg).1 := by
        rw [hfill] at *
        omega
      cases hpg : (vm_page_cpu_pool_fill s.cpu_pool s.seg).2.1.pages with
      | nil =>
        rw [hpg] at hlen
        exact absurd hlen.symm hz
      | cons hh tt =>
        rw [vm_page_cpu_pool_pop, hpg]
        exact ⟨fun hc => Option.noConfusion hc, fun hc => absurd hc hz⟩
  · intro idx s' hres
    by_cases hz : (vm_page_cpu_pool_fill s.cpu_pool s.seg).1 = 0
    · rw [halloc, if_pos hz] at hres
      exact Option.noConfusion hres
    · rw [halloc, if_neg hz] at hres
      have hlen : (vm_page_cpu_pool_fill s.cpu_pool s.seg).2.1.pages.length =
          (vm_page_cpu_pool_fill s.cpu_pool s.seg).1 := by
        rw [hfill] at *
        omega
      cases hpg : (vm_page_cpu_pool_fill s.cpu_pool s.seg).2.1.pages with
      | nil =>
        rw [hpg] at hlen
        exact absurd hlen.symm hz
      | cons hh tt =>
        rw [vm_page_cpu_pool_pop, hpg] at hres
        rw [Option.some.injEq, Prod.mk.injEq] at hres
        obtain ⟨-, hs'⟩ := hres
        rw [← hs']
        show (vm_page_cpu_pool_fill s.cpu_pool s.seg).2.1.nr_pages - 1 =
          (vm_page_cpu_pool_fill s.cpu_pool s.seg).1 - 1
        rw [hfill] at *
        omega

theorem C6_cache_refill_witness :
    SegCpuInv sc2W ∧ sc2W.cpu_pool.nr_pages = 0 ∧
    (vm_page_cpu_pool_fill sc2W.cpu_pool sc2W.seg).1 = 2 ∧
    (∀ idx s', vm_page_seg_alloc sc2W 0 PType.KERNEL = some (idx, s') →
      s'.cpu_pool.nr_pages = 1) := by
  obtain ⟨-, -, -, hpop⟩ := @C6_cache_refill sc2W PType.KERNEL (by decide) (by decide)
  refine ⟨by decide, by decide, by decide, ?_⟩
  intro idx s' hres
  have := hpop idx s' hres
  have hf : (vm_page_cpu_pool_fill sc2W.cpu_pool sc2W.seg).1 = 2 := by decide
  omega

/-- C7: vm_page_alloc_pa starts at the selector's segment index clamped
to the highest loaded index, walks downward trying each segment, and
returns the first success together with the updated table; when every
tried segment fails it returns NULL — except that a PMAP allocation
failure panics instead. -/
theorem C7_alloc_pa_selector {st : VmState} {ord : Nat} {sel : VmSel} {ty : PType}
    (hsz : 1 ≤ st.segs_size) :
    vm_page_select_alloc_seg st sel = min (st.segs_size - 1) (selSegIndex sel) ∧
    (vm_page_alloc_pa st ord sel ty = .ok none ↔
      (ty ≠ PType.PMAP ∧ ∀ k, k ≤ vm_page_select_alloc_seg st sel →
        vm_page_seg_alloc (st.segs k) ord ty = none)) ∧
    (vm_page_alloc_pa st ord sel ty =
        .error "vm_page: unable to allocate pmap page" ↔
      (ty = PType.PMAP ∧ ∀ k, k ≤ vm_page_select_alloc_seg st sel →
        vm_page_seg_alloc (st.segs k) ord ty = none)) ∧
    (∀ sIdx idx st', vm_page_alloc_pa st ord sel ty = .ok (some (sIdx, idx, st')) →
      sIdx ≤ vm_page_select_alloc_seg st sel ∧
      (∀ k, sIdx < k → k ≤ vm_page_select_alloc_seg st sel →
        vm_page_seg_alloc (st.segs k) ord ty = none) ∧
      ∃ s1, vm_page_seg_alloc (st.segs sIdx) ord ty = some (idx, s1) ∧
        st' = { st with segs := Function.update st.segs sIdx s1 }) := by
  have hstart : vm_page_select_alloc_seg st sel < st.segs_size := by
    rw [vm_page_select_alloc_seg]
    omega
  obtain ⟨wn, ws⟩ := @alloc_pa_loop_walk st ord ty (vm_page_select_alloc_seg st sel) hstart
  have hpa : vm_page_alloc_pa st ord sel ty =
      (match vm_page_alloc_pa_loop st ord ty (vm_page_select_alloc_seg st sel) with
       | some r => .ok (some r)
       | none =>
         if ty = PType.PMAP then .error "vm_page: unable to allocate pmap page"
         else .ok none) := by
    rw [vm_page_alloc_pa]
  refine ⟨rfl, ?_, ?_, ?_⟩
  · cases hl : vm_page_alloc_pa_loop st ord ty (vm_page_select_alloc_seg st sel) with
    | some r =>
      have hval : vm_page_alloc_pa st ord sel ty = .ok (some r) := by rw [hpa, hl]
      rw [hval]
      constructor
      · intro hc
        exact absurd hc (by simp)
      · rintro ⟨hty, hall⟩
        rw [wn.mpr hall] at hl
        exact Option.noConfusion hl
    | none =>
      have hval : vm_page_alloc_pa st ord sel ty =
          (if ty = PType.PMAP then .error "vm_page: unable to allocate pmap page"
           else .ok none) := by rw [hpa, hl]
      rw [hval]
      by_cases hty : ty = PType.PMAP
      · rw [if_pos hty]
        constructor
        · intro hc
          exact absurd hc (by simp)
        · rintro ⟨hty2, -⟩
          exact absurd hty hty2
      · rw [if_neg hty]
        exact ⟨fun _ => ⟨hty, wn.mp hl⟩, fun _ => rfl⟩
  · cases hl : vm_page_alloc_pa_loop st ord ty (vm_page_select_alloc_seg st sel) with
    | some r =>
      have hval : vm_page_alloc_pa st ord sel ty = .ok (some r) := by rw [hpa, hl]
      rw [hval]
      constructor
      · intro hc
        exact absurd hc (by simp)
      · rintro ⟨hty, hall⟩
        rw [wn.mpr hall] at hl
        exact Option.noConfusion hl
    | none =>
      have hval : vm_page_alloc_pa st ord sel ty =
          (if ty = PType.PMAP then .error "vm_page: unable to allocate pmap page"
           else .ok none) := by rw [hpa, hl]
      rw [hval]
      by_cases hty : ty = PType.PMAP
      · rw [if_pos hty]
        exact ⟨fun _ => ⟨hty, wn.mp hl⟩, fun _ => rfl⟩
      · rw [if_neg hty]
        constructor
        · intro hc
          exact absurd hc (by simp)
        · rintro ⟨hty2, -⟩
          exact absurd hty2 hty
  · intro sIdx idx st' hres
    rw [hpa] at hres
    cases hl : vm_page_alloc_pa_loop st ord ty (vm_page_select_alloc_seg st sel) with
    | some r =>
      rw [hl] at hres
      have hreq : r = (sIdx, idx, st') := by simpa using hres
      rw [hreq] at hl
      exact ws sIdx idx st' hl
    | none =>
      rw [hl] at hres
      by_cases hty : ty = PType.PMAP
      · rw [if_pos hty] at hres
        exact absurd hres (by simp)
      · rw [if_neg hty] at hres
        exact absurd hres (by simp)

theorem C7_alloc_pa_selector_witness :
    (1 ≤ st1W.segs_size) ∧
    vm_page_select_alloc_seg st1W VmSel.HIGHMEM =
      min (st1W.segs_size - 1) (selSegIndex VmSel.HIGHMEM) ∧
    (∀ sIdx idx st',
      vm_page_alloc_pa st1W 0 VmSel.HIGHMEM PType.KERNEL = .ok (some (sIdx, idx, st')) →
      sIdx ≤ vm_page_select_alloc_seg st1W VmSel.HIGHMEM) := by
  obtain ⟨w1, -, -, w4⟩ :=
    @C7_alloc_pa_selector st1W 0 VmSel.HIGHMEM PType.KERNEL (by decide)
  exact ⟨by decide, w1, fun sIdx idx st' hres => (w4 sIdx idx st' hres).1⟩

/-- C8: on the baremetal path, bootalloc(n) panics when n = 0; when the
decremented cursor stays at or above the heap start it returns the new
cursor cur - n * page_size and stores it; and when the allocation would
cross the heap start (or wrap above the old cursor) it panics.  No
other outcome exists: there is no NULL return and no freeing. -/
theorem C8_bootalloc {h : BiosmemHeap} {nr_pages : Nat}
    (hcur : h.heap_cur < U32) (hwf : h.heap_start ≤ h.heap_cur)
    (hsz : vm_page_ptoa nr_pages < U32) :
    (nr_pages = 0 →
      biosmem_bootalloc h nr_pages = .error "biosmem: attempt to allocate 0 page") ∧
    (0 < nr_pages → h.heap_start + vm_page_ptoa nr_pages ≤ h.heap_cur →
      biosmem_bootalloc h nr_pages =
        .ok (h.heap_cur - vm_page_ptoa nr_pages,
          { h with heap_cur := h.heap_cur - vm_page_ptoa nr_pages })) ∧
    (0 < nr_pages → h.heap_cur < h.heap_start + vm_page_ptoa nr_pages →
      biosmem_bootalloc h nr_pages = .error "biosmem: unable to allocate memory") := by
  have hU32 : 0 < U32 := by norm_num [U32]
  have hps : (0 : Nat) < PAGE_SIZE := by norm_num [PAGE_SIZE]
  refine ⟨?_, ?_, ?_⟩
  · intro h0
    subst h0
    rw [biosmem_bootalloc]
    have : vm_page_ptoa 0 % U32 = 0 := by norm_num [vm_page_ptoa]
    rw [this, if_pos rfl]
  · intro hpos hroom
    have hszpos : 0 < vm_page_ptoa nr_pages := by
      unfold vm_page_ptoa
      exact Nat.mul_pos hpos hps
    have hmod : vm_page_ptoa nr_pages % U32 = vm_page_ptoa nr_pages :=
      Nat.mod_eq_of_lt hsz
    rw [biosmem_bootalloc]
    simp only [hmod]
    rw [if_neg (by omega)]
    have haddr : (h.heap_cur + (U32 - vm_page_ptoa nr_pages)) % U32 =
        h.heap_cur - vm_page_ptoa nr_pages := by
      have h1 : h.heap_cur + (U32 - vm_page_ptoa nr_pages) =
          U32 + (h.heap_cur - vm_page_ptoa nr_pages) := by omega
      rw [h1, Nat.add_mod_left, Nat.mod_eq_of_lt (by omega)]
    rw [haddr, if_neg (by omega)]
  · intro hpos hcross
    have hszpos : 0 < vm_page_ptoa nr_pages := by
      unfold vm_page_ptoa
      exact Nat.mul_pos hpos hps
    have hmod : vm_page_ptoa nr_pages % U32 = vm_page_ptoa nr_pages :=
      Nat.mod_eq_of_lt hsz
    rw [biosmem_bootalloc]
    simp only [hmod]
    rw [if_neg (by omega)]
    by_cases hfits : vm_page_ptoa nr_pages ≤ h.heap_cur
    · have haddr : (h.heap_cur + (U32 - vm_page_ptoa nr_pages)) % U32 =
          h.heap_cur - vm_page_ptoa nr_pages := by
        have h1 : h.heap_cur + (U32 - vm_page_ptoa nr_pages) =
            U32 + (h.heap_cur - vm_page_ptoa nr_pages) := by omega
        rw [h1, Nat.add_mod_left, Nat.mod_eq_of_lt (by omega)]
      rw [haddr, if_pos (by omega)]
    · have haddr : (h.heap_cur + (U32 - vm_page_ptoa nr_pages)) % U32 =
          h.heap_cur + (U32 - vm_page_ptoa nr_pages) :=
        Nat.mod_eq_of_lt (by omega)
      rw [haddr, if_pos (by omega)]

theorem C8_bootalloc_witness :
    (heap8W.heap_cur < U32 ∧ heap8W.heap_start ≤ heap8W.heap_cur ∧
      vm_page_ptoa 1 < U32 ∧ vm_page_ptoa 2048 < U32) ∧
    biosmem_bootalloc heap8W 1 =
      .ok (heap8W.heap_cur - vm_page_ptoa 1,
        { heap8W with heap_cur := heap8W.heap_cur - vm_page_ptoa 1 }) ∧
    biosmem_bootalloc heap8W 0 = .error "biosmem: attempt to allocate 0 page" ∧
    biosmem_bootalloc heap8W 2048 = .error "biosmem: unable to allocate memory" := by
  obtain ⟨-, w2, -⟩ := @C8_bootalloc heap8W 1 (by decide) (by decide) (by decide)
  obtain ⟨w0, -, -⟩ := @C8_bootalloc heap8W 0 (by decide) (by decide) (by decide)
  obtain ⟨-, -, w3⟩ := @C8_bootalloc heap8W 2048 (by decide) (by decide) (by decide)
  exact ⟨⟨by decide, by decide, by decide, by decide⟩,
    w2 (by decide) (by decide), w0 rfl, w3 (by decide) (by decide)⟩

/-- C9: CORRECTED. The claim that phys_last_addr records the highest end
address among all loaded segments fails when a HIGHMEM segment loads:
the code never updates it past the DIRECTMAP segment's end.  On the
concrete 8 GiB machine cfg9/map9 the HIGHMEM segment is loaded and ends
above the recorded value.  What does hold, for every configuration and
adjusted map whose partition succeeds: phys_last_addr is the end of the
last loaded segment among DMA, DMA32, DIRECTMAP — the end of DMA when
no DMA32 memory is found, of DMA32 when no DIRECTMAP memory is found,
and of DIRECTMAP otherwise, regardless of HIGHMEM. -/
theorem C9_phys_last_addr (cfg : BiosmemConfig) (m : List BiosmemMapEntry)
    (hok : (biosmem_bootstrap_partition cfg m).isOk = true) :
    (partitionSegEnd (biosmem_bootstrap_partition cfg9 map9) VM_PAGE_SEG_HIGHMEM ≠ 0 ∧
     partitionLast (biosmem_bootstrap_partition cfg9 map9) <
       partitionSegEnd (biosmem_bootstrap_partition cfg9 map9) VM_PAGE_SEG_HIGHMEM) ∧
    (biosmem_map_find_avail m cfg.dma_limit cfg.dma32_limit = none →
      partitionLast (biosmem_bootstrap_partition cfg m) =
        partitionSegEnd (biosmem_bootstrap_partition cfg m) VM_PAGE_SEG_DMA) ∧
    (∀ r2, biosmem_map_find_avail m cfg.dma_limit cfg.dma32_limit = some r2 →
      biosmem_map_find_avail m cfg.dma32_limit cfg.directmap_limit = none →
      partitionLast (biosmem_bootstrap_partition cfg m) =
        partitionSegEnd (biosmem_bootstrap_partition cfg m) VM_PAGE_SEG_DMA32) ∧
    (∀ r2 r3, biosmem_map_find_avail m cfg.dma_limit cfg.dma32_limit = some r2 →
      biosmem_map_find_avail m cfg.dma32_limit cfg.directmap_limit = some r3 →
      partitionLast (biosmem_bootstrap_partition cfg m) =
        partitionSegEnd (biosmem_bootstrap_partition cfg m) VM_PAGE_SEG_DIRECTMAP) := by
  refine ⟨⟨by decide, by decide⟩, ?_, ?_, ?_⟩
  all_goals
    cases h1 : biosmem_map_find_avail m cfg.biosmem_base cfg.dma_limit with
    | none =>
      have hval : biosmem_bootstrap_partition cfg m =
          .error "biosmem: unable to find any memory segment" := by
        rw [biosmem_bootstrap_partition, h1]
      rw [hval] at hok
      exact absurd hok (by decide)
    | some r1 => ?_
  · intro h2
    have hval : biosmem_bootstrap_partition cfg m =
        .ok (Function.update (fun _ => (0, 0)) VM_PAGE_SEG_DMA r1, r1.2) := by
      rw [biosmem_bootstrap_partition, h1, h2]
    rw [hval]
    rfl
  · intro r2 h2 h3
    have hval : biosmem_bootstrap_partition cfg m =
        .ok (Function.update
          (Function.update (fun _ => (0, 0)) VM_PAGE_SEG_DMA r1)
          VM_PAGE_SEG_DMA32 r2, r2.2) := by
      rw [biosmem_bootstrap_partition, h1, h2, h3]
    rw [hval]
    rfl
  · intro r2 r3 h2 h3
    cases h4 : biosmem_map_find_avail m cfg.directmap_limit cfg.highmem_limit with
    | none =>
      have hval : biosmem_bootstrap_partition cfg m =
          .ok (Function.update (Function.update
            (Function.update (fun _ => (0, 0)) VM_PAGE_SEG_DMA r1)
            VM_PAGE_SEG_DMA32 r2) VM_PAGE_SEG_DIRECTMAP r3, r3.2) := by
        rw [biosmem_bootstrap_partition, h1, h2, h3, h4]
      rw [hval]
      rfl
    | some r4 =>
      have hval : biosmem_bootstrap_partition cfg m =
          .ok (Function.update (Function.update (Function.update
            (Function.update (fun _ => (0, 0)) VM_PAGE_SEG_DMA r1)
            VM_PAGE_SEG_DMA32 r2) VM_PAGE_SEG_DIRECTMAP r3)
            VM_PAGE_SEG_HIGHMEM r4, r3.2) := by
        rw [biosmem_bootstrap_partition, h1, h2, h3, h4]
      rw [hval]
      show r3.2 = (Function.update (Function.update (Function.update
        (Function.update (fun _ => (0, 0)) VM_PAGE_SEG_DMA r1)
        VM_PAGE_SEG_DMA32 r2) VM_PAGE_SEG_DIRECTMAP r3)
        VM_PAGE_SEG_HIGHMEM r4 VM_PAGE_SEG_DIRECTMAP).2
      rw [Function.update_noteq (by decide), Function.update_same]

theorem C9_phys_last_addr_witness :
    (biosmem_bootstrap_partition cfg9 map9).isOk = true ∧
    biosmem_map_find_avail map9 cfg9.dma_limit cfg9.dma32_limit ≠ none ∧
    biosmem_map_find_avail map9 cfg9.dma32_limit cfg9.directmap_limit ≠ none ∧
    partitionLast (biosmem_bootstrap_partition cfg9 map9) <
      partitionSegEnd (biosmem_bootstrap_partition cfg9 map9) VM_PAGE_SEG_HIGHMEM := by
  obtain ⟨⟨-, wlt⟩, -, -, -⟩ := C9_phys_last_addr cfg9 map9 (by decide)
  exact ⟨by decide, by decide, by decide, wlt⟩

/-- C10: biosmem_directmap_size returns the end of the DIRECTMAP segment
when it is non-empty, otherwise the end of the DMA32 segment when that
is non-empty, and otherwise the end of the DMA segment; in particular
the result is positive whenever the DMA segment was loaded. -/
theorem C10_directmap_size {segs : Nat → Nat × Nat}
    (hdma : (segs VM_PAGE_SEG_DMA).1 < (segs VM_PAGE_SEG_DMA).2) :
    (biosmem_segment_size segs VM_PAGE_SEG_DIRECTMAP ≠ 0 →
      biosmem_directmap_size segs = biosmem_segment_end segs VM_PAGE_SEG_DIRECTMAP) ∧
    (biosmem_segment_size segs VM_PAGE_SEG_DIRECTMAP = 0 →
      biosmem_segment_size segs VM_PAGE_SEG_DMA32 ≠ 0 →
      biosmem_directmap_size segs = biosmem_segment_end segs VM_PAGE_SEG_DMA32) ∧
    (biosmem_segment_size segs VM_PAGE_SEG_DIRECTMAP = 0 →
      biosmem_segment_size segs VM_PAGE_SEG_DMA32 = 0 →
      biosmem_directmap_size segs = biosmem_segment_end segs VM_PAGE_SEG_DMA) ∧
    0 < biosmem_directmap_size segs := by
  refine ⟨?_, ?_, ?_, ?_⟩
  · intro hd
    rw [biosmem_directmap_size, if_pos hd]
  · intro hd h32
    rw [biosmem_directmap_size, if_neg (by omega), if_pos h32]
  · intro hd h32
    rw [biosmem_directmap_size, if_neg (by omega), if_neg (by omega)]
  · rw [biosmem_directmap_size]
    unfold biosmem_segment_size biosmem_segment_end at *
    split_ifs <;> omega

theorem C10_directmap_size_witness :
    ((segs10W VM_PAGE_SEG_DMA).1 < (segs10W VM_PAGE_SEG_DMA).2) ∧
    biosmem_segment_size segs10W VM_PAGE_SEG_DIRECTMAP = 0 ∧
    biosmem_segment_size segs10W VM_PAGE_SEG_DMA32 ≠ 0 ∧
    biosmem_directmap_size segs10W = biosmem_segment_end segs10W VM_PAGE_SEG_DMA32 ∧
    0 < biosmem_directmap_size segs10W := by
  obtain ⟨-, w2, -, w4⟩ := @C10_directmap_size segs10W (by decide)
  exact ⟨by decide, by decide, by decide, w2 (by decide) (by decide), w4⟩

/-- Counterexample to C5's unconditional merge clause: the entries
(0,5,type 1) and (0,10,type 2) intersect, after the rewrite an
equal-type neighbor for the intersection exists, yet the code takes the
invalid-entry continuation (the rewritten slot-b entry is degenerate)
and the adjusted map keeps two adjacent same-type entries unmerged. -/
theorem C5_merge_clause_counterexample :
    entA5.base_addr < add64 entB5.base_addr entB5.length ∧
    entB5.base_addr < add64 entA5.base_addr entA5.length ∧
    (biosmem_map_adjust_pair entA5 entB5 (add64 entA5.base_addr entA5.length)).kase =
      .bInvalid ∧
    (biosmem_map_adjust_pair entA5 entB5 (add64 entA5.base_addr entA5.length)).tmp.type =
      (biosmem_map_adjust_pair entA5 entB5
        (add64 entA5.base_addr entA5.length)).newA.type ∧
    biosmem_map_adjust [entA5, entB5] = .ok [⟨0, 5, 2⟩, ⟨5, 5, 2⟩] := by
  exact ⟨by decide, by decide, by decide, by decide, by decide⟩

/-- Counterexample to C9 as claimed: on the 8 GiB machine cfg9/map9 the
partition succeeds, the HIGHMEM segment is loaded (non-zero end), and
the recorded phys_last_addr is strictly below that segment's end, so it
is not the highest end address among all loaded segments. -/
theorem C9_highmem_counterexample :
    (biosmem_bootstrap_partition cfg9 map9).isOk = true ∧
    partitionSegEnd (biosmem_bootstrap_partition cfg9 map9) VM_PAGE_SEG_HIGHMEM ≠ 0 ∧
    partitionLast (biosmem_bootstrap_partition cfg9 map9) <
      partitionSegEnd (biosmem_bootstrap_partition cfg9 map9) VM_PAGE_SEG_HIGHMEM := by
  exact ⟨by decide, by decide, by decide⟩
